import Mathlib

/-!
# SM.AI expression evaluator (`src/sm_ai.cpp`)

A shallow embedding of `MathEvaluator`: the shunting-yard converter
(`shuntingYard`), the postfix evaluator (`evaluateRPN`) and the entry point
`evaluate`, followed by theorems about them.

Conventions of the embedding.

* A `std::string` is a Lean `String`; the scanning loop runs over its list of
  characters.  `isdigit`, `isalpha` and `isspace` are the "C" locale
  classifications.
* A `std::stack` is a `List` whose head is the top of the stack; the output
  queue is a `List` in emission order.
* A thrown `std::runtime_error` is an `Except.error` carrying an `EvalError`.
* `double` and the C library routines the evaluator calls (`strtod`,
  `std::stod`, `std::pow`, `std::abs` and the arithmetic operators) are not
  part of the repository: they are the fields of the parameter `FloatEnv`.
-/

namespace SMAI

/-! ## Errors -/

/-- The failures of `MathEvaluator`, one constructor per thrown message. -/
inductive EvalError where
  /-- "Error: Empty expression." -/
  | EmptyExpression
  /-- "Error: Mismatched parentheses." -/
  | MismatchedParentheses
  /-- "Error: Unknown function or identifier: NAME. Only abs is supported." -/
  | UnknownIdentifier (name : String)
  /-- "Error: Insufficient operands for unary operator.",
  "Error: Insufficient arguments for function NAME" and
  "Error: Insufficient operands for operation." -/
  | InsufficientOperands
  /-- "Error: Division by zero." -/
  | DivisionByZero
  /-- "Error: Expression contains extraneous values or operators." -/
  | MalformedExpression
  /-- The exception `std::out_of_range` that `std::stod` throws for a literal
  whose value does not fit a `double`. -/
  | NumberOutOfRange
  deriving DecidableEq, Repr

deriving instance DecidableEq for Except

/-! ## Character classes and token predicates -/

/-- C `isdigit`. -/
def isdigit (c : Char) : Bool := decide ('0' ≤ c) && decide (c ≤ '9')

/-- C `isalpha` in the "C" locale. -/
def isalpha (c : Char) : Bool :=
  (decide ('a' ≤ c) && decide (c ≤ 'z')) || (decide ('A' ≤ c) && decide (c ≤ 'Z'))

/-- C `isspace` in the "C" locale: space, `\t`, `\n`, `\v`, `\f`, `\r`. -/
def isspace (c : Char) : Bool :=
  c == ' ' || (decide (9 ≤ c.toNat) && decide (c.toNat ≤ 13))

/-- The test of the number-scanning loop: `isdigit(c) || c == '.'`. -/
def isNumChar (c : Char) : Bool := isdigit c || c == '.'

/-- `MathEvaluator::isFunction`. -/
def isFunction (token : String) : Bool := token == "abs"

/-- `MathEvaluator::getPrecedence`. -/
def getPrecedence (op : String) : Nat :=
  if op == "+" || op == "-" then 1
  else if op == "*" || op == "/" then 2
  else if op == "^" then 3
  else if op == "~" then 4
  else 0

/-- `MathEvaluator::isRightAssociative`. -/
def isRightAssociative (op : String) : Bool := op == "^" || op == "~"

/-- `MathEvaluator::isOperator`. -/
def isOperator (token : String) : Bool :=
  token == "+" || token == "-" || token == "*" || token == "/" || token == "^" || token == "~"

/-- `MathEvaluator::isParenthesis`. -/
def isParenthesis (token : String) : Bool := token == "(" || token == ")"

/-! ## Shunting-yard -/

/-- The condition under which the operator loop pops `op2` for the incoming
operator `op1`. -/
def shouldPop (op1 op2 : String) : Bool :=
  isOperator op2 &&
    ((!isRightAssociative op1 && decide (getPrecedence op1 ≤ getPrecedence op2)) ||
     (isRightAssociative op1 && decide (getPrecedence op1 < getPrecedence op2)))

/-- The `while (!operatorStack.empty())` loop of the two operator branches:
pops dominated operators to the output queue and returns the new queue and
stack (before `op1` is pushed). -/
def popOperators (op1 : String) : List String → List String → List String × List String
  | out, [] => (out, [])
  | out, op2 :: rest =>
    if shouldPop op1 op2 then popOperators op1 (out ++ [op2]) rest
    else (out, op2 :: rest)

/-- The `while (!operatorStack.empty() && operatorStack.top() != "(")` loop of
the closing-parenthesis branch. -/
def popUntilParen : List String → List String → List String × List String
  | out, [] => (out, [])
  | out, t :: rest =>
    if t != "(" then popUntilParen (out ++ [t]) rest
    else (out, t :: rest)

/-- The final `while (!operatorStack.empty())` loop. -/
def drain : List String → List String → Except EvalError (List String)
  | out, [] => .ok out
  | out, t :: rest =>
    if isParenthesis t then .error .MismatchedParentheses
    else drain (out ++ [t]) rest

/-- The `for` loop of `shuntingYard` over the characters not yet visited.
`skip` is the number of leading characters the inner scanning loop of the
previous iteration has already consumed (the source advances `i` past them). -/
def scan : List Char → Nat → List String → List String → Bool →
    Except EvalError (List String)
  | [], _, out, stack, _ => drain out stack
  | _ :: cs, skip + 1, out, stack, expect => scan cs skip out stack expect
  | c :: cs, 0, out, stack, expect =>
    if isdigit c || c == '.' then
      let run := cs.takeWhile isNumChar
      scan cs run.length (out ++ [String.mk (c :: run)]) stack false
    else if c == '(' then
      scan cs 0 out ("(" :: stack) true
    else if c == ')' then
      match popUntilParen out stack with
      | (_, []) => .error .MismatchedParentheses
      | (out1, _ :: s1) =>
        match s1 with
        | f :: s2 =>
          if isFunction f then scan cs 0 (out1 ++ [f]) s2 false
          else scan cs 0 out1 s1 false
        | [] => scan cs 0 out1 s1 false
    else if c == '-' && expect then
      let r := popOperators "~" out stack
      scan cs 0 r.1 ("~" :: r.2) true
    else if isOperator (String.singleton c) then
      let r := popOperators (String.singleton c) out stack
      scan cs 0 r.1 (String.singleton c :: r.2) true
    else if isalpha c then
      let run := cs.takeWhile isalpha
      if isFunction (String.mk (c :: run)) then
        scan cs run.length out (String.mk (c :: run) :: stack) expect
      else .error (.UnknownIdentifier (String.mk (c :: run)))
    else scan cs 0 out stack expect

/-- `MathEvaluator::shuntingYard`. -/
def shuntingYard (expression : String) : Except EvalError (List String) :=
  scan expression.data 0 [] [] true

/-! ## Postfix evaluation -/

/-- The floating-point environment of the evaluator: the type `double` and the
library routines `evaluateRPN` calls on it.  None of them is defined in the
repository, so the embedding takes them as a parameter. -/
structure FloatEnv where
  /-- The type `double`. -/
  F : Type
  /-- Whether `strtod(token.c_str(), &p)` stops at the terminating NUL, that
  is whether `*p == 0` holds afterwards. -/
  strtodFull : String → Bool
  /-- The result of `std::stod(token)`; `none` when it throws
  (`std::out_of_range`, or `std::invalid_argument` when the text does not start
  with a number, which cannot happen for a token `isNumber` accepts). -/
  stod : String → Option F
  /-- The literal `0` that initialises `result`. -/
  zero : F
  /-- Addition `val1 + val2`. -/
  add : F → F → F
  /-- Subtraction `val1 - val2`. -/
  sub : F → F → F
  /-- Multiplication `val1 * val2`. -/
  mul : F → F → F
  /-- Division `val1 / val2`. -/
  div : F → F → F
  /-- The library power `std::pow(val1, val2)`. -/
  pow : F → F → F
  /-- Negation `-val`. -/
  neg : F → F
  /-- The library absolute value `std::abs(val)`. -/
  abs : F → F
  /-- The comparison `val == 0`. -/
  isZero : F → Bool

/-- `MathEvaluator::isNumber`. -/
def isNumber (A : FloatEnv) (token : String) : Bool :=
  if token.data.isEmpty then false else A.strtodFull token

/-- The body of the binary-operator branch of `evaluateRPN` once both operands
have been popped. -/
def applyBinary (A : FloatEnv) (token : String) (val1 val2 : A.F) : Except EvalError A.F :=
  if token == "+" then .ok (A.add val1 val2)
  else if token == "-" then .ok (A.sub val1 val2)
  else if token == "*" then .ok (A.mul val1 val2)
  else if token == "/" then
    if A.isZero val2 then .error .DivisionByZero else .ok (A.div val1 val2)
  else if token == "^" then .ok (A.pow val1 val2)
  else .ok A.zero

/-- One iteration of the `for` loop of `evaluateRPN`: the effect of `token` on
the value stack. -/
def evalToken (A : FloatEnv) (valueStack : List A.F) (token : String) :
    Except EvalError (List A.F) :=
  if isNumber A token then
    match A.stod token with
    | some v => .ok (v :: valueStack)
    | none => .error .NumberOutOfRange
  else if token == "~" then
    match valueStack with
    | [] => .error .InsufficientOperands
    | val :: rest => .ok (A.neg val :: rest)
  else if isFunction token then
    match valueStack with
    | [] => .error .InsufficientOperands
    | val :: rest => if token == "abs" then .ok (A.abs val :: rest) else .ok rest
  else if isOperator token then
    match valueStack with
    | val2 :: val1 :: rest =>
      match applyBinary A token val1 val2 with
      | .ok result => .ok (result :: rest)
      | .error e => .error e
    | _ => .error .InsufficientOperands
  else .ok valueStack

/-- The `for` loop of `evaluateRPN`, started on a given value stack. -/
def evalTokens (A : FloatEnv) : List A.F → List String → Except EvalError (List A.F)
  | valueStack, [] => .ok valueStack
  | valueStack, token :: rest =>
    match evalToken A valueStack token with
    | .ok valueStack1 => evalTokens A valueStack1 rest
    | .error e => .error e

/-- `MathEvaluator::evaluateRPN`. -/
def evaluateRPN (A : FloatEnv) (rpn : List String) : Except EvalError A.F :=
  match evalTokens A [] rpn with
  | .ok [v] => .ok v
  | .ok _ => .error .MalformedExpression
  | .error e => .error e

/-- `MathEvaluator::evaluate`. -/
def evaluate (A : FloatEnv) (expression : String) : Except EvalError A.F :=
  let cleaned_expr := String.mk (expression.data.filter (fun c => !isspace c))
  if cleaned_expr.data.isEmpty then .error .EmptyExpression
  else
    match shuntingYard cleaned_expr with
    | .ok rpn => evaluateRPN A rpn
    | .error e => .error e

/-! ## An exact environment

The theorems below hold for every `FloatEnv`.  To evaluate concrete
expressions the development also fixes one environment, in which values are
rationals computed exactly and a token is a number when it is a decimal
literal.  On the literals and results of the examples used here (small
integers) IEEE double arithmetic is exact as well, so the two agree there. -/

/-- A decimal literal: digits with at most one `.` and at least one digit. -/
def isDecimal (token : String) : Bool :=
  token.data.all isNumChar && decide (token.data.count '.' ≤ 1) && token.data.any isdigit

/-- The natural number written by a list of digits, most significant first. -/
def digitsValue (ds : List Char) : Nat :=
  ds.foldl (fun n c => 10 * n + (c.toNat - '0'.toNat)) 0

/-- The rational written by a decimal literal. -/
def decimalValue (token : String) : ℚ :=
  let ip := token.data.takeWhile isdigit
  let fp := (token.data.dropWhile isdigit).drop 1
  (digitsValue ip : ℚ) + (digitsValue fp : ℚ) / (10 : ℚ) ^ fp.length

/-- The exact environment: rational values, decimal literals, and `pow`
computed for integer exponents (another exponent yields `0`, which is not the
value of `std::pow`; no statement below depends on it). -/
def exactEnv : FloatEnv where
  F := ℚ
  strtodFull := isDecimal
  stod := fun t => some (decimalValue t)
  zero := 0
  add := fun x y => x + y
  sub := fun x y => x - y
  mul := fun x y => x * y
  div := fun x y => x / y
  pow := fun x y => if y.den = 1 then x ^ y.num else 0
  neg := fun x => -x
  abs := fun x => |x|
  isZero := fun x => decide (x = 0)

instance : DecidableEq exactEnv.F := inferInstanceAs (DecidableEq ℚ)

/-! ## Reference expression trees

The trees, their infix rendering, their post-order token list and their
recursive evaluation, as the specification describes them.  These are the
reference against which the parser and the evaluator are compared; they are
not part of the source. -/

/-- The binary operators. -/
inductive BinOp where
  | add | sub | mul | div | pow
  deriving DecidableEq, Repr

/-- The character of a binary operator. -/
def BinOp.chr : BinOp → Char
  | .add => '+' | .sub => '-' | .mul => '*' | .div => '/' | .pow => '^'

/-- The token of a binary operator. -/
def BinOp.tok : BinOp → String
  | .add => "+" | .sub => "-" | .mul => "*" | .div => "/" | .pow => "^"

/-- Expression trees over number literals. -/
inductive Expr where
  | num (d : String)
  | bin (op : BinOp) (l r : Expr)
  | neg (x : Expr)
  | abs (x : Expr)
  deriving Repr

/-- The fully parenthesised infix text of a tree. -/
def render : Expr → String
  | .num d => d
  | .bin op l r => "(" ++ render l ++ op.tok ++ render r ++ ")"
  | .neg x => "(-" ++ render x ++ ")"
  | .abs x => "abs(" ++ render x ++ ")"

/-- The post-order token list of a tree; unary minus is written `~`. -/
def post : Expr → List String
  | .num d => [d]
  | .bin op l r => post l ++ post r ++ [op.tok]
  | .neg x => post x ++ ["~"]
  | .abs x => post x ++ ["abs"]

/-- The number literals of a tree. -/
def literals : Expr → List String
  | .num d => [d]
  | .bin _ l r => literals l ++ literals r
  | .neg x => literals x
  | .abs x => literals x

/-- The reference meaning of a binary operator; `/` fails on a zero divisor. -/
def BinOp.apply (A : FloatEnv) : BinOp → A.F → A.F → Except EvalError A.F
  | .add, x, y => .ok (A.add x y)
  | .sub, x, y => .ok (A.sub x y)
  | .mul, x, y => .ok (A.mul x y)
  | .div, x, y => if A.isZero y then .error .DivisionByZero else .ok (A.div x y)
  | .pow, x, y => .ok (A.pow x y)

/-- The recursive reference evaluation of a tree: the left operand is
evaluated before the right one, and a literal that `std::stod` cannot convert
fails with `NumberOutOfRange`. -/
def refEval (A : FloatEnv) : Expr → Except EvalError A.F
  | .num d =>
    match A.stod d with
    | some v => .ok v
    | none => .error .NumberOutOfRange
  | .bin op l r =>
    match refEval A l with
    | .error e => .error e
    | .ok x =>
      match refEval A r with
      | .error e => .error e
      | .ok y => op.apply A x y
  | .neg x =>
    match refEval A x with
    | .error e => .error e
    | .ok v => .ok (A.neg v)
  | .abs x =>
    match refEval A x with
    | .error e => .error e
    | .ok v => .ok (A.abs v)

/-- The environment reads the token `t` as the number `v`: `isNumber` accepts
it and `std::stod` returns `v`. -/
def FloatEnv.Reads (A : FloatEnv) (t : String) (v : A.F) : Prop :=
  isNumber A t = true ∧ A.stod t = some v

/-- The property of `strtod` that the dispatch of `evaluateRPN` relies on: it
does not read an operator token or the function name as a number. -/
def FloatEnv.SymbolsNotNumbers (A : FloatEnv) : Prop :=
  ∀ t ∈ ["+", "-", "*", "/", "^", "~", "abs"], A.strtodFull t = false

/-- Every literal of the tree is a non-empty run of digits and `.`. -/
def LiteralRuns (e : Expr) : Prop :=
  ∀ d ∈ literals e, d.data ≠ [] ∧ ∀ c ∈ d.data, isNumChar c = true

/-! ## Parenthesis balance -/

/-- Unbalanced parentheses: some prefix contains more `)` than `(`, or the
total numbers of `(` and `)` differ. -/
def Unbalanced (s : String) : Prop :=
  (∃ n, (s.data.take n).count '(' < (s.data.take n).count ')') ∨
    s.data.count '(' ≠ s.data.count ')'

/-- Whether the characters close exactly `depth` open parentheses and are
balanced among themselves. -/
def balancedFrom : Nat → List Char → Bool
  | depth, [] => depth == 0
  | depth, c :: cs =>
    if c == '(' then balancedFrom (depth + 1) cs
    else if c == ')' then
      match depth with
      | 0 => false
      | d + 1 => balancedFrom d cs
    else balancedFrom depth cs

/-! ## Identifiers -/

/-- The characters `r` are a maximal run of alphabetic characters of the text
`u ++ r ++ v`: they are alphabetic, and neither the character before them nor
the character after them is. -/
def MaximalRun (u r v : List Char) : Prop :=
  r ≠ [] ∧ (∀ c ∈ r, isalpha c = true) ∧ (∀ c ∈ u.getLast?, isalpha c = false) ∧
    (∀ c ∈ v.head?, isalpha c = false)

/-! ## Token counts -/

/-- A binary operator token: one of `+ - * / ^`. -/
def isBinaryOperator (token : String) : Bool :=
  token == "+" || token == "-" || token == "*" || token == "/" || token == "^"

/-- A token of a postfix sequence: a valid number token (a decimal literal), a
binary operator, `~` or `abs`. -/
def PostfixToken (t : String) : Prop :=
  isDecimal t = true ∨ (∃ op : BinOp, t = op.tok) ∨ t = "~" ∨ t = "abs"

/-- The property of `strtod` on decimal literals: it reads the whole of every
decimal literal (digits with at most one `.` and at least one digit). -/
def FloatEnv.AcceptsDecimals (A : FloatEnv) : Prop :=
  ∀ t : String, isDecimal t = true → A.strtodFull t = true

/-- The property of `strtod` on non-empty runs of digits and `.`: it reads the
whole run only when the run is a decimal literal (at most one `.`, at least
one digit). -/
def FloatEnv.RejectsMalformed (A : FloatEnv) : Prop :=
  ∀ t : String, t.data ≠ [] → (∀ c ∈ t.data, isNumChar c = true) → isDecimal t = false →
    A.strtodFull t = false

/-! ## Positions of the minus sign -/

/-- A character of the alphabet `0-9 . ( ) + - * / ^`. -/
def isExprChar (c : Char) : Bool :=
  isdigit c || c == '.' || c == '(' || c == ')' || c == '+' || c == '-' || c == '*' ||
    c == '/' || c == '^'

/-- The position is the first of the input, or the previous character is `(`
or one of `+ - * / ^`. -/
def unaryContext : Option Char → Bool
  | none => true
  | some p => p == '(' || p == '+' || p == '-' || p == '*' || p == '/' || p == '^'

/-- The previous character is a digit, `.` or `)`. -/
def binaryContext : Option Char → Bool
  | none => false
  | some p => isdigit p || p == '.' || p == ')'

/-- The number of `-` characters whose previous character satisfies `ctx`;
`prev` is the character before the first one of the list. -/
def minusCount (ctx : Option Char → Bool) : Option Char → List Char → Nat
  | _, [] => 0
  | prev, c :: cs => (if c == '-' && ctx prev then 1 else 0) + minusCount ctx (some c) cs

/-! ## Result formatting -/

/-- The index returned by `s.find_last_not_of(ch)`: the position of the last
character different from `ch`, or `none` for `npos` when there is none. -/
def find_last_not_of (s : List Char) (ch : Char) : Option Nat :=
  let trailing := (s.reverse.takeWhile (fun c => c == ch)).length
  if trailing = s.length then none else some (s.length - trailing - 1)

/-- The function `format_double`; `fixed` gives the text that
`ss << std::fixed << std::setprecision(6) << value` writes, a library routine
taken as a parameter.  In `find_last_not_of('0') + 1` the sum `npos + 1` wraps
to `0`.  (On an empty string `s.back()` is undefined; the model then returns
the empty string.) -/
def format_double {α : Type} (fixed : α → String) (value : α) : String :=
  let s := (fixed value).data
  let s1 := s.take (match find_last_not_of s '0' with
    | none => 0
    | some pos => pos + 1)
  if s1.getLast? = some '.' then String.mk s1.dropLast else String.mk s1

/-- The characters of a text without its trailing `0` characters. -/
def stripTrailingZeros (l : List Char) : List Char :=
  (l.reverse.dropWhile (fun c => c == '0')).reverse

/-- The text `r` is a fixed rendering with six decimals: an integer part
`ip` without a decimal point, the decimal point, and six digits `fp`. -/
def IsFixedRendering (r : String) (ip fp : List Char) : Prop :=
  r.data = ip ++ '.' :: fp ∧ '.' ∉ ip ∧ fp.length = 6 ∧ ∀ c ∈ fp, isdigit c = true

/-- The decimal digits of a natural number, at least `width` of them. -/
def paddedDigits (width n : Nat) : List Char :=
  let ds := Nat.toDigits 10 n
  List.replicate (width - ds.length) '0' ++ ds

/-- Rounding a non-negative rational to the nearest natural number, ties to
even. -/
def roundHalfEven (y : ℚ) : Nat :=
  let f := y.num.toNat / y.den
  let r := y - f
  if r < 1 / 2 then f else if 1 / 2 < r then f + 1 else if f % 2 = 0 then f else f + 1

/-- The fixed rendering with six decimals of an exact rational value, the
counterpart in the exact environment of what `operator<<` writes under
`std::fixed` and `std::setprecision(6)`. -/
def fixed6 (x : ℚ) : String :=
  let n := roundHalfEven (|x| * 1000000)
  String.mk ((if x < 0 then ['-'] else []) ++ Nat.toDigits 10 (n / 1000000) ++ '.' ::
    paddedDigits 6 (n % 1000000))

/-! ## Unit conversion -/

/-- C `tolower` in the "C" locale. -/
def tolower (c : Char) : Char :=
  if 'A' ≤ c ∧ c ≤ 'Z' then Char.ofNat (c.toNat + 32) else c

/-- The function `to_lower`. -/
def to_lower (s : String) : String := String.mk (s.data.map tolower)

/-- The words that successive `ss >> word` extractions read from a text:
its maximal runs of non-whitespace characters; `cur` is the word being
read. -/
def wordsFrom : List Char → List Char → List String
  | [], cur => if cur.isEmpty then [] else [String.mk cur]
  | c :: cs, cur =>
    if isspace c then
      if cur.isEmpty then wordsFrom cs [] else String.mk cur :: wordsFrom cs []
    else wordsFrom cs (cur ++ [c])

/-- The double literals that `evaluateConversion` uses. -/
structure ConversionConstants (A : FloatEnv) where
  /-- The literal `1000.0`. -/
  c1000 : A.F
  /-- The literal `3600.0`. -/
  c3600 : A.F
  /-- The literal `273.15`. -/
  c273_15 : A.F
  /-- The literal `459.67`. -/
  c459_67 : A.F
  /-- The literal `1.8`. -/
  c1_8 : A.F
  /-- The literal `2.20462`. -/
  c2_20462 : A.F

/-- Step 1 of `evaluateConversion`: the value in the base unit and the flags
`is_speed_conversion`, `is_temp_conversion`, `is_mass_conversion`, or the
message returned for an unsupported source unit. -/
def toBaseUnit (A : FloatEnv) (K : ConversionConstants A) (value : A.F)
    (unit_from unit_from_lower : String) : Except String (A.F × Bool × Bool × Bool) :=
  if unit_from_lower == "km/h" || unit_from_lower == "m/s" then
    .ok (if unit_from_lower == "km/h" then A.div (A.mul value K.c1000) K.c3600 else value,
      true, false, false)
  else if unit_from_lower == "c" || unit_from_lower == "f" || unit_from_lower == "k" then
    .ok (if unit_from_lower == "c" then A.add value K.c273_15
      else if unit_from_lower == "f" then A.div (A.add value K.c459_67) K.c1_8
      else value, false, true, false)
  else if unit_from_lower == "kg" || unit_from_lower == "lb" then
    .ok (if unit_from_lower == "lb" then A.div value K.c2_20462 else value,
      false, false, true)
  else .error ("Error: Unsupported source unit: " ++ unit_from)

/-- Step 2 of `evaluateConversion`: the value in the target unit, or the
message returned when the target unit is unsupported or of another family. -/
def fromBaseUnit (A : FloatEnv) (K : ConversionConstants A) (value_in_base_unit : A.F)
    (is_speed_conversion is_temp_conversion is_mass_conversion : Bool)
    (unit_from unit_to unit_to_lower : String) : Except String A.F :=
  let cannot : Except String A.F :=
    .error ("Error: Cannot convert " ++ unit_from ++ " to " ++ unit_to ++ ".")
  if unit_to_lower == "m/s" then
    if !is_speed_conversion then cannot else .ok value_in_base_unit
  else if unit_to_lower == "km/h" then
    if !is_speed_conversion then cannot
    else .ok (A.div (A.mul value_in_base_unit K.c3600) K.c1000)
  else if unit_to_lower == "c" || unit_to_lower == "f" || unit_to_lower == "k" then
    if !is_temp_conversion then cannot
    else if unit_to_lower == "c" then .ok (A.sub value_in_base_unit K.c273_15)
    else if unit_to_lower == "f" then .ok (A.sub (A.mul value_in_base_unit K.c1_8) K.c459_67)
    else .ok value_in_base_unit
  else if unit_to_lower == "kg" then
    if !is_mass_conversion then cannot else .ok value_in_base_unit
  else if unit_to_lower == "lb" then
    if !is_mass_conversion then cannot else .ok (A.mul value_in_base_unit K.c2_20462)
  else .error ("Error: Unsupported target unit: " ++ unit_to)

/-- The computation of `MathEvaluator::evaluateConversion`: `.error` carries
the message of an early `return`, `.ok` the final result and the target unit
as the user wrote it.  Here `A.stod` yields `none` when `std::stod` throws,
whatever the exception. -/
def convert (A : FloatEnv) (K : ConversionConstants A) (expression : String) :
    Except String (A.F × String) :=
  match wordsFrom expression.data [] with
  | _command :: value_str :: unit_from :: keyword_to :: unit_to :: _ =>
    if to_lower keyword_to != "to" then
      .error "Syntax Error: Expected keyword 'TO'. Use: CONVERT [value] [unit_1] TO [unit_2]"
    else
      match A.stod value_str with
      | none => .error ("Error: Invalid number for conversion (" ++ value_str ++ ").")
      | some value =>
        match toBaseUnit A K value unit_from (to_lower unit_from) with
        | .error msg => .error msg
        | .ok (value_in_base_unit, is_speed, is_temp, is_mass) =>
          match fromBaseUnit A K value_in_base_unit is_speed is_temp is_mass unit_from unit_to
              (to_lower unit_to) with
          | .error msg => .error msg
          | .ok final_result => .ok (final_result, unit_to)
  | _ =>
    .error ("Error: Insufficient arguments for conversion. " ++
      "Expected: CONVERT [value] [unit_1] TO [unit_2]")

/-- `MathEvaluator::evaluateConversion`: the returned text. -/
def evaluateConversion {A : FloatEnv} (K : ConversionConstants A) (fixed : A.F → String)
    (expression : String) : String :=
  match convert A K expression with
  | .error msg => msg
  | .ok (final_result, unit_to) => format_double fixed final_result ++ " " ++ unit_to

/-- The three unit families. -/
inductive UnitFamily where
  | speed | temperature | mass
  deriving DecidableEq, Repr

/-- The family of a lower-case unit name: `{m/s, km/h}`, `{c, f, k}`,
`{kg, lb}`. -/
def unitFamily (u : String) : Option UnitFamily :=
  if u == "m/s" || u == "km/h" then some .speed
  else if u == "c" || u == "f" || u == "k" then some .temperature
  else if u == "kg" || u == "lb" then some .mass
  else none

/-- The literals of `evaluateConversion` in the exact environment. -/
def exactConstants : ConversionConstants exactEnv where
  c1000 := (1000 : ℚ)
  c3600 := (3600 : ℚ)
  c273_15 := (27315 / 100 : ℚ)
  c459_67 := (45967 / 100 : ℚ)
  c1_8 := (18 / 10 : ℚ)
  c2_20462 := (220462 / 100000 : ℚ)

/-! ## An environment with the range of `double`

The exact environment converts every decimal literal.  The library does not:
`std::stod` throws `std::out_of_range` for a literal too large for a
`double`.  The environment below differs from the exact one in this respect
only. -/

/-- The least value that rounds to infinity as a `double`:
`2 ^ 1024 - 2 ^ 970`. -/
def overflowThreshold : ℚ := 2 ^ 1024 - 2 ^ 970

/-- The exact environment with the upper range limit of `double`:
`std::stod` throws for a literal whose value reaches `overflowThreshold`. -/
def rangeEnv : FloatEnv where
  F := ℚ
  strtodFull := isDecimal
  stod := fun t => if decimalValue t < overflowThreshold then some (decimalValue t) else none
  zero := 0
  add := fun x y => x + y
  sub := fun x y => x - y
  mul := fun x y => x * y
  div := fun x y => x / y
  pow := fun x y => if y.den = 1 then x ^ y.num else 0
  neg := fun x => -x
  abs := fun x => |x|
  isZero := fun x => decide (x = 0)

instance : DecidableEq rangeEnv.F := inferInstanceAs (DecidableEq ℚ)

/-- The decimal literal `1` followed by 400 zeros, the number `10 ^ 400`. -/
def bigLiteral : String := String.mk ('1' :: List.replicate 400 '0')

/-! ## Scanning lemmas -/

theorem data_append (a b : String) : (a ++ b).data = a.data ++ b.data := rfl

theorem scan_skip (xs rest : List Char) (out stack : List String) (expect : Bool) :
    scan (xs ++ rest) xs.length out stack expect = scan rest 0 out stack expect := by
  induction xs with
  | nil => rfl
  | cons x xs ih => simpa [scan] using ih

theorem takeWhile_append_of_head {p : Char → Bool} (xs rest : List Char)
    (hxs : ∀ c ∈ xs, p c = true) (hrest : ∀ c ∈ rest.head?, p c = false) :
    (xs ++ rest).takeWhile p = xs := by
  induction xs with
  | nil =>
    cases rest with
    | nil => rfl
    | cons r rs =>
      have : p r = false := hrest r (by simp)
      simp [List.takeWhile, this]
  | cons x xs ih =>
    have hx : p x = true := hxs x (by simp)
    have := ih (fun c hc => hxs c (by simp [hc]))
    simp [List.takeWhile, hx, this]

/-- Scanning a number literal emits it as one token. -/
theorem scan_number (d : String) (rest : List Char) (out stack : List String) (expect : Bool)
    (hne : d.data ≠ []) (hd : ∀ c ∈ d.data, isNumChar c = true)
    (hrest : ∀ c ∈ rest.head?, isNumChar c = false) :
    scan (d.data ++ rest) 0 out stack expect = scan rest 0 (out ++ [d]) stack false := by
  obtain ⟨ds⟩ := d
  cases ds with
  | nil => exact absurd rfl hne
  | cons c cs =>
    have hc : (isdigit c || c == '.') = true := hd c (by simp)
    have htw : (cs ++ rest).takeWhile isNumChar = cs :=
      takeWhile_append_of_head cs rest (fun x hx => hd x (by simp [hx])) hrest
    show scan (c :: (cs ++ rest)) 0 out stack expect = _
    rw [scan, if_pos hc]
    simp only [htw]
    exact scan_skip cs rest _ _ _

theorem render_bin_data (op : BinOp) (l r : Expr) :
    (render (.bin op l r)).data
      = '(' :: ((render l).data ++ op.chr :: ((render r).data ++ [')'])) := by
  cases op <;> simp [render, data_append, BinOp.tok, BinOp.chr]

theorem render_neg_data (x : Expr) :
    (render (.neg x)).data = '(' :: '-' :: ((render x).data ++ [')']) := by
  simp [render, data_append]

theorem render_abs_data (x : Expr) :
    (render (.abs x)).data = 'a' :: 'b' :: 's' :: '(' :: ((render x).data ++ [')']) := by
  simp [render, data_append]

theorem popOperators_paren (op1 : String) (out stack : List String) :
    popOperators op1 out ("(" :: stack) = (out, "(" :: stack) := by
  have h : shouldPop op1 "(" = false := by
    have : isOperator "(" = false := by decide
    simp [shouldPop, this]
  simp [popOperators, h]

/-- Scanning the rendering of a tree appends its post-order tokens to the
output queue and leaves the operator stack as it found it. -/
theorem scan_render (e : Expr) (he : LiteralRuns e) :
    ∀ (rest : List Char) (out stack : List String),
      (∀ c ∈ rest.head?, isNumChar c = false) →
      (∀ f ∈ stack.head?, isFunction f = false) →
      scan ((render e).data ++ rest) 0 out stack true
        = scan rest 0 (out ++ post e) stack false := by
  induction e with
  | num d =>
    intro rest out stack hrest _
    have hd := he d (by simp [literals])
    exact scan_number d rest out stack true hd.1 hd.2 hrest
  | bin op l r ihl ihr =>
    intro rest out stack hrest hstack
    have hl : LiteralRuns l := fun d hd => he d (by simp [literals, hd])
    have hr : LiteralRuns r := fun d hd => he d (by simp [literals, hd])
    rw [render_bin_data]
    simp only [List.cons_append, List.append_assoc, List.nil_append]
    rw [scan]
    simp only [show (isdigit '(' || '(' == '.') = false by decide, Bool.false_eq_true, if_false,
      show ('(' == '(') = true by decide, if_true]
    rw [ihl hl _ _ _ (by cases op <;> simp [BinOp.chr] <;> decide) (by simp; decide)]
    rw [scan]
    have hop1 : (isdigit op.chr || op.chr == '.') = false := by cases op <;> decide
    have hop2 : (op.chr == '(') = false := by cases op <;> decide
    have hop3 : (op.chr == ')') = false := by cases op <;> decide
    have hop4 : isOperator (String.singleton op.chr) = true := by cases op <;> decide
    have hop5 : String.singleton op.chr = op.tok := by cases op <;> rfl
    have hop6 : isOperator op.tok = true := by cases op <;> decide
    simp only [hop1, hop2, hop3, hop4, hop5, hop6, Bool.false_eq_true, if_false, if_true,
      Bool.and_false, popOperators_paren]
    rw [ihr hr _ _ _ (by simp; decide) (by cases op <;> simp [BinOp.tok] <;> decide)]
    rw [scan]
    simp only [show (isdigit ')' || ')' == '.') = false by decide, Bool.false_eq_true, if_false,
      show (')' == '(') = false by decide, show (')' == ')') = true by decide, if_true]
    have hpu : popUntilParen (out ++ post l ++ post r) (op.tok :: "(" :: stack)
        = (out ++ post l ++ post r ++ [op.tok], "(" :: stack) := by
      have : (op.tok != "(") = true := by cases op <;> decide
      simp [popUntilParen, this]
    simp only [hpu]
    cases stack with
    | nil => simp [post, List.append_assoc]
    | cons f s2 =>
      have hf : isFunction f = false := hstack f (by simp)
      simp [hf, post, List.append_assoc]
  | neg x ih =>
    intro rest out stack hrest hstack
    have hx : LiteralRuns x := fun d hd => he d (by simp [literals, hd])
    rw [render_neg_data]
    simp only [List.cons_append, List.append_assoc, List.nil_append]
    rw [scan]
    simp only [show (isdigit '(' || '(' == '.') = false by decide, Bool.false_eq_true, if_false,
      show ('(' == '(') = true by decide, if_true]
    rw [scan]
    simp only [show (isdigit '-' || '-' == '.') = false by decide, Bool.false_eq_true, if_false,
      show ('-' == '(') = false by decide, show ('-' == ')') = false by decide,
      show ('-' == '-') = true by decide, Bool.and_self, if_true, popOperators_paren]
    rw [ih hx _ _ _ (by simp; decide) (by simp; decide)]
    rw [scan]
    simp only [show (isdigit ')' || ')' == '.') = false by decide, Bool.false_eq_true, if_false,
      show (')' == '(') = false by decide, show (')' == ')') = true by decide, if_true]
    have hpu : popUntilParen (out ++ post x) ("~" :: "(" :: stack)
        = (out ++ post x ++ ["~"], "(" :: stack) := by
      have : ("~" != "(") = true := by decide
      simp [popUntilParen, this]
    simp only [hpu]
    cases stack with
    | nil => simp [post, List.append_assoc]
    | cons f s2 =>
      have hf : isFunction f = false := hstack f (by simp)
      simp [hf, post, List.append_assoc]
  | abs x ih =>
    intro rest out stack hrest hstack
    have hx : LiteralRuns x := fun d hd => he d (by simp [literals, hd])
    rw [render_abs_data]
    simp only [List.cons_append, List.append_assoc, List.nil_append]
    rw [scan]
    have htw : List.takeWhile isalpha ('b' :: 's' :: '(' :: ((render x).data ++ (')' :: rest)))
        = ['b', 's'] := by
      simp [List.takeWhile, show isalpha 'b' = true by decide, show isalpha 's' = true by decide,
        show isalpha '(' = false by decide]
    simp only [show (isdigit 'a' || 'a' == '.') = false by decide, Bool.false_eq_true, if_false,
      show ('a' == '(') = false by decide, show ('a' == ')') = false by decide,
      show ('a' == '-') = false by decide, Bool.false_and,
      show isOperator (String.singleton 'a') = false by decide,
      show isalpha 'a' = true by decide, if_true, htw,
      show isFunction (String.mk ['a', 'b', 's']) = true by decide, List.length_cons,
      List.length_nil]
    rw [scan, scan, scan]
    simp only [show (isdigit '(' || '(' == '.') = false by decide, Bool.false_eq_true, if_false,
      show ('(' == '(') = true by decide, if_true]
    rw [ih hx _ _ _ (by simp; decide) (by simp; decide)]
    rw [scan]
    simp only [show (isdigit ')' || ')' == '.') = false by decide, Bool.false_eq_true, if_false,
      show (')' == '(') = false by decide, show (')' == ')') = true by decide, if_true]
    have hpu : popUntilParen (out ++ post x) ("(" :: String.mk ['a', 'b', 's'] :: stack)
        = (out ++ post x, "(" :: String.mk ['a', 'b', 's'] :: stack) := by
      have : ("(" != "(") = false := by decide
      simp [popUntilParen, this]
    simp only [hpu, show isFunction (String.mk ['a', 'b', 's']) = true by decide, if_true]
    simp [post, List.append_assoc]

theorem isDecimal_run (d : String) (hd : isDecimal d = true) :
    d.data ≠ [] ∧ ∀ c ∈ d.data, isNumChar c = true := by
  simp only [isDecimal, Bool.and_eq_true, List.all_eq_true, List.any_eq_true] at hd
  obtain ⟨⟨hall, _⟩, c, hc, _⟩ := hd
  exact ⟨List.ne_nil_of_mem hc, hall⟩

/-- C1. Parser correctness against a reference tree: for every expression tree
over valid number literals (digits with at most one `.`), binary `+ - * / ^`,
unary minus and `abs`, `shuntingYard` applied to the fully parenthesised infix
text of the tree succeeds and returns exactly its post-order token list. -/
theorem shuntingYard_render (e : Expr) (he : ∀ d ∈ literals e, isDecimal d = true) :
    shuntingYard (render e) = .ok (post e) := by
  have h := scan_render e (fun d hd => isDecimal_run d (he d hd)) [] [] []
    (by simp) (by simp)
  simpa [shuntingYard, scan, drain] using h

theorem shuntingYard_render_witness :
    (∀ d ∈ literals (.bin .sub (.abs (.neg (.num "2.5"))) (.bin .pow (.num "3") (.num "2"))),
        isDecimal d = true) ∧
      shuntingYard (render (.bin .sub (.abs (.neg (.num "2.5"))) (.bin .pow (.num "3") (.num "2"))))
        = .ok (post (.bin .sub (.abs (.neg (.num "2.5"))) (.bin .pow (.num "3") (.num "2")))) :=
  ⟨by decide, shuntingYard_render _ (by decide)⟩

/-! ## Evaluation lemmas -/

theorem isNumber_symbol (A : FloatEnv) (hA : A.SymbolsNotNumbers) (t : String)
    (ht : t ∈ ["+", "-", "*", "/", "^", "~", "abs"]) : isNumber A t = false := by
  simp [isNumber, hA t ht]

theorem evalToken_reads (A : FloatEnv) (st : List A.F) (t : String) (v : A.F)
    (h : A.Reads t v) : evalToken A st t = .ok (v :: st) := by
  simp [evalToken, h.1, h.2]

theorem evalToken_neg (A : FloatEnv) (hA : A.SymbolsNotNumbers) (st : List A.F) (v : A.F) :
    evalToken A (v :: st) "~" = .ok (A.neg v :: st) := by
  simp [evalToken, isNumber_symbol A hA "~" (by simp)]

theorem evalToken_abs (A : FloatEnv) (hA : A.SymbolsNotNumbers) (st : List A.F) (v : A.F) :
    evalToken A (v :: st) "abs" = .ok (A.abs v :: st) := by
  have h1 : ("abs" == "~") = false := by decide
  have h2 : isFunction "abs" = true := by decide
  simp [evalToken, isNumber_symbol A hA "abs" (by simp), h1, h2]

theorem applyBinary_tok (A : FloatEnv) (op : BinOp) (x y : A.F) :
    applyBinary A op.tok x y = op.apply A x y := by
  cases op <;> simp [applyBinary, BinOp.tok, BinOp.apply]

theorem evalToken_binop (A : FloatEnv) (hA : A.SymbolsNotNumbers) (op : BinOp)
    (st : List A.F) (x y : A.F) :
    evalToken A (y :: x :: st) op.tok
      = match op.apply A x y with
        | .ok result => .ok (result :: st)
        | .error e => .error e := by
  have h0 : isNumber A op.tok = false :=
    isNumber_symbol A hA op.tok (by cases op <;> simp [BinOp.tok])
  have h1 : (op.tok == "~") = false := by cases op <;> decide
  have h2 : isFunction op.tok = false := by cases op <;> decide
  have h3 : isOperator op.tok = true := by cases op <;> decide
  simp [evalToken, h0, h1, h2, h3, applyBinary_tok]

theorem evalTokens_append (A : FloatEnv) (xs ys : List String) :
    ∀ st : List A.F, evalTokens A st (xs ++ ys)
      = match evalTokens A st xs with
        | .ok st1 => evalTokens A st1 ys
        | .error e => .error e := by
  induction xs with
  | nil => intro st; rfl
  | cons x xs ih =>
    intro st
    simp only [List.cons_append, evalTokens]
    cases evalToken A st x with
    | ok st1 => exact ih st1
    | error e => rfl

/-- Evaluating the post-order tokens of a tree pushes the reference value of
the tree, or fails as the reference evaluation does. -/
theorem evalTokens_post (A : FloatEnv) (hA : A.SymbolsNotNumbers) (e : Expr)
    (he : ∀ d ∈ literals e, ∃ v, A.Reads d v) :
    ∀ st : List A.F, evalTokens A st (post e)
      = match refEval A e with
        | .ok v => .ok (v :: st)
        | .error err => .error err := by
  induction e with
  | num d =>
    intro st
    obtain ⟨v, hv⟩ := he d (by simp [literals])
    simp [post, evalTokens, evalToken_reads A st d v hv, refEval, hv.2]
  | bin op l r ihl ihr =>
    intro st
    have hl := ihl (fun d hd => he d (by simp [literals, hd]))
    have hr := ihr (fun d hd => he d (by simp [literals, hd]))
    simp only [post, List.append_assoc, evalTokens_append, hl, refEval]
    cases refEval A l with
    | error e => rfl
    | ok x =>
      simp only [hr]
      cases refEval A r with
      | error e => rfl
      | ok y =>
        simp only [evalTokens, evalToken_binop A hA]
        cases op.apply A x y <;> rfl
  | neg x ih =>
    intro st
    have hx := ih (fun d hd => he d (by simp [literals, hd]))
    simp only [post, evalTokens_append, hx, refEval]
    cases refEval A x with
    | error e => rfl
    | ok v => simp [evalTokens, evalToken_neg A hA]
  | abs x ih =>
    intro st
    have hx := ih (fun d hd => he d (by simp [literals, hd]))
    simp only [post, evalTokens_append, hx, refEval]
    cases refEval A x with
    | error e => rfl
    | ok v => simp [evalTokens, evalToken_abs A hA]

/-- On valid literals the reference evaluation yields a value or fails with
`DivisionByZero`. -/
theorem refEval_cases (A : FloatEnv) (e : Expr) (he : ∀ d ∈ literals e, ∃ v, A.Reads d v) :
    (∃ v, refEval A e = .ok v) ∨ refEval A e = .error .DivisionByZero := by
  induction e with
  | num d =>
    obtain ⟨v, hv⟩ := he d (by simp [literals])
    exact Or.inl ⟨v, by simp [refEval, hv.2]⟩
  | bin op l r ihl ihr =>
    have hl := ihl (fun d hd => he d (by simp [literals, hd]))
    have hr := ihr (fun d hd => he d (by simp [literals, hd]))
    rcases hl with ⟨x, hx⟩ | hx
    · rcases hr with ⟨y, hy⟩ | hy
      · simp only [refEval, hx, hy]
        cases op <;> simp [BinOp.apply]
        by_cases hz : A.isZero y = true <;> simp [hz]
      · simp [refEval, hx, hy]
    · simp [refEval, hx]
  | neg x ih =>
    rcases ih (fun d hd => he d (by simp [literals, hd])) with ⟨v, hv⟩ | hv
    · exact Or.inl ⟨A.neg v, by simp [refEval, hv]⟩
    · exact Or.inr (by simp [refEval, hv])
  | abs x ih =>
    rcases ih (fun d hd => he d (by simp [literals, hd])) with ⟨v, hv⟩ | hv
    · exact Or.inl ⟨A.abs v, by simp [refEval, hv]⟩
    · exact Or.inr (by simp [refEval, hv])

theorem evaluateRPN_post_eq (A : FloatEnv) (hA : A.SymbolsNotNumbers) (e : Expr)
    (he : ∀ d ∈ literals e, ∃ v, A.Reads d v) :
    evaluateRPN A (post e) = refEval A e := by
  simp only [evaluateRPN, evalTokens_post A hA e he []]
  cases refEval A e <;> rfl

theorem exactEnv_symbols : exactEnv.SymbolsNotNumbers := by
  unfold FloatEnv.SymbolsNotNumbers
  decide

theorem exactEnv_reads (d : String) (hd : isDecimal d = true) :
    exactEnv.Reads d (decimalValue d) := by
  refine ⟨?_, rfl⟩
  have hne : d.data.isEmpty = false := by
    have h := (isDecimal_run d hd).1
    cases hdd : d.data with
    | nil => exact absurd hdd h
    | cons c cs => rfl
  simp only [isNumber, hne]
  exact hd

/-- A number token that `std::stod` converts is pushed; one it cannot convert
raises `NumberOutOfRange`. -/
theorem evalToken_accepts (A : FloatEnv) (st : List A.F) (t : String)
    (h : isNumber A t = true) :
    evalToken A st t
      = match A.stod t with
        | some v => .ok (v :: st)
        | none => .error .NumberOutOfRange := by
  simp only [evalToken, h, if_true]

/-- Evaluating the post-order tokens of a tree over literals that `isNumber`
accepts pushes the reference value of the tree, or fails as the reference
evaluation does, a literal out of range included. -/
theorem evalTokens_post_accepts (A : FloatEnv) (hA : A.SymbolsNotNumbers) (e : Expr)
    (he : ∀ d ∈ literals e, isNumber A d = true) :
    ∀ st : List A.F, evalTokens A st (post e)
      = match refEval A e with
        | .ok v => .ok (v :: st)
        | .error err => .error err := by
  induction e with
  | num d =>
    intro st
    have hd := he d (by simp [literals])
    simp only [post, evalTokens, evalToken_accepts A st d hd, refEval]
    cases A.stod d <;> rfl
  | bin op l r ihl ihr =>
    intro st
    have hl := ihl (fun d hd => he d (by simp [literals, hd]))
    have hr := ihr (fun d hd => he d (by simp [literals, hd]))
    simp only [post, List.append_assoc, evalTokens_append, hl, refEval]
    cases refEval A l with
    | error e => rfl
    | ok x =>
      simp only [hr]
      cases refEval A r with
      | error e => rfl
      | ok y =>
        simp only [evalTokens, evalToken_binop A hA]
        cases op.apply A x y <;> rfl
  | neg x ih =>
    intro st
    have hx := ih (fun d hd => he d (by simp [literals, hd]))
    simp only [post, evalTokens_append, hx, refEval]
    cases refEval A x with
    | error e => rfl
    | ok v => simp [evalTokens, evalToken_neg A hA]
  | abs x ih =>
    intro st
    have hx := ih (fun d hd => he d (by simp [literals, hd]))
    simp only [post, evalTokens_append, hx, refEval]
    cases refEval A x with
    | error e => rfl
    | ok v => simp [evalTokens, evalToken_abs A hA]

/-- The reference evaluation yields a value or fails with `DivisionByZero` or
`NumberOutOfRange`. -/
theorem refEval_outcomes (A : FloatEnv) (e : Expr) :
    (∃ v, refEval A e = .ok v) ∨ refEval A e = .error .DivisionByZero ∨
      refEval A e = .error .NumberOutOfRange := by
  induction e with
  | num d =>
    cases hd : A.stod d with
    | none => exact Or.inr (Or.inr (by simp [refEval, hd]))
    | some v => exact Or.inl ⟨v, by simp [refEval, hd]⟩
  | bin op l r ihl ihr =>
    rcases ihl with ⟨x, hx⟩ | hx | hx
    · rcases ihr with ⟨y, hy⟩ | hy | hy
      · simp only [refEval, hx, hy]
        cases op <;> simp [BinOp.apply]
        by_cases hz : A.isZero y = true <;> simp [hz]
      · exact Or.inr (Or.inl (by simp [refEval, hx, hy]))
      · exact Or.inr (Or.inr (by simp [refEval, hx, hy]))
    · exact Or.inr (Or.inl (by simp [refEval, hx]))
    · exact Or.inr (Or.inr (by simp [refEval, hx]))
  | neg x ih =>
    rcases ih with ⟨v, hv⟩ | hv | hv
    · exact Or.inl ⟨A.neg v, by simp [refEval, hv]⟩
    · exact Or.inr (Or.inl (by simp [refEval, hv]))
    · exact Or.inr (Or.inr (by simp [refEval, hv]))
  | abs x ih =>
    rcases ih with ⟨v, hv⟩ | hv | hv
    · exact Or.inl ⟨A.abs v, by simp [refEval, hv]⟩
    · exact Or.inr (Or.inl (by simp [refEval, hv]))
    · exact Or.inr (Or.inr (by simp [refEval, hv]))

theorem rangeEnv_symbols : rangeEnv.SymbolsNotNumbers := by
  unfold FloatEnv.SymbolsNotNumbers
  decide

theorem rangeEnv_accepts : rangeEnv.AcceptsDecimals := fun _ h => h

theorem exactEnv_accepts : exactEnv.AcceptsDecimals := fun _ h => h

theorem isNumber_of_isDecimal (A : FloatEnv) (hacc : A.AcceptsDecimals) (t : String)
    (h : isDecimal t = true) : isNumber A t = true := by
  have hne := (isDecimal_run t h).1
  cases hd : t.data with
  | nil => exact absurd hd hne
  | cons c cs => simp [isNumber, hd, hacc t h]

/-- A literal out of the range of `double`: `1` followed by 400 zeros is a
valid literal that `isNumber` accepts, `std::stod` throws, and the evaluation
of its tree yields neither a value nor `DivisionByZero`. -/
theorem evaluateRPN_post_out_of_range :
    isDecimal bigLiteral = true ∧ isNumber rangeEnv bigLiteral = true ∧
      rangeEnv.SymbolsNotNumbers ∧ rangeEnv.AcceptsDecimals ∧
      evaluateRPN rangeEnv (post (.num bigLiteral)) = .error .NumberOutOfRange ∧
      (¬ ∃ v, evaluateRPN rangeEnv (post (.num bigLiteral)) = .ok v) ∧
      evaluateRPN rangeEnv (post (.num bigLiteral)) ≠ .error .DivisionByZero := by
  have h : evaluateRPN rangeEnv (post (.num bigLiteral)) = .error .NumberOutOfRange := by
    decide!
  refine ⟨by decide!, by decide!, rangeEnv_symbols, rangeEnv_accepts, h, ?_, ?_⟩
  · rintro ⟨v, hv⟩
    rw [h] at hv
    cases hv
  · rw [h]
    intro hc
    cases hc

/-- C2 (amended). Evaluator correctness against a reference tree: for every
expression tree over valid number literals, `evaluateRPN` applied to the
post-order token list equals the recursive reference evaluation of the tree,
in which a literal that `std::stod` cannot convert, being out of the range of
`double`, fails with `NumberOutOfRange`.  The result is a value,
`DivisionByZero` or `NumberOutOfRange`, and when `std::stod` converts every
literal it is a value or `DivisionByZero`; it is never `InsufficientOperands`
nor `MalformedExpression`. -/
theorem evaluateRPN_post (A : FloatEnv) (hA : A.SymbolsNotNumbers)
    (hacc : A.AcceptsDecimals) (e : Expr)
    (he : ∀ d ∈ literals e, isDecimal d = true) :
    evaluateRPN A (post e) = refEval A e ∧
      ((∃ v, refEval A e = .ok v) ∨ refEval A e = .error .DivisionByZero ∨
        refEval A e = .error .NumberOutOfRange) ∧
      ((∀ d ∈ literals e, ∃ v, A.stod d = some v) →
        (∃ v, refEval A e = .ok v) ∨ refEval A e = .error .DivisionByZero) ∧
      evaluateRPN A (post e) ≠ .error .InsufficientOperands ∧
      evaluateRPN A (post e) ≠ .error .MalformedExpression := by
  have hnum : ∀ d ∈ literals e, isNumber A d = true :=
    fun d hd => isNumber_of_isDecimal A hacc d (he d hd)
  have h : evaluateRPN A (post e) = refEval A e := by
    simp only [evaluateRPN, evalTokens_post_accepts A hA e hnum []]
    cases refEval A e <;> rfl
  refine ⟨h, refEval_outcomes A e, ?_, ?_, ?_⟩
  · intro hconv
    exact refEval_cases A e (fun d hd => by
      obtain ⟨v, hv⟩ := hconv d hd
      exact ⟨v, hnum d hd, hv⟩)
  · rw [h]
    rcases refEval_outcomes A e with ⟨v, hv⟩ | hv | hv <;> simp [hv]
  · rw [h]
    rcases refEval_outcomes A e with ⟨v, hv⟩ | hv | hv <;> simp [hv]

theorem evaluateRPN_post_witness :
    rangeEnv.SymbolsNotNumbers ∧ rangeEnv.AcceptsDecimals ∧
      (∀ d ∈ literals (.bin .div (.num "7") (.bin .add (.neg (.num "1.5")) (.abs (.num "2")))),
        isDecimal d = true) ∧
      evaluateRPN rangeEnv
          (post (.bin .div (.num "7") (.bin .add (.neg (.num "1.5")) (.abs (.num "2")))))
        = refEval rangeEnv
          (.bin .div (.num "7") (.bin .add (.neg (.num "1.5")) (.abs (.num "2")))) ∧
      refEval rangeEnv
          (.bin .div (.num "7") (.bin .add (.neg (.num "1.5")) (.abs (.num "2"))))
        = .ok (14 : ℚ) :=
  ⟨rangeEnv_symbols, rangeEnv_accepts, by decide,
    (evaluateRPN_post rangeEnv rangeEnv_symbols rangeEnv_accepts
      (.bin .div (.num "7") (.bin .add (.neg (.num "1.5")) (.abs (.num "2"))))
      (by decide)).1,
    by decide!⟩

/-! ## Operator sequences -/

theorem binop_not_numChar (op : BinOp) : isNumChar op.chr = false := by
  cases op <;> decide

theorem tok_data (op : BinOp) : op.tok.data = [op.chr] := by
  cases op <;> rfl

/-- The binary-operator branch of the scanning loop. -/
theorem scan_binop (op : BinOp) (rest : List Char) (out stack : List String) :
    scan (op.chr :: rest) 0 out stack false
      = scan rest 0 (popOperators op.tok out stack).1
          (op.tok :: (popOperators op.tok out stack).2) true := by
  have hop1 : (isdigit op.chr || op.chr == '.') = false := by cases op <;> decide
  have hop2 : (op.chr == '(') = false := by cases op <;> decide
  have hop3 : (op.chr == ')') = false := by cases op <;> decide
  have hop5 : String.singleton op.chr = op.tok := by cases op <;> rfl
  have hop6 : isOperator op.tok = true := by cases op <;> decide
  rw [scan]
  simp only [hop1, hop2, hop3, hop5, hop6, Bool.false_eq_true, if_false, if_true, Bool.and_false]

/-- The unary-minus branch of the scanning loop. -/
theorem scan_unary (rest : List Char) (out stack : List String) :
    scan ('-' :: rest) 0 out stack true
      = scan rest 0 (popOperators "~" out stack).1 ("~" :: (popOperators "~" out stack).2) true := by
  rw [scan]
  simp only [show (isdigit '-' || '-' == '.') = false by decide, Bool.false_eq_true, if_false,
    show ('-' == '(') = false by decide, show ('-' == ')') = false by decide,
    show ('-' == '-') = true by decide, Bool.and_self, if_true]

/-- The postfix form of `a p b q c`, in terms of the pop condition. -/
theorem shuntingYard_two_ops (a b c : String) (p q : BinOp)
    (ha : isDecimal a = true) (hb : isDecimal b = true) (hc : isDecimal c = true) :
    shuntingYard (a ++ p.tok ++ b ++ q.tok ++ c)
      = .ok (if shouldPop q.tok p.tok then [a, b, p.tok, c, q.tok]
             else [a, b, c, q.tok, p.tok]) := by
  have hdata : (a ++ p.tok ++ b ++ q.tok ++ c).data
      = a.data ++ (p.chr :: (b.data ++ (q.chr :: (c.data ++ [])))) := by
    simp [data_append, tok_data]
  have ha1 := isDecimal_run a ha
  have hb1 := isDecimal_run b hb
  have hc1 := isDecimal_run c hc
  unfold shuntingYard
  rw [hdata, scan_number a _ _ _ _ ha1.1 ha1.2 (by simp [binop_not_numChar]), scan_binop,
    scan_number b _ _ _ _ hb1.1 hb1.2 (by simp [binop_not_numChar]), scan_binop,
    scan_number c _ _ _ _ hc1.1 hc1.2 (by simp)]
  by_cases h : shouldPop q.tok p.tok = true
  · simp [popOperators, h, scan, drain]
    have h1 : isParenthesis q.tok = false := by cases q <;> decide
    simp [h1]
  · simp [popOperators, h, scan, drain]
    have h1 : isParenthesis q.tok = false := by cases q <;> decide
    have h2 : isParenthesis p.tok = false := by cases p <;> decide
    simp [h1, h2]

/-- The postfix form of `-a q b`. -/
theorem shuntingYard_unary_op (a b : String) (q : BinOp)
    (ha : isDecimal a = true) (hb : isDecimal b = true) :
    shuntingYard ("-" ++ a ++ q.tok ++ b) = .ok [a, "~", b, q.tok] := by
  have hdata : ("-" ++ a ++ q.tok ++ b).data = '-' :: (a.data ++ (q.chr :: (b.data ++ []))) := by
    simp [data_append, tok_data]
  have ha1 := isDecimal_run a ha
  have hb1 := isDecimal_run b hb
  have hpop : shouldPop q.tok "~" = true := by cases q <;> decide
  have h1 : isParenthesis q.tok = false := by cases q <;> decide
  unfold shuntingYard
  rw [hdata, scan_unary, scan_number a _ _ _ _ ha1.1 ha1.2 (by simp [binop_not_numChar]),
    scan_binop, scan_number b _ _ _ _ hb1.1 hb1.2 (by simp)]
  simp [popOperators, hpop, scan, drain, h1]

/-- With no whitespace to strip and a non-empty input, `evaluate` is
`evaluateRPN` after `shuntingYard`. -/
theorem evaluate_eq (A : FloatEnv) (s : String) (q : List String)
    (hs : s.data.filter (fun c => !isspace c) = s.data) (hne : s.data ≠ [])
    (hq : shuntingYard s = .ok q) : evaluate A s = evaluateRPN A q := by
  have hempty : s.data.isEmpty = false := by
    cases h : s.data with
    | nil => exact absurd h hne
    | cons c cs => rfl
  simp only [evaluate, hs, hempty, hq]
  simp

/-- The value `evaluate` computes for the rendering of a tree that has no
whitespace in it. -/
theorem evaluate_render (A : FloatEnv) (hA : A.SymbolsNotNumbers) (e : Expr) (s : String)
    (he : ∀ d ∈ literals e, ∃ v, A.Reads d v)
    (hs : s.data.filter (fun c => !isspace c) = s.data) (hne : s.data ≠ [])
    (hq : shuntingYard s = .ok (post e)) : evaluate A s = refEval A e := by
  rw [evaluate_eq A s (post e) hs hne hq, evaluateRPN_post_eq A hA e he]

/-- C3. Precedence: for valid number literals `a`, `b`, `c` and binary
operators `p`, `q` (`+`, `-` of precedence 1; `*`, `/` of precedence 2; `^` of
precedence 3), `shuntingYard` maps `a p b q c` to `[a, b, c, q, p]` when `q` has
strictly higher precedence than `p` and to `[a, b, p, c, q]` when `q` has
strictly lower precedence.  In particular `2+3*4` evaluates as `2 + (3 * 4)`,
which is `14`, and `(2+3)*4` as `(2 + 3) * 4`, which is `20`. -/
theorem precedence_order (a b c : String) (p q : BinOp) (A : FloatEnv) (x2 x3 x4 : A.F)
    (ha : isDecimal a = true) (hb : isDecimal b = true) (hc : isDecimal c = true)
    (hA : A.SymbolsNotNumbers) (h2 : A.Reads "2" x2) (h3 : A.Reads "3" x3)
    (h4 : A.Reads "4" x4) :
    (getPrecedence "+" = 1 ∧ getPrecedence "-" = 1 ∧ getPrecedence "*" = 2 ∧
      getPrecedence "/" = 2 ∧ getPrecedence "^" = 3) ∧
    (getPrecedence p.tok < getPrecedence q.tok →
      shuntingYard (a ++ p.tok ++ b ++ q.tok ++ c) = .ok [a, b, c, q.tok, p.tok]) ∧
    (getPrecedence q.tok < getPrecedence p.tok →
      shuntingYard (a ++ p.tok ++ b ++ q.tok ++ c) = .ok [a, b, p.tok, c, q.tok]) ∧
    evaluate A "2+3*4" = .ok (A.add x2 (A.mul x3 x4)) ∧
    evaluate A "(2+3)*4" = .ok (A.mul (A.add x2 x3) x4) ∧
    evaluate exactEnv "2+3*4" = .ok (14 : ℚ) ∧
    evaluate exactEnv "(2+3)*4" = .ok (20 : ℚ) := by
  have hlit : ∀ d ∈ ["2", "3", "4"], ∃ v, A.Reads d v := by
    intro d hd
    simp only [List.mem_cons, List.mem_singleton, List.not_mem_nil, or_false] at hd
    rcases hd with rfl | rfl | rfl
    exacts [⟨x2, h2⟩, ⟨x3, h3⟩, ⟨x4, h4⟩]
  refine ⟨by decide, ?_, ?_, ?_, ?_, by decide!, by decide!⟩
  · intro h
    rw [shuntingYard_two_ops a b c p q ha hb hc]
    have : shouldPop q.tok p.tok = false := by
      revert h; cases p <;> cases q <;> decide
    simp [this]
  · intro h
    rw [shuntingYard_two_ops a b c p q ha hb hc]
    have : shouldPop q.tok p.tok = true := by
      revert h; cases p <;> cases q <;> decide
    simp [this]
  · rw [evaluate_render A hA (.bin .add (.num "2") (.bin .mul (.num "3") (.num "4"))) "2+3*4"
      hlit (by decide) (by decide) (by decide)]
    simp [refEval, BinOp.apply, h2.2, h3.2, h4.2]
  · rw [evaluate_render A hA (.bin .mul (.bin .add (.num "2") (.num "3")) (.num "4")) "(2+3)*4"
      hlit (by decide) (by decide) (by decide)]
    simp [refEval, BinOp.apply, h2.2, h3.2, h4.2]

theorem precedence_order_witness :
    isDecimal "1.5" = true ∧ isDecimal "20" = true ∧ isDecimal ".25" = true ∧
      exactEnv.SymbolsNotNumbers ∧ exactEnv.Reads "2" (decimalValue "2") ∧ exactEnv.Reads "3" (decimalValue "3") ∧
      exactEnv.Reads "4" (decimalValue "4") ∧
      getPrecedence BinOp.sub.tok < getPrecedence BinOp.pow.tok ∧
      shuntingYard ("1.5" ++ BinOp.sub.tok ++ "20" ++ BinOp.pow.tok ++ ".25")
        = .ok ["1.5", "20", ".25", "^", "-"] :=
  ⟨by decide, by decide, by decide, exactEnv_symbols, exactEnv_reads "2" (by decide),
    exactEnv_reads "3" (by decide), exactEnv_reads "4" (by decide), by decide,
    (precedence_order "1.5" "20" ".25" .sub .pow exactEnv (decimalValue "2") (decimalValue "3") (decimalValue "4")
      (by decide) (by decide) (by decide) exactEnv_symbols (exactEnv_reads "2" (by decide))
      (exactEnv_reads "3" (by decide)) (exactEnv_reads "4" (by decide))).2.1 (by decide)⟩

/-- C4. Associativity: for valid number literals `a`, `b`, `c` and binary
operators `p`, `q` of equal precedence, `shuntingYard` maps `a p b q c` to
`[a, b, p, c, q]` (left-associative grouping) when the operators are in
`{+, -}` or in `{*, /}`, and maps `a ^ b ^ c` to `[a, b, c, ^, ^]`
(right-associative grouping).  In particular `2^3^2` evaluates as
`2 ^ (3 ^ 2)`, which is `512`. -/
theorem associativity_order (a b c : String) (p q : BinOp) (A : FloatEnv) (x2 x3 : A.F)
    (ha : isDecimal a = true) (hb : isDecimal b = true) (hc : isDecimal c = true)
    (hpq : getPrecedence p.tok = getPrecedence q.tok)
    (hA : A.SymbolsNotNumbers) (h2 : A.Reads "2" x2) (h3 : A.Reads "3" x3) :
    (p ≠ .pow → q ≠ .pow ∧
      shuntingYard (a ++ p.tok ++ b ++ q.tok ++ c) = .ok [a, b, p.tok, c, q.tok]) ∧
    (p = .pow → q = .pow ∧
      shuntingYard (a ++ "^" ++ b ++ "^" ++ c) = .ok [a, b, c, "^", "^"]) ∧
    (isRightAssociative "+" = false ∧ isRightAssociative "-" = false ∧
      isRightAssociative "*" = false ∧ isRightAssociative "/" = false ∧
      isRightAssociative "^" = true) ∧
    evaluate A "2^3^2" = .ok (A.pow x2 (A.pow x3 x2)) ∧
    evaluate exactEnv "2^3^2" = .ok (512 : ℚ) := by
  have hlit : ∀ d ∈ ["2", "3", "2"], ∃ v, A.Reads d v := by
    intro d hd
    simp only [List.mem_cons, List.mem_singleton, List.not_mem_nil, or_false] at hd
    rcases hd with rfl | rfl | rfl
    exacts [⟨x2, h2⟩, ⟨x3, h3⟩, ⟨x2, h2⟩]
  refine ⟨?_, ?_, by decide, ?_, by decide!⟩
  · intro hp
    have hq : q ≠ .pow := by
      revert hpq hp; cases p <;> cases q <;> decide
    refine ⟨hq, ?_⟩
    rw [shuntingYard_two_ops a b c p q ha hb hc]
    have : shouldPop q.tok p.tok = true := by
      revert hpq hp; cases p <;> cases q <;> decide
    simp [this]
  · intro hp
    have hq : q = .pow := by
      revert hpq hp; cases p <;> cases q <;> decide
    refine ⟨hq, ?_⟩
    have h := shuntingYard_two_ops a b c .pow .pow ha hb hc
    have hsp : shouldPop BinOp.pow.tok BinOp.pow.tok = false := by decide
    simpa [hsp, BinOp.tok] using h
  · rw [evaluate_render A hA (.bin .pow (.num "2") (.bin .pow (.num "3") (.num "2"))) "2^3^2"
      hlit (by decide) (by decide) (by decide)]
    simp [refEval, BinOp.apply, h2.2, h3.2]

theorem associativity_order_witness :
    isDecimal "8" = true ∧ isDecimal "4" = true ∧ isDecimal "2" = true ∧
      getPrecedence BinOp.div.tok = getPrecedence BinOp.mul.tok ∧
      exactEnv.SymbolsNotNumbers ∧ exactEnv.Reads "2" (decimalValue "2") ∧ exactEnv.Reads "3" (decimalValue "3") ∧
      shuntingYard ("8" ++ BinOp.div.tok ++ "4" ++ BinOp.mul.tok ++ "2")
        = .ok ["8", "4", "/", "2", "*"] :=
  ⟨by decide, by decide, by decide, by decide, exactEnv_symbols,
    exactEnv_reads "2" (by decide), exactEnv_reads "3" (by decide),
    ((associativity_order "8" "4" "2" .div .mul exactEnv (decimalValue "2") (decimalValue "3")
      (by decide) (by decide) (by decide) (by decide) exactEnv_symbols
      (exactEnv_reads "2" (by decide)) (exactEnv_reads "3" (by decide))).1 (by decide)).2⟩

/-- C5. Unary minus binds tighter than every binary operator: for valid number
literals `a`, `b` and every binary operator `q`, `shuntingYard` maps `-a q b`
to `[a, ~, b, q]`, so the expression is evaluated as `(-a) q b`.  In particular
`-2^2` evaluates as `(-2) ^ 2`, which is `4`. -/
theorem unary_minus_binds_tighter (a b : String) (q : BinOp) (A : FloatEnv) (x2 : A.F)
    (ha : isDecimal a = true) (hb : isDecimal b = true)
    (hA : A.SymbolsNotNumbers) (h2 : A.Reads "2" x2) :
    shuntingYard ("-" ++ a ++ q.tok ++ b) = .ok [a, "~", b, q.tok] ∧
    getPrecedence q.tok < getPrecedence "~" ∧
    evaluate A "-2^2" = .ok (A.pow (A.neg x2) x2) ∧
    evaluate exactEnv "-2^2" = .ok (4 : ℚ) := by
  have hlit : ∀ d ∈ ["2", "2"], ∃ v, A.Reads d v := by
    intro d hd
    simp only [List.mem_cons, List.mem_singleton, List.not_mem_nil, or_false] at hd
    rcases hd with rfl | rfl
    exacts [⟨x2, h2⟩, ⟨x2, h2⟩]
  refine ⟨shuntingYard_unary_op a b q ha hb, by cases q <;> decide, ?_, by decide!⟩
  rw [evaluate_render A hA (.bin .pow (.neg (.num "2")) (.num "2")) "-2^2"
    hlit (by decide) (by decide) (by decide)]
  simp [refEval, BinOp.apply, h2.2]

theorem unary_minus_binds_tighter_witness :
    isDecimal "3" = true ∧ isDecimal "0.5" = true ∧ exactEnv.SymbolsNotNumbers ∧
      exactEnv.Reads "2" (decimalValue "2") ∧
      shuntingYard ("-" ++ "3" ++ BinOp.mul.tok ++ "0.5") = .ok ["3", "~", "0.5", "*"] :=
  ⟨by decide, by decide, exactEnv_symbols, exactEnv_reads "2" (by decide),
    (unary_minus_binds_tighter "3" "0.5" .mul exactEnv (decimalValue "2")
      (by decide) (by decide) exactEnv_symbols (exactEnv_reads "2" (by decide))).1⟩

/-! ## Wrapping an expression in a function call -/

theorem takeWhile_append_singleton {p : Char → Bool} (y : Char) (hy : p y = false)
    (cs : List Char) : (cs ++ [y]).takeWhile p = cs.takeWhile p := by
  induction cs with
  | nil => simp [List.takeWhile, hy]
  | cons c cs ih =>
    by_cases hc : p c = true
    · simp [List.takeWhile, hc, ih]
    · simp [List.takeWhile, hc]

theorem length_takeWhile_le (p : Char → Bool) (cs : List Char) :
    (cs.takeWhile p).length ≤ cs.length := by
  induction cs with
  | nil => simp
  | cons c cs ih =>
    by_cases hc : p c = true
    · simp [List.takeWhile, hc, ih]
    · simp [List.takeWhile, hc]

theorem popOperators_append_paren (op1 : String) (base : List String) (stack : List String) :
    ∀ out, popOperators op1 out (stack ++ "(" :: base)
      = ((popOperators op1 out stack).1, (popOperators op1 out stack).2 ++ "(" :: base) := by
  induction stack with
  | nil => intro out; rw [List.nil_append, popOperators_paren]; simp [popOperators]
  | cons t stack ih =>
    intro out
    by_cases h : shouldPop op1 t = true
    · simp [popOperators, h, ih]
    · simp [popOperators, h]

theorem popUntilParen_append_paren (base : List String) (stack : List String) :
    ∀ out, popUntilParen out (stack ++ "(" :: base)
      = ((popUntilParen out stack).1, (popUntilParen out stack).2 ++ "(" :: base) := by
  induction stack with
  | nil => intro out; simp [popUntilParen]
  | cons t stack ih =>
    intro out
    by_cases h : (t != "(") = true
    · rw [List.cons_append, popUntilParen, if_pos h, ih, popUntilParen, if_pos h]
    · simp [popUntilParen, h]

theorem popUntilParen_no_paren (stack : List String) :
    ∀ out, (∀ t ∈ stack, isParenthesis t = false) →
      popUntilParen out stack = (out ++ stack, []) := by
  induction stack with
  | nil => intro out _; simp [popUntilParen]
  | cons t stack ih =>
    intro out h
    have ht : (t != "(") = true := by
      have := h t (by simp)
      simp only [isParenthesis, Bool.or_eq_false_iff] at this
      simp only [bne, this.1, Bool.not_false]
    simp [popUntilParen, ht, ih (out ++ [t]) (fun u hu => h u (by simp [hu]))]

theorem drain_ok (stack : List String) :
    ∀ out q, drain out stack = .ok q →
      q = out ++ stack ∧ ∀ t ∈ stack, isParenthesis t = false := by
  induction stack with
  | nil => intro out q h; simp [drain] at h; simp [h]
  | cons t stack ih =>
    intro out q h
    by_cases ht : isParenthesis t = true
    · simp [drain, ht] at h
    · simp only [drain, ht, Bool.false_eq_true, if_false] at h
      obtain ⟨h1, h2⟩ := ih _ _ h
      refine ⟨by simp [h1], ?_⟩
      intro u hu
      rcases List.mem_cons.1 hu with rfl | hu
      · simpa using ht
      · exact h2 u hu

/-- Scanning an expression and then a closing parenthesis on top of a pending
`abs(` yields the output of the expression alone followed by `abs`. -/
theorem scan_wrap (cs : List Char) :
    ∀ (skip : Nat) (out stack : List String) (expect : Bool) (q : List String),
      skip ≤ cs.length →
      scan cs skip out stack expect = .ok q →
      scan (cs ++ [')']) skip out (stack ++ ["(", "abs"]) expect = .ok (q ++ ["abs"]) := by
  induction cs with
  | nil =>
    intro skip out stack expect q hskip h
    have hs : skip = 0 := by simpa using hskip
    subst hs
    simp only [scan] at h
    obtain ⟨hq, hst⟩ := drain_ok stack out q h
    simp only [List.nil_append, scan]
    simp only [show (isdigit ')' || ')' == '.') = false by decide, Bool.false_eq_true, if_false,
      show (')' == '(') = false by decide, show (')' == ')') = true by decide, if_true,
      popUntilParen_append_paren, popUntilParen_no_paren stack out hst]
    simp [show isFunction "abs" = true by decide, drain, hq]
  | cons c cs ih =>
    intro skip out stack expect q hskip h
    cases skip with
    | succ k =>
      simp only [List.cons_append, scan] at h ⊢
      exact ih k out stack expect q (by simpa using hskip) h
    | zero =>
      simp only [List.cons_append]
      rw [scan] at h ⊢
      by_cases h1 : (isdigit c || c == '.') = true
      · simp only [h1, if_true] at h ⊢
        rw [takeWhile_append_singleton ')' (by decide)]
        exact ih _ _ _ _ _ (length_takeWhile_le _ _) h
      simp only [h1, Bool.false_eq_true, if_false] at h ⊢
      by_cases h2 : (c == '(') = true
      · simp only [h2, if_true] at h ⊢
        exact ih 0 out ("(" :: stack) true q (Nat.zero_le _) h
      simp only [h2, Bool.false_eq_true, if_false] at h ⊢
      by_cases h3 : (c == ')') = true
      · simp only [h3, if_true, popUntilParen_append_paren] at h ⊢
        rcases hp : popUntilParen out stack with ⟨o1, s⟩
        rw [hp] at h
        cases s with
        | nil => simp at h
        | cons t s1 =>
          cases s1 with
          | nil =>
            simp only at h
            simp only [List.cons_append, List.nil_append,
              show isFunction "(" = false by decide, Bool.false_eq_true, if_false]
            exact ih 0 o1 [] false q (Nat.zero_le _) h
          | cons f s2 =>
            simp only at h
            simp only [List.cons_append]
            by_cases hf : isFunction f = true
            · simp only [hf, if_true] at h ⊢
              exact ih 0 _ s2 false q (Nat.zero_le _) h
            · simp only [hf, Bool.false_eq_true, if_false] at h ⊢
              exact ih 0 _ (f :: s2) false q (Nat.zero_le _) h
      simp only [h3, Bool.false_eq_true, if_false] at h ⊢
      by_cases h4 : (c == '-' && expect) = true
      · simp only [h4, if_true, popOperators_append_paren] at h ⊢
        exact ih 0 _ ("~" :: (popOperators "~" out stack).2) true q (Nat.zero_le _) h
      simp only [h4, Bool.false_eq_true, if_false] at h ⊢
      by_cases h5 : isOperator (String.singleton c) = true
      · simp only [h5, if_true, popOperators_append_paren] at h ⊢
        exact ih 0 _ (String.singleton c :: (popOperators (String.singleton c) out stack).2)
          true q (Nat.zero_le _) h
      simp only [h5, Bool.false_eq_true, if_false] at h ⊢
      by_cases h6 : isalpha c = true
      · simp only [h6, if_true] at h ⊢
        rw [takeWhile_append_singleton ')' (by decide)]
        by_cases h7 : isFunction (String.mk (c :: cs.takeWhile isalpha)) = true
        · simp only [h7, if_true] at h ⊢
          exact ih _ out (_ :: stack) expect q (length_takeWhile_le _ _) h
        · simp [h7] at h
      simp only [h6, Bool.false_eq_true, if_false] at h ⊢
      exact ih 0 out stack expect q (Nat.zero_le _) h

/-- C6. Function application: for every string `s` on which `shuntingYard`
succeeds with output `q`, `shuntingYard` succeeds on `abs(s)` with output
`q ++ [abs]`, so the function is emitted right after its whole argument.  In
particular `abs(-5)` evaluates as `abs (-5)`, which is `5`, and `abs(-5)+3` as
`abs (-5) + 3`, which is `8`. -/
theorem abs_application (s : String) (q : List String) (A : FloatEnv) (x3 x5 : A.F)
    (hq : shuntingYard s = .ok q)
    (hA : A.SymbolsNotNumbers) (h3 : A.Reads "3" x3) (h5 : A.Reads "5" x5) :
    shuntingYard ("abs(" ++ s ++ ")") = .ok (q ++ ["abs"]) ∧
    evaluate A "abs(-5)" = .ok (A.abs (A.neg x5)) ∧
    evaluate A "abs(-5)+3" = .ok (A.add (A.abs (A.neg x5)) x3) ∧
    evaluate exactEnv "abs(-5)" = .ok (5 : ℚ) ∧
    evaluate exactEnv "abs(-5)+3" = .ok (8 : ℚ) := by
  have hlit : ∀ d ∈ ["5", "3"], ∃ v, A.Reads d v := by
    intro d hd
    simp only [List.mem_cons, List.mem_singleton, List.not_mem_nil, or_false] at hd
    rcases hd with rfl | rfl
    exacts [⟨x5, h5⟩, ⟨x3, h3⟩]
  refine ⟨?_, ?_, ?_, by decide!, by decide!⟩
  · have hdata : ("abs(" ++ s ++ ")").data = 'a' :: 'b' :: 's' :: '(' :: (s.data ++ [')']) := by
      simp [data_append]
    have htw : List.takeWhile isalpha ('b' :: 's' :: '(' :: (s.data ++ [')'])) = ['b', 's'] := by
      simp [List.takeWhile, show isalpha 'b' = true by decide, show isalpha 's' = true by decide,
        show isalpha '(' = false by decide]
    unfold shuntingYard at hq ⊢
    rw [hdata, scan]
    simp only [show (isdigit 'a' || 'a' == '.') = false by decide, Bool.false_eq_true, if_false,
      show ('a' == '(') = false by decide, show ('a' == ')') = false by decide,
      show ('a' == '-') = false by decide, Bool.false_and,
      show isOperator (String.singleton 'a') = false by decide,
      show isalpha 'a' = true by decide, if_true, htw,
      show isFunction (String.mk ['a', 'b', 's']) = true by decide, List.length_cons,
      List.length_nil]
    rw [scan, scan, scan]
    simp only [show (isdigit '(' || '(' == '.') = false by decide, Bool.false_eq_true, if_false,
      show ('(' == '(') = true by decide, if_true]
    exact scan_wrap s.data 0 [] [] true q (Nat.zero_le _) hq
  · rw [evaluate_render A hA (.abs (.neg (.num "5"))) "abs(-5)"
      (fun d hd => hlit d (by simp [literals] at hd; simp [hd])) (by decide) (by decide)
      (by decide)]
    simp [refEval, h5.2]
  · rw [evaluate_render A hA (.bin .add (.abs (.neg (.num "5"))) (.num "3")) "abs(-5)+3"
      hlit (by decide) (by decide) (by decide)]
    simp [refEval, BinOp.apply, h5.2, h3.2]

theorem abs_application_witness :
    shuntingYard "1-abs(2)*3" = .ok ["1", "2", "abs", "3", "*", "-"] ∧
      exactEnv.SymbolsNotNumbers ∧ exactEnv.Reads "3" (decimalValue "3") ∧
      exactEnv.Reads "5" (decimalValue "5") ∧
      shuntingYard ("abs(" ++ "1-abs(2)*3" ++ ")")
        = .ok (["1", "2", "abs", "3", "*", "-"] ++ ["abs"]) :=
  ⟨by decide, exactEnv_symbols, exactEnv_reads "3" (by decide), exactEnv_reads "5" (by decide),
    (abs_application "1-abs(2)*3" _ exactEnv (decimalValue "3") (decimalValue "5") (by decide)
      exactEnv_symbols (exactEnv_reads "3" (by decide)) (exactEnv_reads "5" (by decide))).1⟩

/-! ## Division by zero and missing operands -/

theorem char_le_iff (a b : Char) : a ≤ b ↔ a.toNat ≤ b.toNat := by
  rfl

theorem isspace_of_numChar (c : Char) (h : isNumChar c = true) : isspace c = false := by
  simp only [isNumChar, isdigit, Bool.or_eq_true, Bool.and_eq_true, decide_eq_true_eq,
    beq_iff_eq, char_le_iff] at h
  rcases h with ⟨h1, h2⟩ | rfl
  · have h1n : 48 ≤ c.toNat := h1
    have h2n : c.toNat ≤ 57 := h2
    have hne : c ≠ ' ' := by
      rintro rfl
      exact absurd h1n (by decide)
    simp only [isspace, Bool.or_eq_false_iff, beq_eq_false_iff_ne, ne_eq, hne, not_false_eq_true,
      Bool.and_eq_false_imp, decide_eq_true_eq, decide_eq_false_iff_not, true_and]
    omega
  · decide

theorem filter_isspace_decimal (a : String) (ha : isDecimal a = true) :
    a.data.filter (fun c => !isspace c) = a.data := by
  rw [List.filter_eq_self]
  intro c hc
  simp [isspace_of_numChar c ((isDecimal_run a ha).2 c hc)]

/-- The postfix form of `a p b`. -/
theorem shuntingYard_one_op (a b : String) (p : BinOp)
    (ha : isDecimal a = true) (hb : isDecimal b = true) :
    shuntingYard (a ++ p.tok ++ b) = .ok [a, b, p.tok] := by
  have hdata : (a ++ p.tok ++ b).data = a.data ++ (p.chr :: (b.data ++ [])) := by
    simp [data_append, tok_data]
  have ha1 := isDecimal_run a ha
  have hb1 := isDecimal_run b hb
  have h1 : isParenthesis p.tok = false := by cases p <;> decide
  unfold shuntingYard
  rw [hdata, scan_number a _ _ _ _ ha1.1 ha1.2 (by simp [binop_not_numChar]), scan_binop,
    scan_number b _ _ _ _ hb1.1 hb1.2 (by simp)]
  simp [popOperators, scan, drain, h1]

/-- The postfix form of `a p`, an operator with its right operand missing. -/
theorem shuntingYard_dangling_op (a : String) (p : BinOp) (ha : isDecimal a = true) :
    shuntingYard (a ++ p.tok) = .ok [a, p.tok] := by
  have hdata : (a ++ p.tok).data = a.data ++ (p.chr :: []) := by
    simp [data_append, tok_data]
  have ha1 := isDecimal_run a ha
  have h1 : isParenthesis p.tok = false := by cases p <;> decide
  unfold shuntingYard
  rw [hdata, scan_number a _ _ _ _ ha1.1 ha1.2 (by simp [binop_not_numChar]), scan_binop]
  simp [popOperators, scan, drain, h1]

/-- An error raised by a token ends the evaluation with that error. -/
theorem evaluateRPN_error (A : FloatEnv) (before after : List String) (t : String)
    (st : List A.F) (e : EvalError)
    (hpre : evalTokens A [] before = .ok st) (ht : evalToken A st t = .error e) :
    evaluateRPN A (before ++ t :: after) = .error e := by
  simp [evaluateRPN, evalTokens_append, hpre, evalTokens, ht]

/-- A dividend out of the range of `double`: `1` followed by 400 zeros is a
valid literal, and `evaluate` on that literal followed by `/0` fails with the
range error of `std::stod`, not with `DivisionByZero`. -/
theorem division_by_zero_out_of_range :
    isDecimal bigLiteral = true ∧ rangeEnv.SymbolsNotNumbers ∧ rangeEnv.AcceptsDecimals ∧
      rangeEnv.Reads "0" (0 : ℚ) ∧ rangeEnv.isZero (0 : ℚ) = true ∧
      evaluate rangeEnv (bigLiteral ++ "/0") = .error .NumberOutOfRange ∧
      evaluate rangeEnv (bigLiteral ++ "/0") ≠ .error .DivisionByZero := by
  have h : evaluate rangeEnv (bigLiteral ++ "/0") = .error .NumberOutOfRange := by decide!
  refine ⟨by decide!, rangeEnv_symbols, rangeEnv_accepts, ⟨by decide!, by decide!⟩,
    by decide!, h, ?_⟩
  rw [h]
  intro hc
  cases hc

/-- C7 (amended). Division by zero: whenever `evaluateRPN` reaches `/` with a
right operand equal to zero it fails with `DivisionByZero`, whatever the left
operand, and when the right operand is non-zero it replaces the two operands
by the quotient left/right.  Hence for every valid number literal `a` that
`std::stod` converts, `evaluate` fails with `DivisionByZero` on `a/0`, as on
`5/0`; for a valid literal out of the range of `double` it fails with
`NumberOutOfRange` instead; in both cases it produces no successful result. -/
theorem division_by_zero (A : FloatEnv) (before after : List String) (val1 val2 : A.F)
    (rest : List A.F) (a : String) (z : A.F)
    (hA : A.SymbolsNotNumbers) (hacc : A.AcceptsDecimals)
    (hpre : evalTokens A [] before = .ok (val2 :: val1 :: rest))
    (ha : isDecimal a = true)
    (h0 : A.Reads "0" z) (hz : A.isZero z = true) :
    (A.isZero val2 = true → evaluateRPN A (before ++ "/" :: after) = .error .DivisionByZero) ∧
    (A.isZero val2 = false →
      evalTokens A [] (before ++ ["/"]) = .ok (A.div val1 val2 :: rest)) ∧
    (∀ va, A.stod a = some va → evaluate A (a ++ "/0") = .error .DivisionByZero) ∧
    (A.stod a = none → evaluate A (a ++ "/0") = .error .NumberOutOfRange) ∧
    (¬ ∃ v, evaluate A (a ++ "/0") = .ok v) ∧
    evaluate exactEnv "5/0" = .error .DivisionByZero := by
  have hstep := evalToken_binop A hA .div rest val1 val2
  have hnum : isNumber A a = true := isNumber_of_isDecimal A hacc a ha
  have hs : (a ++ "/0").data.filter (fun c => !isspace c) = (a ++ "/0").data := by
    rw [data_append, List.filter_append, filter_isspace_decimal a ha]
    rfl
  have hne : (a ++ "/0").data ≠ [] := by simp [data_append]
  have hstr : a ++ "/0" = a ++ BinOp.div.tok ++ "0" := by
    rw [String.append_assoc]; rfl
  have hq : shuntingYard (a ++ "/0") = .ok [a, "0", "/"] := by
    rw [hstr]; exact shuntingYard_one_op a "0" .div ha (by decide)
  have hev := evaluate_eq A (a ++ "/0") [a, "0", "/"] hs hne hq
  have hsome : ∀ va, A.stod a = some va → evaluate A (a ++ "/0") = .error .DivisionByZero := by
    intro va hva
    rw [hev]
    have h3 : evalToken A [z, va] "/" = .error .DivisionByZero := by
      have := evalToken_binop A hA .div [] va z
      simpa [BinOp.apply, hz] using this
    exact evaluateRPN_error A [a, "0"] [] "/" [z, va] _
      (by simp [evalTokens, evalToken_reads A [] a va ⟨hnum, hva⟩,
        evalToken_reads A [va] "0" z h0]) h3
  have hnone : A.stod a = none → evaluate A (a ++ "/0") = .error .NumberOutOfRange := by
    intro hn
    rw [hev]
    exact evaluateRPN_error A [] ["0", "/"] a [] _ rfl
      (by rw [evalToken_accepts A [] a hnum, hn])
  refine ⟨?_, ?_, hsome, hnone, ?_, by decide!⟩
  · intro h
    apply evaluateRPN_error A before after "/" _ _ hpre
    simpa [BinOp.apply, h] using hstep
  · intro h
    have : evalToken A (val2 :: val1 :: rest) "/" = .ok (A.div val1 val2 :: rest) := by
      simpa [BinOp.apply, h] using hstep
    simp [evalTokens_append, hpre, evalTokens, this]
  · rintro ⟨v, hv⟩
    cases hst : A.stod a with
    | none => rw [hnone hst] at hv; cases hv
    | some va => rw [hsome va hst] at hv; cases hv

theorem division_by_zero_witness :
    exactEnv.SymbolsNotNumbers ∧ exactEnv.AcceptsDecimals ∧
      evalTokens exactEnv [] ["7", "3", "3", "-"] = .ok [(0 : ℚ), (7 : ℚ)] ∧
      isDecimal "12.5" = true ∧
      exactEnv.Reads "0" (decimalValue "0") ∧ exactEnv.isZero (decimalValue "0") = true ∧
      exactEnv.isZero (0 : ℚ) = true ∧
      evaluateRPN exactEnv (["7", "3", "3", "-"] ++ "/" :: ["1", "+"]) = .error .DivisionByZero ∧
      evaluate exactEnv ("12.5" ++ "/0") = .error .DivisionByZero :=
  ⟨exactEnv_symbols, exactEnv_accepts, by decide!, by decide,
    exactEnv_reads "0" (by decide), by decide!, by decide!,
    (division_by_zero exactEnv ["7", "3", "3", "-"] ["1", "+"] (7 : ℚ) (0 : ℚ) [] "12.5"
      (decimalValue "0") exactEnv_symbols exactEnv_accepts (by decide!) (by decide)
      (exactEnv_reads "0" (by decide)) (by decide!)).1
      (by decide!),
    (division_by_zero exactEnv ["7", "3", "3", "-"] ["1", "+"] (7 : ℚ) (0 : ℚ) [] "12.5"
      (decimalValue "0") exactEnv_symbols exactEnv_accepts (by decide!) (by decide)
      (exactEnv_reads "0" (by decide)) (by decide!)).2.2.1 (decimalValue "12.5") rfl⟩

theorem evalToken_binop_short (A : FloatEnv) (hA : A.SymbolsNotNumbers) (op : BinOp)
    (st : List A.F) (hst : st.length < 2) :
    evalToken A st op.tok = .error .InsufficientOperands := by
  have h0 : isNumber A op.tok = false :=
    isNumber_symbol A hA op.tok (by cases op <;> simp [BinOp.tok])
  have h1 : (op.tok == "~") = false := by cases op <;> decide
  have h2 : isFunction op.tok = false := by cases op <;> decide
  have h3 : isOperator op.tok = true := by cases op <;> decide
  match st, hst with
  | [], _ => simp [evalToken, h0, h1, h2, h3]
  | [_], _ => simp [evalToken, h0, h1, h2, h3]

theorem evalToken_neg_empty (A : FloatEnv) (hA : A.SymbolsNotNumbers) :
    evalToken A [] "~" = .error .InsufficientOperands := by
  simp [evalToken, isNumber_symbol A hA "~" (by simp)]

theorem evalToken_abs_empty (A : FloatEnv) (hA : A.SymbolsNotNumbers) :
    evalToken A [] "abs" = .error .InsufficientOperands := by
  have h1 : ("abs" == "~") = false := by decide
  have h2 : isFunction "abs" = true := by decide
  simp [evalToken, isNumber_symbol A hA "abs" (by simp), h1, h2]

/-- A lone operand out of the range of `double`: `1` followed by 400 zeros is
a valid literal, and `evaluate` on that literal followed by `+` fails with the
range error of `std::stod`, not with `InsufficientOperands`. -/
theorem insufficient_operands_out_of_range :
    isDecimal bigLiteral = true ∧ rangeEnv.SymbolsNotNumbers ∧ rangeEnv.AcceptsDecimals ∧
      evaluate rangeEnv (bigLiteral ++ BinOp.add.tok) = .error .NumberOutOfRange ∧
      evaluate rangeEnv (bigLiteral ++ BinOp.add.tok) ≠ .error .InsufficientOperands := by
  have h : evaluate rangeEnv (bigLiteral ++ BinOp.add.tok) = .error .NumberOutOfRange := by
    decide!
  refine ⟨by decide!, rangeEnv_symbols, rangeEnv_accepts, h, ?_⟩
  rw [h]
  intro hc
  cases hc

/-- C10 (amended). Insufficient operands: for every postfix token sequence,
`evaluateRPN` fails with `InsufficientOperands` as soon as it reaches a binary
operator with fewer than two values on the value stack, or `~` or `abs` with an
empty value stack.  Hence for every valid number literal `a` that `std::stod`
converts and every binary operator `op`, `evaluate` fails with
`InsufficientOperands` on `a op`, as on `1+`; for a valid literal out of the
range of `double` it fails with `NumberOutOfRange` instead. -/
theorem insufficient_operands (A : FloatEnv) (before after : List String) (st : List A.F)
    (op : BinOp) (a : String)
    (hA : A.SymbolsNotNumbers) (hacc : A.AcceptsDecimals)
    (hpre : evalTokens A [] before = .ok st)
    (ha : isDecimal a = true) :
    (st.length < 2 →
      evaluateRPN A (before ++ op.tok :: after) = .error .InsufficientOperands) ∧
    (st = [] → evaluateRPN A (before ++ "~" :: after) = .error .InsufficientOperands) ∧
    (st = [] → evaluateRPN A (before ++ "abs" :: after) = .error .InsufficientOperands) ∧
    (∀ va, A.stod a = some va →
      evaluate A (a ++ op.tok) = .error .InsufficientOperands) ∧
    (A.stod a = none → evaluate A (a ++ op.tok) = .error .NumberOutOfRange) ∧
    evaluate exactEnv "1+" = .error .InsufficientOperands := by
  have hnum : isNumber A a = true := isNumber_of_isDecimal A hacc a ha
  have hs : (a ++ op.tok).data.filter (fun c => !isspace c) = (a ++ op.tok).data := by
    rw [data_append, List.filter_append, filter_isspace_decimal a ha]
    cases op <;> rfl
  have hne : (a ++ op.tok).data ≠ [] := by
    have := (isDecimal_run a ha).1
    simp [data_append, this]
  have hev := evaluate_eq A (a ++ op.tok) [a, op.tok] hs hne (shuntingYard_dangling_op a op ha)
  refine ⟨?_, ?_, ?_, ?_, ?_, by decide!⟩
  · intro h
    exact evaluateRPN_error A before after op.tok st _ hpre (evalToken_binop_short A hA op st h)
  · intro h
    subst h
    exact evaluateRPN_error A before after "~" [] _ hpre (evalToken_neg_empty A hA)
  · intro h
    subst h
    exact evaluateRPN_error A before after "abs" [] _ hpre (evalToken_abs_empty A hA)
  · intro va hva
    rw [hev]
    exact evaluateRPN_error A [a] [] op.tok [va] _
      (by simp [evalTokens, evalToken_reads A [] a va ⟨hnum, hva⟩])
      (evalToken_binop_short A hA op [va] (by simp))
  · intro hn
    rw [hev]
    exact evaluateRPN_error A [] [op.tok] a [] _ rfl
      (by rw [evalToken_accepts A [] a hnum, hn])

theorem insufficient_operands_witness :
    exactEnv.SymbolsNotNumbers ∧ exactEnv.AcceptsDecimals ∧
      evalTokens exactEnv [] ["4", "~"] = .ok [(-4 : ℚ)] ∧
      isDecimal "2.5" = true ∧
      [(-4 : ℚ)].length < 2 ∧
      evaluateRPN exactEnv (["4", "~"] ++ BinOp.mul.tok :: ["9"]) = .error .InsufficientOperands ∧
      evaluate exactEnv ("2.5" ++ BinOp.mul.tok) = .error .InsufficientOperands :=
  ⟨exactEnv_symbols, exactEnv_accepts, by decide!, by decide, by decide,
    (insufficient_operands exactEnv ["4", "~"] ["9"] [(-4 : ℚ)] .mul "2.5"
      exactEnv_symbols exactEnv_accepts (by decide!) (by decide)).1 (by decide),
    (insufficient_operands exactEnv ["4", "~"] ["9"] [(-4 : ℚ)] .mul "2.5"
      exactEnv_symbols exactEnv_accepts (by decide!) (by decide)).2.2.2.1
      (decimalValue "2.5") rfl⟩

/-! ## Mismatched parentheses -/

theorem balancedFrom_iff (cs : List Char) :
    ∀ d, balancedFrom d cs = true ↔
      (∀ n, (cs.take n).count ')' ≤ d + (cs.take n).count '(') ∧
        d + cs.count '(' = cs.count ')' := by
  induction cs with
  | nil => intro d; simp [balancedFrom]
  | cons c cs ih =>
    intro d
    by_cases h1 : c = '('
    · subst h1
      simp only [balancedFrom, beq_self_eq_true, if_true, ih]
      constructor
      · rintro ⟨ha, hb⟩
        refine ⟨?_, ?_⟩
        · intro n
          cases n with
          | zero => simp
          | succ m =>
            have := ha m
            simp only [List.take_succ_cons, List.count_cons, beq_self_eq_true, if_true,
              show ('(' == ')') = false by decide, Bool.false_eq_true, if_false]
            omega
        · simp only [List.count_cons, beq_self_eq_true, if_true,
            show ('(' == ')') = false by decide, Bool.false_eq_true, if_false]
          omega
      · rintro ⟨ha, hb⟩
        refine ⟨?_, ?_⟩
        · intro n
          have := ha (n + 1)
          simp only [List.take_succ_cons, List.count_cons, beq_self_eq_true, if_true,
            show ('(' == ')') = false by decide, Bool.false_eq_true, if_false] at this
          omega
        · simp only [List.count_cons, beq_self_eq_true, if_true,
            show ('(' == ')') = false by decide, Bool.false_eq_true, if_false] at hb
          omega
    by_cases h2 : c = ')'
    · subst h2
      cases d with
      | zero =>
        simp only [balancedFrom, show (')' == '(') = false by decide, Bool.false_eq_true,
          if_false, beq_self_eq_true, if_true, false_iff, not_and]
        intro ha
        have := ha 1
        simp [List.count_cons] at this
      | succ d =>
        simp only [balancedFrom, show (')' == '(') = false by decide, Bool.false_eq_true,
          if_false, beq_self_eq_true, if_true, ih]
        constructor
        · rintro ⟨ha, hb⟩
          refine ⟨?_, ?_⟩
          · intro n
            cases n with
            | zero => simp
            | succ m =>
              have := ha m
              simp only [List.take_succ_cons, List.count_cons, beq_self_eq_true, if_true,
                show (')' == '(') = false by decide, Bool.false_eq_true, if_false]
              omega
          · simp only [List.count_cons, beq_self_eq_true, if_true,
              show (')' == '(') = false by decide, Bool.false_eq_true, if_false]
            omega
        · rintro ⟨ha, hb⟩
          refine ⟨?_, ?_⟩
          · intro n
            have := ha (n + 1)
            simp only [List.take_succ_cons, List.count_cons, beq_self_eq_true, if_true,
              show (')' == '(') = false by decide, Bool.false_eq_true, if_false] at this
            omega
          · simp only [List.count_cons, beq_self_eq_true, if_true,
              show (')' == '(') = false by decide, Bool.false_eq_true, if_false] at hb
            omega
    · have e1 : (c == '(') = false := by simpa using h1
      have e2 : (c == ')') = false := by simpa using h2
      simp only [balancedFrom, e1, e2, Bool.false_eq_true, if_false, ih]
      constructor
      · rintro ⟨ha, hb⟩
        refine ⟨?_, ?_⟩
        · intro n
          cases n with
          | zero => simp
          | succ m =>
            have := ha m
            simp only [List.take_succ_cons, List.count_cons, e1, e2, Bool.false_eq_true,
              if_false]
            omega
        · simp only [List.count_cons, e1, e2, Bool.false_eq_true, if_false]
          omega
      · rintro ⟨ha, hb⟩
        refine ⟨?_, ?_⟩
        · intro n
          have := ha (n + 1)
          simp only [List.take_succ_cons, List.count_cons, e1, e2, Bool.false_eq_true,
            if_false] at this
          omega
        · simp only [List.count_cons, e1, e2, Bool.false_eq_true, if_false] at hb
          omega

theorem balancedFrom_zero_iff (s : String) : balancedFrom 0 s.data = true ↔ ¬ Unbalanced s := by
  rw [balancedFrom_iff]
  simp only [Unbalanced, Nat.zero_add, not_or, not_exists, not_lt, ne_eq, not_not]

theorem shouldPop_not_paren (op1 t : String) (h : shouldPop op1 t = true) :
    t ≠ "(" ∧ t ≠ ")" := by
  have h1 : isOperator t = true := by
    simp only [shouldPop, Bool.and_eq_true] at h
    exact h.1
  constructor <;>
  · rintro rfl
    exact absurd h1 (by decide)

theorem popOperators_parens (op1 : String) (stack : List String) :
    ∀ out, ((popOperators op1 out stack).2).count "(" = stack.count "(" ∧
      (")" ∉ stack → ")" ∉ (popOperators op1 out stack).2) := by
  induction stack with
  | nil => intro out; simp [popOperators]
  | cons t stack ih =>
    intro out
    by_cases h : shouldPop op1 t = true
    · have ht := shouldPop_not_paren op1 t h
      have := ih (out ++ [t])
      simp only [popOperators, h, if_true, List.count_cons, beq_iff_eq, ht.1, if_false]
      refine ⟨by simpa using this.1, fun hmem => this.2 (fun hm => hmem (by simp [hm]))⟩
    · simp [popOperators, h]

theorem popUntilParen_nil (stack : List String) :
    ∀ out, (popUntilParen out stack).2 = [] → stack.count "(" = 0 := by
  induction stack with
  | nil => intro out _; rfl
  | cons t stack ih =>
    intro out h
    by_cases ht : (t != "(") = true
    · simp only [popUntilParen, ht, if_true] at h
      have hne : t ≠ "(" := by simpa using ht
      simpa [List.count_cons, hne] using ih _ h
    · simp [popUntilParen, ht] at h

theorem popUntilParen_cons (stack : List String) :
    ∀ out t s1, (popUntilParen out stack).2 = t :: s1 →
      t = "(" ∧ s1.count "(" + 1 = stack.count "(" ∧ (")" ∉ stack → ")" ∉ s1) := by
  induction stack with
  | nil => intro out t s1 h; simp [popUntilParen] at h
  | cons u stack ih =>
    intro out t s1 h
    by_cases hu : (u != "(") = true
    · simp only [popUntilParen, hu, if_true] at h
      have hne : u ≠ "(" := by simpa using hu
      obtain ⟨h1, h2, h3⟩ := ih _ t s1 h
      refine ⟨h1, by simpa [List.count_cons, hne] using h2,
        fun hmem => h3 (fun hm => hmem (by simp [hm]))⟩
    · simp only [popUntilParen, hu, Bool.false_eq_true, if_false, List.cons.injEq] at h
      have hu2 : u = "(" := by simpa using hu
      obtain ⟨h1, h2⟩ := h
      subst h1 h2
      refine ⟨hu2, by simp [List.count_cons, hu2], fun hmem hm => hmem (by simp [hm])⟩

theorem drain_parens (stack : List String) (h : ")" ∉ stack) :
    ∀ out, (stack.count "(" = 0 → ∃ q, drain out stack = .ok q) ∧
      (stack.count "(" ≠ 0 → drain out stack = .error .MismatchedParentheses) := by
  induction stack with
  | nil => intro out; simp [drain]
  | cons t stack ih =>
    intro out
    have hstack : ")" ∉ stack := fun hm => h (by simp [hm])
    have ht2 : t ≠ ")" := fun ht => h (by simp [ht])
    by_cases ht : t = "("
    · subst ht
      simp [drain, show isParenthesis "(" = true by decide, List.count_cons]
    · have hp : isParenthesis t = false := by simp [isParenthesis, ht, ht2]
      simpa [drain, hp, List.count_cons, ht] using ih hstack (out ++ [t])

theorem takeWhile_length_pos {p : Char → Bool} (c : Char) (cs : List Char) (k : Nat)
    (h : k + 1 ≤ ((c :: cs).takeWhile p).length) :
    p c = true ∧ k ≤ (cs.takeWhile p).length := by
  by_cases hc : p c = true
  · refine ⟨hc, ?_⟩
    simp only [List.takeWhile, hc, List.length_cons] at h
    omega
  · simp [List.takeWhile, hc] at h

theorem numChar_not_paren (c : Char) (h : isNumChar c = true) :
    (c == '(') = false ∧ (c == ')') = false := by
  constructor <;>
  · rw [beq_eq_false_iff_ne]
    rintro rfl
    exact absurd h (by decide)

/-- Without identifiers the scanning loop succeeds exactly when the remaining
characters close the parentheses pending on the operator stack. -/
theorem scan_parens (cs : List Char) :
    ∀ (skip : Nat) (out stack : List String) (expect : Bool),
      (∀ c ∈ cs, isalpha c = false) → ")" ∉ stack →
      skip ≤ (cs.takeWhile isNumChar).length →
      ((∃ q, scan cs skip out stack expect = .ok q) ∧
          balancedFrom (stack.count "(") cs = true) ∨
        (scan cs skip out stack expect = .error .MismatchedParentheses ∧
          balancedFrom (stack.count "(") cs = false) := by
  induction cs with
  | nil =>
    intro skip out stack expect _ hst _
    have hd := drain_parens stack hst out
    by_cases h0 : stack.count "(" = 0
    · exact Or.inl ⟨by simpa [scan] using hd.1 h0, by simp [balancedFrom, h0]⟩
    · exact Or.inr ⟨by simpa [scan] using hd.2 h0, by simp [balancedFrom, h0]⟩
  | cons c cs ih =>
    intro skip out stack expect halpha hst hskip
    have hcs : ∀ x ∈ cs, isalpha x = false := fun x hx => halpha x (by simp [hx])
    have hc : isalpha c = false := halpha c (by simp)
    cases skip with
    | succ k =>
      obtain ⟨hnum, hk⟩ := takeWhile_length_pos c cs k hskip
      obtain ⟨e1, e2⟩ := numChar_not_paren c hnum
      simp only [scan, balancedFrom, e1, e2, Bool.false_eq_true, if_false]
      exact ih k out stack expect hcs hst hk
    | zero =>
      rw [scan]
      by_cases h1 : (isdigit c || c == '.') = true
      · obtain ⟨e1, e2⟩ := numChar_not_paren c h1
        simp only [h1, if_true, balancedFrom, e1, e2, Bool.false_eq_true, if_false]
        exact ih _ _ stack false hcs hst (le_refl _)
      simp only [h1, Bool.false_eq_true, if_false]
      by_cases h2 : (c == '(') = true
      · simp only [h2, if_true, balancedFrom]
        have := ih 0 out ("(" :: stack) true hcs
          (by simp only [List.mem_cons, not_or]; exact ⟨by decide, hst⟩) (Nat.zero_le _)
        simpa [List.count_cons] using this
      simp only [h2, Bool.false_eq_true, if_false]
      by_cases h3 : (c == ')') = true
      · simp only [h3, if_true, balancedFrom, h2, Bool.false_eq_true, if_false]
        rcases hp : popUntilParen out stack with ⟨o1, s⟩
        have hp2 : (popUntilParen out stack).2 = s := by rw [hp]
        cases s with
        | nil =>
          have h0 := popUntilParen_nil stack out hp2
          simp [h0]
        | cons t s1 =>
          obtain ⟨_, hcount, hmem⟩ := popUntilParen_cons stack out t s1 hp2
          have hs1 : ")" ∉ s1 := hmem hst
          rw [← hcount]
          cases s1 with
          | nil => simpa using ih 0 o1 [] false hcs (by simp) (Nat.zero_le _)
          | cons f s2 =>
            by_cases hf : isFunction f = true
            · have hfne : f ≠ "(" := by
                rintro rfl
                exact absurd hf (by decide)
              have := ih 0 (o1 ++ [f]) s2 false hcs (fun hm => hs1 (by simp [hm]))
                (Nat.zero_le _)
              simpa [hf, List.count_cons, hfne] using this
            · have := ih 0 o1 (f :: s2) false hcs hs1 (Nat.zero_le _)
              simpa [hf] using this
      simp only [h3, Bool.false_eq_true, if_false]
      have hbal : balancedFrom (stack.count "(") (c :: cs) = balancedFrom (stack.count "(") cs := by
        simp only [balancedFrom, h2, h3, Bool.false_eq_true, if_false]
      rw [hbal]
      by_cases h4 : (c == '-' && expect) = true
      · simp only [h4, if_true]
        have hpo := popOperators_parens "~" stack out
        have := ih 0 (popOperators "~" out stack).1 ("~" :: (popOperators "~" out stack).2) true
          hcs (by simp only [List.mem_cons, not_or]; exact ⟨by decide, hpo.2 hst⟩)
          (Nat.zero_le _)
        simpa [List.count_cons, hpo.1] using this
      simp only [h4, Bool.false_eq_true, if_false]
      by_cases h5 : isOperator (String.singleton c) = true
      · simp only [h5, if_true]
        have hpo := popOperators_parens (String.singleton c) stack out
        have hne1 : String.singleton c ≠ "(" := by
          intro he; rw [he] at h5; exact absurd h5 (by decide)
        have hne2 : ")" ≠ String.singleton c := by
          intro he; rw [← he] at h5; exact absurd h5 (by decide)
        have := ih 0 (popOperators (String.singleton c) out stack).1
          (String.singleton c :: (popOperators (String.singleton c) out stack).2) true
          hcs (by simp only [List.mem_cons, not_or]; exact ⟨hne2, hpo.2 hst⟩) (Nat.zero_le _)
        simpa [List.count_cons, hpo.1, hne1] using this
      simp only [h5, hc, Bool.false_eq_true, if_false]
      exact ih 0 out stack expect hcs hst (Nat.zero_le _)

/-- C8. Mismatched parentheses: for every expression containing no alphabetic
character, `shuntingYard` fails with `MismatchedParentheses` if and only if the
parentheses are unbalanced (some prefix contains more `)` than `(`, or the
totals of `(` and `)` differ), and succeeds otherwise.  In particular `(1+2`
fails with `MismatchedParentheses`. -/
theorem mismatched_parentheses (s : String) (hs : ∀ c ∈ s.data, isalpha c = false) :
    (shuntingYard s = .error .MismatchedParentheses ↔ Unbalanced s) ∧
    (¬ Unbalanced s → ∃ q, shuntingYard s = .ok q) ∧
    shuntingYard "(1+2" = .error .MismatchedParentheses := by
  have h := scan_parens s.data 0 [] [] true hs (by simp) (Nat.zero_le _)
  simp only [List.count_nil] at h
  refine ⟨⟨?_, ?_⟩, ?_, by decide⟩
  · intro he
    rcases h with ⟨⟨q, hq⟩, _⟩ | ⟨_, hb⟩
    · unfold shuntingYard at he
      rw [hq] at he
      cases he
    · by_contra hu
      have := (balancedFrom_zero_iff s).2 hu
      rw [this] at hb
      cases hb
  · intro hu
    rcases h with ⟨_, hb⟩ | ⟨he, _⟩
    · exact absurd hu ((balancedFrom_zero_iff s).1 hb)
    · exact he
  · intro hu
    rcases h with ⟨hq, _⟩ | ⟨_, hb⟩
    · exact hq
    · have := (balancedFrom_zero_iff s).2 hu
      rw [this] at hb
      cases hb

theorem mismatched_parentheses_witness :
    (∀ c ∈ "2*(3-(4+1)".data, isalpha c = false) ∧
      (shuntingYard "2*(3-(4+1)" = .error .MismatchedParentheses ↔ Unbalanced "2*(3-(4+1)") :=
  ⟨by decide, (mismatched_parentheses "2*(3-(4+1)" (by decide)).1⟩

/-! ## Unknown identifiers -/

theorem singleton_eq_iff (c d : Char) : String.singleton c = String.mk [d] ↔ c = d := by
  constructor
  · intro h
    have h2 : [c] = [d] := congrArg String.data h
    simpa using h2
  · rintro rfl; rfl

theorem isOperator_singleton (c : Char) (h : isOperator (String.singleton c) = true) :
    c = '+' ∨ c = '-' ∨ c = '*' ∨ c = '/' ∨ c = '^' ∨ c = '~' := by
  simp only [isOperator, Bool.or_eq_true, beq_iff_eq] at h
  rcases h with ((((h | h) | h) | h) | h) | h
  · exact Or.inl ((singleton_eq_iff c '+').1 h)
  · exact Or.inr (Or.inl ((singleton_eq_iff c '-').1 h))
  · exact Or.inr (Or.inr (Or.inl ((singleton_eq_iff c '*').1 h)))
  · exact Or.inr (Or.inr (Or.inr (Or.inl ((singleton_eq_iff c '/').1 h))))
  · exact Or.inr (Or.inr (Or.inr (Or.inr (Or.inl ((singleton_eq_iff c '^').1 h)))))
  · exact Or.inr (Or.inr (Or.inr (Or.inr (Or.inr ((singleton_eq_iff c '~').1 h)))))

/-- A letter takes none of the earlier branches of the scanning loop. -/
theorem alpha_facts (c : Char) (h : isalpha c = true) :
    (isdigit c || c == '.') = false ∧ (c == '(') = false ∧ (c == ')') = false ∧
      (c == '-') = false ∧ isOperator (String.singleton c) = false := by
  have hne : ∀ d : Char, isalpha d = false → (c == d) = false := by
    intro d hd
    rw [beq_eq_false_iff_ne]
    rintro rfl
    rw [h] at hd
    cases hd
  refine ⟨?_, hne _ (by decide), hne _ (by decide), hne _ (by decide), ?_⟩
  · rw [Bool.or_eq_false_iff]
    refine ⟨?_, hne _ (by decide)⟩
    simp only [isalpha, Bool.or_eq_true, Bool.and_eq_true, decide_eq_true_eq, char_le_iff] at h
    simp only [isdigit, Bool.and_eq_false_imp, decide_eq_true_eq, decide_eq_false_iff_not,
      char_le_iff]
    have e1 : 'a'.toNat = 97 := rfl
    have e2 : 'z'.toNat = 122 := rfl
    have e3 : 'A'.toNat = 65 := rfl
    have e4 : 'Z'.toNat = 90 := rfl
    have e5 : '9'.toNat = 57 := rfl
    rw [e1, e2, e3, e4] at h
    rw [e5]
    omega
  · by_contra hop
    have hop2 : isOperator (String.singleton c) = true := by simpa using hop
    rcases isOperator_singleton c hop2 with rfl | rfl | rfl | rfl | rfl | rfl <;>
      exact absurd h (by decide)

theorem not_alpha_of_numChar (c : Char) (h : isNumChar c = true) : isalpha c = false := by
  by_contra ha
  have ha2 : isalpha c = true := by simpa using ha
  have := (alpha_facts c ha2).1
  rw [isNumChar] at h
  rw [h] at this
  cases this

theorem takeWhile_append_stop {p : Char → Bool} (xs ys : List Char)
    (h : ∀ c ∈ ys.head?, p c = false) : (xs ++ ys).takeWhile p = xs.takeWhile p := by
  induction xs with
  | nil =>
    cases ys with
    | nil => rfl
    | cons y ys => simp [List.takeWhile, h y (by simp)]
  | cons x xs ih =>
    by_cases hx : p x = true
    · simp [List.takeWhile, hx, ih]
    · simp [List.takeWhile, hx]

theorem takeWhile_append_of_exists {p : Char → Bool} (xs ys : List Char)
    (h : ∃ x ∈ xs, p x = false) : (xs ++ ys).takeWhile p = xs.takeWhile p := by
  induction xs with
  | nil => simp at h
  | cons x xs ih =>
    by_cases hx : p x = true
    · obtain ⟨y, hy, hpy⟩ := h
      have hy2 : y ∈ xs := by
        rcases List.mem_cons.1 hy with rfl | hy
        · rw [hx] at hpy; cases hpy
        · exact hy
      simp [List.takeWhile, hx, ih ⟨y, hy2, hpy⟩]
    · simp [List.takeWhile, hx]

theorem getLast?_cons_of_ne_nil (c : Char) (cs : List Char) (h : cs ≠ []) :
    (c :: cs).getLast? = cs.getLast? := by
  cases cs with
  | nil => exact absurd rfl h
  | cons d ds => simp [List.getLast?_cons_cons]

theorem mem_of_mem_getLast? (l : List Char) (y : Char) (h : y ∈ l.getLast?) : y ∈ l := by
  induction l with
  | nil => simp at h
  | cons c cs ih =>
    cases cs with
    | nil =>
      simp at h
      simp [h]
    | cons d ds =>
      rw [List.getLast?_cons_cons] at h
      exact List.mem_cons_of_mem _ (ih h)

theorem last_not_alpha_tail (c : Char) (cs : List Char)
    (h : ∀ x ∈ (c :: cs).getLast?, isalpha x = false) :
    ∀ x ∈ cs.getLast?, isalpha x = false := by
  cases cs with
  | nil => simp
  | cons d ds => simpa [List.getLast?_cons_cons] using h

/-- After a letter that is not the last character of a text ending in a
non-letter, the run of letters ends inside the text. -/
theorem alpha_run_inside (c : Char) (cs ys : List Char) (hc : isalpha c = true)
    (h : ∀ x ∈ (c :: cs).getLast?, isalpha x = false) :
    (cs ++ ys).takeWhile isalpha = cs.takeWhile isalpha := by
  cases hcs : cs with
  | nil =>
    subst hcs
    have := h c (by simp)
    rw [hc] at this
    cases this
  | cons d ds =>
    rw [← hcs]
    have hne : cs ≠ [] := by simp [hcs]
    obtain ⟨y, hy⟩ : ∃ y, cs.getLast? = some y := by
      cases hl : cs.getLast? with
      | none => simp [hcs] at hl
      | some y => exact ⟨y, rfl⟩
    have hy2 : isalpha y = false := h y (by rw [getLast?_cons_of_ne_nil c cs hne, hy]; simp)
    exact takeWhile_append_of_exists cs ys
      ⟨y, mem_of_mem_getLast? cs y (by rw [hy]; simp), hy2⟩

/-- The identifier branch of the scanning loop on a maximal run of letters. -/
theorem scan_ident (r v : List Char) (out stack : List String) (expect : Bool)
    (hr : r ≠ []) (hall : ∀ c ∈ r, isalpha c = true) (hv : ∀ c ∈ v.head?, isalpha c = false)
    (hbad : isFunction (String.mk r) = false) :
    scan (r ++ v) 0 out stack expect = .error (.UnknownIdentifier (String.mk r)) := by
  cases r with
  | nil => exact absurd rfl hr
  | cons c cs =>
    obtain ⟨f1, f2, f3, f4, f5⟩ := alpha_facts c (hall c (by simp))
    have htw : (cs ++ v).takeWhile isalpha = cs :=
      takeWhile_append_of_head cs v (fun x hx => hall x (by simp [hx])) hv
    rw [List.cons_append, scan]
    simp only [f1, f2, f3, f4, f5, hall c (by simp), htw, hbad, Bool.false_eq_true, if_false,
      if_true, Bool.false_and]

/-- Scanning a text in which a maximal run of letters is not `abs` fails. -/
theorem scan_fails (r v : List Char) (hr : r ≠ []) (hall : ∀ c ∈ r, isalpha c = true)
    (hv : ∀ c ∈ v.head?, isalpha c = false) (hbad : isFunction (String.mk r) = false)
    (rem : List Char) :
    ∀ (skip : Nat) (out stack : List String) (expect : Bool),
      (∀ c ∈ rem.getLast?, isalpha c = false) → skip ≤ rem.length →
      ∃ e, scan (rem ++ (r ++ v)) skip out stack expect = .error e := by
  have hhead : ∀ c ∈ (r ++ v).head?, isNumChar c = false := by
    cases r with
    | nil => exact absurd rfl hr
    | cons c cs =>
      intro x hx
      simp only [List.cons_append, List.head?_cons, Option.mem_def, Option.some.injEq] at hx
      subst hx
      exact (alpha_facts c (hall c (by simp))).1
  induction rem with
  | nil =>
    intro skip out stack expect _ hskip
    have hs : skip = 0 := by simpa using hskip
    subst hs
    exact ⟨_, scan_ident r v out stack expect hr hall hv hbad⟩
  | cons c cs ih =>
    intro skip out stack expect hlast hskip
    have hlast2 := last_not_alpha_tail c cs hlast
    cases skip with
    | succ k =>
      simp only [List.cons_append, scan]
      exact ih k out stack expect hlast2 (by simpa using hskip)
    | zero =>
      rw [List.cons_append, scan]
      by_cases h1 : (isdigit c || c == '.') = true
      · simp only [h1, if_true]
        rw [takeWhile_append_stop cs (r ++ v) hhead]
        exact ih _ _ _ _ hlast2 (length_takeWhile_le _ _)
      simp only [h1, Bool.false_eq_true, if_false]
      by_cases h2 : (c == '(') = true
      · simp only [h2, if_true]
        exact ih _ _ _ _ hlast2 (Nat.zero_le _)
      simp only [h2, Bool.false_eq_true, if_false]
      by_cases h3 : (c == ')') = true
      · simp only [h3, if_true]
        rcases popUntilParen out stack with ⟨o1, s⟩
        cases s with
        | nil => exact ⟨_, rfl⟩
        | cons t s1 =>
          cases s1 with
          | nil => exact ih _ _ _ _ hlast2 (Nat.zero_le _)
          | cons f s2 =>
            by_cases hf : isFunction f = true
            · simp only [hf, if_true]
              exact ih _ _ _ _ hlast2 (Nat.zero_le _)
            · simp only [hf, Bool.false_eq_true, if_false]
              exact ih _ _ _ _ hlast2 (Nat.zero_le _)
      simp only [h3, Bool.false_eq_true, if_false]
      by_cases h4 : (c == '-' && expect) = true
      · simp only [h4, if_true]
        exact ih _ _ _ _ hlast2 (Nat.zero_le _)
      simp only [h4, Bool.false_eq_true, if_false]
      by_cases h5 : isOperator (String.singleton c) = true
      · simp only [h5, if_true]
        exact ih _ _ _ _ hlast2 (Nat.zero_le _)
      simp only [h5, Bool.false_eq_true, if_false]
      by_cases h6 : isalpha c = true
      · simp only [h6, if_true]
        rw [alpha_run_inside c cs (r ++ v) h6 hlast]
        by_cases h7 : isFunction (String.mk (c :: cs.takeWhile isalpha)) = true
        · simp only [h7, if_true]
          exact ih _ _ _ _ hlast2 (length_takeWhile_le _ _)
        · simp only [h7, Bool.false_eq_true, if_false]
          exact ⟨_, rfl⟩
      simp only [h6, Bool.false_eq_true, if_false]
      exact ih _ _ _ _ hlast2 (Nat.zero_le _)

theorem take_length_takeWhile (p : Char → Bool) (l : List Char) :
    l.take (l.takeWhile p).length = l.takeWhile p := by
  induction l with
  | nil => rfl
  | cons c cs ih =>
    by_cases hc : p c = true
    · simp [List.takeWhile, hc, ih]
    · simp [List.takeWhile, hc]

theorem takeWhile_append_drop (p : Char → Bool) (l : List Char) :
    l.takeWhile p ++ l.drop (l.takeWhile p).length = l := by
  induction l with
  | nil => rfl
  | cons c cs ih =>
    by_cases hc : p c = true
    · simp [List.takeWhile, hc, ih]
    · simp [List.takeWhile, hc]

theorem head_drop_takeWhile (p : Char → Bool) (l : List Char) :
    ∀ x ∈ (l.drop (l.takeWhile p).length).head?, p x = false := by
  induction l with
  | nil => simp
  | cons c cs ih =>
    by_cases hc : p c = true
    · simpa [List.takeWhile, hc] using ih
    · simp [List.takeWhile, hc]

theorem mem_takeWhile_holds (p : Char → Bool) (l : List Char) :
    ∀ x ∈ l.takeWhile p, p x = true := by
  induction l with
  | nil => simp
  | cons c cs ih =>
    by_cases hc : p c = true
    · intro x hx
      simp only [List.takeWhile, hc, List.mem_cons] at hx
      rcases hx with rfl | hx
      · exact hc
      · exact ih x hx
    · simp [List.takeWhile, hc]

theorem mem_getLast?_append_cons (front : List Char) (c : Char) (l : List Char) (y : Char)
    (h : y ∈ (front ++ c :: l).getLast?) : y ∈ c :: l := by
  induction front with
  | nil => exact mem_of_mem_getLast? _ y h
  | cons d ds ih =>
    apply ih
    rw [List.cons_append, getLast?_cons_of_ne_nil d _ (by simp)] at h
    exact h

theorem paren_step (c : Char) (cs : List Char) (d : Nat)
    (hP : ∀ n, ((c :: cs).take n).count ')' ≤ d + ((c :: cs).take n).count '(')
    (h2 : (c == '(') = false) (h3 : (c == ')') = false) :
    ∀ n, (cs.take n).count ')' ≤ d + (cs.take n).count '(' := by
  intro n
  have := hP (n + 1)
  simpa [List.take_succ_cons, List.count_cons, h2, h3] using this

theorem paren_open (cs : List Char) (d : Nat)
    (hP : ∀ n, (('(' :: cs).take n).count ')' ≤ d + (('(' :: cs).take n).count '(') :
    ∀ n, (cs.take n).count ')' ≤ d + 1 + (cs.take n).count '(' := by
  intro n
  have := hP (n + 1)
  simp only [List.take_succ_cons, List.count_cons, beq_self_eq_true, if_true,
    show ('(' == ')') = false by decide, Bool.false_eq_true, if_false] at this
  omega

theorem paren_close (cs : List Char) (d : Nat)
    (hP : ∀ n, ((')' :: cs).take n).count ')' ≤ d + ((')' :: cs).take n).count '(') :
    1 ≤ d ∧ ∀ n, (cs.take n).count ')' + 1 ≤ d + (cs.take n).count '(' := by
  constructor
  · have := hP 1
    simpa [List.count_cons] using this
  · intro n
    have := hP (n + 1)
    simp only [List.take_succ_cons, List.count_cons, beq_self_eq_true, if_true,
      show (')' == '(') = false by decide, Bool.false_eq_true, if_false] at this
    omega

/-- Scanning reaches the first maximal run of letters that is not `abs` and
fails there, when every `)` before it has a matching `(`. -/
theorem scan_first_bad (U r v : List Char) (hr : r ≠ []) (hall : ∀ c ∈ r, isalpha c = true)
    (hv : ∀ c ∈ v.head?, isalpha c = false) (hbad : isFunction (String.mk r) = false)
    (H : ∀ u1 r1 v1, U ++ (r ++ v) = u1 ++ (r1 ++ v1) → MaximalRun u1 r1 v1 →
      u1.length < U.length → isFunction (String.mk r1) = true)
    (rem : List Char) :
    ∀ (front : List Char) (skip : Nat) (out stack : List String) (expect : Bool),
      U = front ++ rem →
      (∀ c ∈ rem.getLast?, isalpha c = false) →
      skip ≤ rem.length →
      ((∀ y ∈ (front ++ rem.take skip).getLast?, isalpha y = false) ∨
        (∀ x ∈ ((rem ++ (r ++ v)).drop skip).head?, isalpha x = false)) →
      (∀ x ∈ rem.take skip, (x == '(') = false ∧ (x == ')') = false) →
      (∀ n, (rem.take n).count ')' ≤ stack.count "(" + (rem.take n).count '(') →
      scan (rem ++ (r ++ v)) skip out stack expect
        = .error (.UnknownIdentifier (String.mk r)) := by
  have hhead : ∀ c ∈ (r ++ v).head?, isNumChar c = false := by
    cases r with
    | nil => exact absurd rfl hr
    | cons c cs =>
      intro x hx
      simp only [List.cons_append, List.head?_cons, Option.mem_def, Option.some.injEq] at hx
      subst hx
      exact (alpha_facts c (hall c (by simp))).1
  induction rem with
  | nil =>
    intro front skip out stack expect _ _ hskip _ _ _
    have hs : skip = 0 := by simpa using hskip
    subst hs
    exact scan_ident r v out stack expect hr hall hv hbad
  | cons c cs ih =>
    intro front skip out stack expect hU hlast hskip hB hS hP
    have hlast2 := last_not_alpha_tail c cs hlast
    have hU2 : U = (front ++ [c]) ++ cs := by simp [hU]
    cases skip with
    | succ k =>
      have hc := hS c (by simp)
      simp only [List.cons_append, scan]
      refine ih (front ++ [c]) k out stack expect hU2 hlast2 (by simpa using hskip) ?_ ?_
        (paren_step c cs _ hP hc.1 hc.2)
      · simpa [List.take_succ_cons] using hB
      · intro x hx
        exact hS x (by simp [List.take_succ_cons, hx])
    | zero =>
      -- a token of one character that is not a letter
      have next : ∀ (out1 stack1 : List String) (expect1 : Bool), isalpha c = false →
          (∀ n, (cs.take n).count ')' ≤ stack1.count "(" + (cs.take n).count '(') →
          scan (cs ++ (r ++ v)) 0 out1 stack1 expect1
            = .error (.UnknownIdentifier (String.mk r)) := by
        intro out1 stack1 expect1 hc hP1
        refine ih (front ++ [c]) 0 out1 stack1 expect1 hU2 hlast2 (Nat.zero_le _)
          (Or.inl ?_) (by simp) hP1
        intro y hy
        have : y ∈ [c] := mem_getLast?_append_cons front c [] y (by simpa using hy)
        simp only [List.mem_singleton] at this
        subst this
        exact hc
      rw [List.cons_append, scan]
      by_cases h1 : (isdigit c || c == '.') = true
      · obtain ⟨e1, e2⟩ := numChar_not_paren c h1
        simp only [h1, if_true]
        rw [takeWhile_append_stop cs (r ++ v) hhead]
        refine ih (front ++ [c]) _ _ stack false hU2 hlast2 (length_takeWhile_le _ _)
          (Or.inl ?_) ?_ (paren_step c cs _ hP e1 e2)
        · intro y hy
          rw [take_length_takeWhile, List.append_assoc] at hy
          have hy2 := mem_getLast?_append_cons front c _ y (by simpa using hy)
          apply not_alpha_of_numChar
          rcases List.mem_cons.1 hy2 with rfl | hy3
          · exact h1
          · exact mem_takeWhile_holds _ _ _ hy3
        · intro x hx
          rw [take_length_takeWhile] at hx
          exact numChar_not_paren x (mem_takeWhile_holds _ _ _ hx)
      simp only [h1, Bool.false_eq_true, if_false]
      by_cases h2 : (c == '(') = true
      · have hc : c = '(' := by simpa using h2
        subst hc
        simp only [h2, if_true]
        exact next _ _ _ (by decide) (by simpa [List.count_cons] using paren_open cs _ hP)
      simp only [h2, Bool.false_eq_true, if_false]
      by_cases h3 : (c == ')') = true
      · have hc : c = ')' := by simpa using h3
        subst hc
        obtain ⟨hd, hP2⟩ := paren_close cs _ hP
        simp only [h3, if_true]
        rcases hp : popUntilParen out stack with ⟨o1, s⟩
        have hp2 : (popUntilParen out stack).2 = s := by rw [hp]
        cases s with
        | nil =>
          have h0 := popUntilParen_nil stack out hp2
          omega
        | cons t s1 =>
          obtain ⟨_, hcount, _⟩ := popUntilParen_cons stack out t s1 hp2
          have hP3 : ∀ n, (cs.take n).count ')' ≤ s1.count "(" + (cs.take n).count '(' := by
            intro n
            have := hP2 n
            omega
          cases s1 with
          | nil => exact next _ _ _ (by decide) hP3
          | cons f s2 =>
            by_cases hf : isFunction f = true
            · have hfne : f ≠ "(" := by
                rintro rfl
                exact absurd hf (by decide)
              simp only [hf, if_true]
              exact next _ _ _ (by decide) (by simpa [List.count_cons, hfne] using hP3)
            · simp only [hf, Bool.false_eq_true, if_false]
              exact next _ _ _ (by decide) hP3
      simp only [h3, Bool.false_eq_true, if_false]
      have e2 : (c == '(') = false := by simpa using h2
      have e3 : (c == ')') = false := by simpa using h3
      have hP1 := paren_step c cs _ hP e2 e3
      by_cases h4 : (c == '-' && expect) = true
      · have hc : isalpha c = false := by
          by_contra ha
          have := (alpha_facts c (by simpa using ha)).2.2.2.1
          simp [this] at h4
        simp only [h4, if_true]
        exact next _ _ _ hc
          (by simpa [List.count_cons, (popOperators_parens "~" stack out).1] using hP1)
      simp only [h4, Bool.false_eq_true, if_false]
      by_cases h5 : isOperator (String.singleton c) = true
      · have hc : isalpha c = false := by
          by_contra ha
          have := (alpha_facts c (by simpa using ha)).2.2.2.2
          rw [h5] at this
          cases this
        have hne1 : String.singleton c ≠ "(" := by
          intro he; rw [he] at h5; exact absurd h5 (by decide)
        simp only [h5, if_true]
        exact next _ _ _ hc
          (by simpa [List.count_cons, hne1,
            (popOperators_parens (String.singleton c) stack out).1] using hP1)
      simp only [h5, Bool.false_eq_true, if_false]
      by_cases h6 : isalpha c = true
      · have hfront : ∀ y ∈ front.getLast?, isalpha y = false := by
          rcases hB with hB | hB
          · simpa using hB
          · have := hB c (by simp)
            rw [h6] at this
            cases this
        have hfun : isFunction (String.mk (c :: (cs ++ (r ++ v)).takeWhile isalpha)) = true := by
          apply H front (c :: (cs ++ (r ++ v)).takeWhile isalpha)
            ((cs ++ (r ++ v)).drop ((cs ++ (r ++ v)).takeWhile isalpha).length)
          · rw [hU]
            simp only [List.append_assoc, List.cons_append]
            rw [takeWhile_append_drop]
          · refine ⟨by simp, ?_, hfront, head_drop_takeWhile _ _⟩
            intro x hx
            rcases List.mem_cons.1 hx with rfl | hx
            · exact h6
            · exact mem_takeWhile_holds _ _ _ hx
          · rw [hU]; simp
        simp only [h6, if_true, hfun]
        have hrun := alpha_run_inside c cs (r ++ v) h6 hlast
        have hne : String.mk (c :: (cs ++ (r ++ v)).takeWhile isalpha) ≠ "(" := by
          intro he; rw [he] at hfun; exact absurd hfun (by decide)
        refine ih (front ++ [c]) _ _ _ expect hU2 hlast2
          (by rw [hrun]; exact length_takeWhile_le _ _)
          (Or.inr (head_drop_takeWhile _ _)) ?_
          (by simpa [List.count_cons, hne] using hP1)
        intro x hx
        rw [hrun, take_length_takeWhile] at hx
        have hx2 := alpha_facts x (mem_takeWhile_holds _ _ _ hx)
        exact ⟨hx2.2.1, hx2.2.2.1⟩
      simp only [h6, Bool.false_eq_true, if_false]
      exact next _ _ _ (by simpa using h6) hP1

theorem isFunction_false_of_ne (t : String) (h : t ≠ "abs") : isFunction t = false := by
  simpa [isFunction] using h

/-- C9. Unknown identifier: when some maximal run of alphabetic characters of
the input is not exactly `abs`, `shuntingYard` fails; when moreover that run
is the first such run and no unmatched `)` occurs before it, the failure is
`UnknownIdentifier` carrying exactly that run.  Equivalently, if
`shuntingYard` succeeds then every maximal alphabetic run of the input is
`abs`.  In particular `sin(1)` fails with `UnknownIdentifier "sin"`. -/
theorem unknown_identifier (s : String) (u r v : List Char)
    (hs : s.data = u ++ r ++ v) (hrun : MaximalRun u r v) :
    (String.mk r ≠ "abs" → ∃ e, shuntingYard s = .error e) ∧
    (String.mk r ≠ "abs" →
      (∀ u1 r1 v1, s.data = u1 ++ r1 ++ v1 → MaximalRun u1 r1 v1 → u1.length < u.length →
        String.mk r1 = "abs") →
      (∀ n, (u.take n).count ')' ≤ (u.take n).count '(') →
      shuntingYard s = .error (.UnknownIdentifier (String.mk r))) ∧
    (∀ q, shuntingYard s = .ok q → String.mk r = "abs") ∧
    shuntingYard "sin(1)" = .error (.UnknownIdentifier "sin") := by
  obtain ⟨hr, hall, hu, hv⟩ := hrun
  have hs2 : s.data = u ++ (r ++ v) := by rw [hs, List.append_assoc]
  have h1 : String.mk r ≠ "abs" → ∃ e, shuntingYard s = .error e := by
    intro hbad
    unfold shuntingYard
    rw [hs2]
    exact scan_fails r v hr hall hv (isFunction_false_of_ne _ hbad) u 0 [] [] true hu
      (Nat.zero_le _)
  refine ⟨h1, ?_, ?_, by decide⟩
  · intro hbad hfirst hparen
    unfold shuntingYard
    rw [hs2]
    refine scan_first_bad u r v hr hall hv (isFunction_false_of_ne _ hbad) ?_ u [] 0 [] [] true
      (by simp) hu (Nat.zero_le _) (Or.inl (by simp)) (by simp) (by simpa using hparen)
    intro u1 r1 v1 heq hrun1 hlen
    have := hfirst u1 r1 v1 (by rw [hs2, heq, List.append_assoc]) hrun1 hlen
    rw [this]
    decide
  · intro q hq
    by_contra hbad
    obtain ⟨e, he⟩ := h1 hbad
    rw [he] at hq
    cases hq

theorem unknown_identifier_witness :
    "2*cos(abs(1))".data = "2*".data ++ "cos".data ++ "(abs(1))".data ∧
      MaximalRun "2*".data "cos".data "(abs(1))".data ∧
      String.mk "cos".data ≠ "abs" ∧
      ∃ e, shuntingYard "2*cos(abs(1))" = .error e :=
  ⟨by decide, ⟨by decide, by decide, by simp; decide, by simp; decide⟩, by decide,
    (unknown_identifier "2*cos(abs(1))" "2*".data "cos".data "(abs(1))".data (by decide)
      ⟨by decide, by decide, by simp; decide, by simp; decide⟩).1 (by decide)⟩

/-! ## The value stack at completion -/

theorem isBinaryOperator_tok (op : BinOp) : isBinaryOperator op.tok = true := by
  cases op <;> decide

theorem isNumber_tok (A : FloatEnv) (hA : A.SymbolsNotNumbers) (op : BinOp) :
    isNumber A op.tok = false :=
  isNumber_symbol A hA op.tok (by cases op <;> simp [BinOp.tok])

theorem isBinaryOperator_false_of_isNumber (A : FloatEnv) (hA : A.SymbolsNotNumbers)
    (t : String) (h : isNumber A t = true) : isBinaryOperator t = false := by
  by_contra hb
  have hb2 : isBinaryOperator t = true := by simpa using hb
  simp only [isBinaryOperator, Bool.or_eq_true, beq_iff_eq] at hb2
  have hmem : t ∈ ["+", "-", "*", "/", "^", "~", "abs"] := by
    rcases hb2 with (((h1 | h1) | h1) | h1) | h1 <;> simp [h1]
  rw [isNumber_symbol A hA t hmem] at h
  cases h

theorem isDecimal_tok (op : BinOp) : isDecimal op.tok = false := by
  cases op <;> decide

theorem isBinaryOperator_false_of_isDecimal (t : String) (h : isDecimal t = true) :
    isBinaryOperator t = false := by
  by_contra hb
  have hb2 : isBinaryOperator t = true := by simpa using hb
  simp only [isBinaryOperator, Bool.or_eq_true, beq_iff_eq] at hb2
  rcases hb2 with (((h1 | h1) | h1) | h1) | h1 <;> subst h1 <;> revert h <;> decide

/-- The effect of one postfix token on the height of the value stack. -/
theorem evalToken_length (A : FloatEnv) (hA : A.SymbolsNotNumbers)
    (hacc : A.AcceptsDecimals) (t : String)
    (ht : PostfixToken t) (st0 st1 : List A.F) (h : evalToken A st0 t = .ok st1) :
    st1.length + (if isBinaryOperator t then 1 else 0)
      = st0.length + (if isDecimal t then 1 else 0) := by
  rcases ht with hd | ⟨op, rfl⟩ | rfl | rfl
  · rw [evalToken_accepts A st0 t (isNumber_of_isDecimal A hacc t hd)] at h
    cases hs : A.stod t with
    | none => rw [hs] at h; cases h
    | some v =>
      rw [hs] at h
      cases h
      simp [hd, isBinaryOperator_false_of_isDecimal t hd]
  · simp only [isBinaryOperator_tok, isDecimal_tok, if_true, Bool.false_eq_true, if_false]
    match st0, h with
    | [], h => rw [evalToken_binop_short A hA op [] (by simp)] at h; cases h
    | [_], h => rw [evalToken_binop_short A hA op [_] (by simp)] at h; cases h
    | y :: x :: rest, h =>
      rw [evalToken_binop A hA op rest x y] at h
      cases hr : op.apply A x y with
      | error e => rw [hr] at h; cases h
      | ok r =>
        rw [hr] at h
        cases h
        simp
  · have h1 : isDecimal "~" = false := by decide
    have h2 : isBinaryOperator "~" = false := by decide
    simp only [h1, h2, Bool.false_eq_true, if_false]
    cases st0 with
    | nil => rw [evalToken_neg_empty A hA] at h; cases h
    | cons v rest =>
      rw [evalToken_neg A hA rest v] at h
      cases h
      simp
  · have h1 : isDecimal "abs" = false := by decide
    have h2 : isBinaryOperator "abs" = false := by decide
    simp only [h1, h2, Bool.false_eq_true, if_false]
    cases st0 with
    | nil => rw [evalToken_abs_empty A hA] at h; cases h
    | cons v rest =>
      rw [evalToken_abs A hA rest v] at h
      cases h
      simp

/-- The height of the value stack after a postfix sequence. -/
theorem evalTokens_length (A : FloatEnv) (hA : A.SymbolsNotNumbers)
    (hacc : A.AcceptsDecimals) (ts : List String) :
    ∀ (st0 st : List A.F), (∀ t ∈ ts, PostfixToken t) → evalTokens A st0 ts = .ok st →
      st.length + ts.countP isBinaryOperator = st0.length + ts.countP isDecimal := by
  induction ts with
  | nil =>
    intro st0 st _ h
    simp only [evalTokens, Except.ok.injEq] at h
    simp [h]
  | cons t ts ih =>
    intro st0 st hts h
    simp only [evalTokens] at h
    cases h1 : evalToken A st0 t with
    | error e => rw [h1] at h; cases h
    | ok st1 =>
      rw [h1] at h
      have hlen := evalToken_length A hA hacc t (hts t (by simp)) st0 st1 h1
      have := ih st1 st (fun u hu => hts u (by simp [hu])) h
      simp only [List.countP_cons]
      omega

theorem applyBinary_error (A : FloatEnv) (t : String) (x y : A.F) (e : EvalError)
    (h : applyBinary A t x y = .error e) : e = .DivisionByZero := by
  unfold applyBinary at h
  split_ifs at h
  cases h
  rfl

/-- A token of any kind fails only for want of operands, on a zero divisor or
on a number out of range. -/
theorem evalToken_error (A : FloatEnv) (st : List A.F) (t : String) (e : EvalError)
    (h : evalToken A st t = .error e) :
    e = .NumberOutOfRange ∨ e = .InsufficientOperands ∨ e = .DivisionByZero := by
  unfold evalToken at h
  by_cases h1 : isNumber A t = true
  · simp only [h1, if_true] at h
    cases hs : A.stod t with
    | none =>
      rw [hs] at h
      simp only [Except.error.injEq] at h
      exact Or.inl h.symm
    | some v => rw [hs] at h; cases h
  simp only [h1, Bool.false_eq_true, if_false] at h
  by_cases h2 : (t == "~") = true
  · simp only [h2, if_true] at h
    cases st with
    | nil =>
      simp only [Except.error.injEq] at h
      exact Or.inr (Or.inl h.symm)
    | cons v rest => cases h
  simp only [h2, Bool.false_eq_true, if_false] at h
  by_cases h3 : isFunction t = true
  · simp only [h3, if_true] at h
    cases st with
    | nil =>
      simp only [Except.error.injEq] at h
      exact Or.inr (Or.inl h.symm)
    | cons v rest =>
      simp only at h
      split_ifs at h
  simp only [h3, Bool.false_eq_true, if_false] at h
  by_cases h4 : isOperator t = true
  · simp only [h4, if_true] at h
    match st, h with
    | [], h =>
      simp only [Except.error.injEq] at h
      exact Or.inr (Or.inl h.symm)
    | [_], h =>
      simp only [Except.error.injEq] at h
      exact Or.inr (Or.inl h.symm)
    | y :: x :: rest, h =>
      simp only at h
      cases hb : applyBinary A t x y with
      | ok r => rw [hb] at h; cases h
      | error e1 =>
        rw [hb] at h
        simp only [Except.error.injEq] at h
        subst h
        exact Or.inr (Or.inr (applyBinary_error A t x y e1 hb))
  simp only [h4, Bool.false_eq_true, if_false] at h
  cases h

theorem evalTokens_error (A : FloatEnv) (ts : List String) :
    ∀ (st : List A.F) (e : EvalError), evalTokens A st ts = .error e →
      e = .NumberOutOfRange ∨ e = .InsufficientOperands ∨ e = .DivisionByZero := by
  induction ts with
  | nil => intro st e h; simp [evalTokens] at h
  | cons t ts ih =>
    intro st e h
    simp only [evalTokens] at h
    cases h1 : evalToken A st t with
    | error e1 =>
      rw [h1] at h
      cases h
      exact evalToken_error A st t e h1
    | ok st1 =>
      rw [h1] at h
      exact ih st1 e h

theorem evaluateRPN_of_evalTokens_error (A : FloatEnv) (ts : List String) (e : EvalError)
    (h : evalTokens A [] ts = .error e) : evaluateRPN A ts = .error e := by
  simp [evaluateRPN, h]

theorem evaluateRPN_of_evalTokens_ok (A : FloatEnv) (ts : List String) (st : List A.F)
    (h : evalTokens A [] ts = .ok st) :
    (∀ v, evaluateRPN A ts = .ok v ↔ st = [v]) ∧
      (st.length ≠ 1 → evaluateRPN A ts = .error .MalformedExpression) := by
  match st, h with
  | [], h => simp [evaluateRPN, h]
  | [x], h =>
    simp only [evaluateRPN, h]
    refine ⟨fun v => ?_, fun hne => absurd rfl hne⟩
    constructor
    · intro hv; cases hv; rfl
    · intro hv; cases hv; rfl
  | x :: y :: rest, h => simp [evaluateRPN, h]

/-- A number token out of the range of `double`: the sequence of the single
token `1` followed by 400 zeros has one number token and no operator, neither
an operand underflow nor a division by zero occurs on it, and yet
`evaluateRPN` does not succeed, nor does it fail with `MalformedExpression`:
it fails with the range error of `std::stod`. -/
theorem one_value_out_of_range :
    rangeEnv.SymbolsNotNumbers ∧ rangeEnv.AcceptsDecimals ∧
      (∀ t ∈ [bigLiteral], PostfixToken t) ∧
      evaluateRPN rangeEnv [bigLiteral] ≠ .error .InsufficientOperands ∧
      evaluateRPN rangeEnv [bigLiteral] ≠ .error .DivisionByZero ∧
      ((([bigLiteral].countP isDecimal : ℕ) : ℤ)
        - (([bigLiteral].countP isBinaryOperator : ℕ) : ℤ) = 1) ∧
      evaluateRPN rangeEnv [bigLiteral] = .error .NumberOutOfRange ∧
      (¬ ∃ v, evaluateRPN rangeEnv [bigLiteral] = .ok v) ∧
      evaluateRPN rangeEnv [bigLiteral] ≠ .error .MalformedExpression := by
  have h : evaluateRPN rangeEnv [bigLiteral] = .error .NumberOutOfRange := by decide!
  have hd : isDecimal bigLiteral = true := by decide!
  refine ⟨rangeEnv_symbols, rangeEnv_accepts, ?_, ?_, ?_, ?_, h, ?_, ?_⟩
  · intro t ht
    simp only [List.mem_singleton] at ht
    subst ht
    exact Or.inl hd
  · rw [h]; intro hc; cases hc
  · rw [h]; intro hc; cases hc
  · decide!
  · rintro ⟨v, hv⟩
    rw [h] at hv
    cases hv
  · rw [h]; intro hc; cases hc

/-- C11 (amended). Exactly one value at completion: for every postfix sequence
of valid number tokens, binary operators, `~` and `abs` on which neither an
operand underflow nor a division by zero occurs and no number token is out of
the range of `double`, `evaluateRPN` succeeds if and only if the number of
number tokens minus the number of binary operator tokens is 1, and otherwise
fails with `MalformedExpression`; on success the returned value is the single
value left on the stack.  In particular the empty sequence and the sequence
`[1, 2]` fail with `MalformedExpression`. -/
theorem one_value_at_completion (A : FloatEnv) (ts : List String) (v1 v2 : A.F)
    (hA : A.SymbolsNotNumbers) (hacc : A.AcceptsDecimals)
    (hts : ∀ t ∈ ts, PostfixToken t)
    (hunder : evaluateRPN A ts ≠ .error .InsufficientOperands)
    (hdiv : evaluateRPN A ts ≠ .error .DivisionByZero)
    (hrange : evaluateRPN A ts ≠ .error .NumberOutOfRange)
    (h1 : A.Reads "1" v1) (h2 : A.Reads "2" v2) :
    ((∃ v, evaluateRPN A ts = .ok v) ↔
      ((ts.countP isDecimal : ℤ) - (ts.countP isBinaryOperator : ℤ) = 1)) ∧
    (¬ ((ts.countP isDecimal : ℤ) - (ts.countP isBinaryOperator : ℤ) = 1) →
      evaluateRPN A ts = .error .MalformedExpression) ∧
    (∀ v, evaluateRPN A ts = .ok v ↔ evalTokens A [] ts = .ok [v]) ∧
    evaluateRPN A [] = .error .MalformedExpression ∧
    evaluateRPN A ["1", "2"] = .error .MalformedExpression := by
  have hlast : evaluateRPN A [] = .error .MalformedExpression ∧
      evaluateRPN A ["1", "2"] = .error .MalformedExpression := by
    constructor
    · rfl
    · simp [evaluateRPN, evalTokens, evalToken_reads A _ "1" v1 h1,
        evalToken_reads A _ "2" v2 h2]
  cases hev : evalTokens A [] ts with
  | error e =>
    have he := evaluateRPN_of_evalTokens_error A ts e hev
    rcases evalTokens_error A ts [] e hev with rfl | rfl | rfl
    · exact absurd he hrange
    · exact absurd he hunder
    · exact absurd he hdiv
  | ok st =>
    have hlen := evalTokens_length A hA hacc ts [] st hts hev
    obtain ⟨hok, hbad⟩ := evaluateRPN_of_evalTokens_ok A ts st hev
    simp only [List.length_nil, Nat.zero_add] at hlen
    have hiff : ((ts.countP isDecimal : ℤ) - (ts.countP isBinaryOperator : ℤ) = 1)
        ↔ st.length = 1 := by
      constructor <;> intro h <;> omega
    refine ⟨?_, ?_, ?_, hlast⟩
    · rw [hiff]
      constructor
      · rintro ⟨v, hv⟩
        rw [(hok v).1 hv]
        rfl
      · intro h
        match st, h with
        | [x], _ => exact ⟨x, (hok x).2 rfl⟩
    · intro h
      exact hbad (fun hl => h (hiff.2 hl))
    · intro v
      rw [hok v]
      constructor
      · intro h; rw [h]
      · intro h; cases h; rfl

theorem one_value_at_completion_witness :
    exactEnv.SymbolsNotNumbers ∧ exactEnv.AcceptsDecimals ∧
      (∀ t ∈ ["3", "4", "+", "~", "5"], PostfixToken t) ∧
      evaluateRPN exactEnv ["3", "4", "+", "~", "5"] ≠ .error .InsufficientOperands ∧
      evaluateRPN exactEnv ["3", "4", "+", "~", "5"] ≠ .error .DivisionByZero ∧
      evaluateRPN exactEnv ["3", "4", "+", "~", "5"] ≠ .error .NumberOutOfRange ∧
      exactEnv.Reads "1" (decimalValue "1") ∧ exactEnv.Reads "2" (decimalValue "2") ∧
      ¬ (((["3", "4", "+", "~", "5"].countP isDecimal : ℕ) : ℤ)
          - ((["3", "4", "+", "~", "5"].countP isBinaryOperator : ℕ) : ℤ) = 1) ∧
      evaluateRPN exactEnv ["3", "4", "+", "~", "5"] = .error .MalformedExpression :=
  have htok : ∀ t ∈ ["3", "4", "+", "~", "5"], PostfixToken t := by
    intro t ht
    simp only [List.mem_cons, List.mem_singleton, List.not_mem_nil, or_false] at ht
    rcases ht with rfl | rfl | rfl | rfl | rfl
    · exact Or.inl (by decide)
    · exact Or.inl (by decide)
    · exact Or.inr (Or.inl ⟨.add, rfl⟩)
    · exact Or.inr (Or.inr (Or.inl rfl))
    · exact Or.inl (by decide)
  ⟨exactEnv_symbols, exactEnv_accepts, htok, by decide!, by decide!, by decide!,
    exactEnv_reads "1" (by decide), exactEnv_reads "2" (by decide), by decide,
    (one_value_at_completion exactEnv ["3", "4", "+", "~", "5"] (decimalValue "1")
      (decimalValue "2") exactEnv_symbols exactEnv_accepts htok (by decide!) (by decide!)
      (by decide!) (exactEnv_reads "1" (by decide)) (exactEnv_reads "2" (by decide))).2.1
      (by decide)⟩

/-! ## Whitespace -/

/-- What `evaluate` does once the whitespace-free text of its input is known. -/
theorem evaluate_cleaned (A : FloatEnv) (s cleaned : String)
    (hs : String.mk (s.data.filter (fun c => !isspace c)) = cleaned) :
    evaluate A s
      = if cleaned.data.isEmpty then .error .EmptyExpression
        else match shuntingYard cleaned with
          | .ok rpn => evaluateRPN A rpn
          | .error e => .error e := by
  subst hs
  rfl

theorem evaluate_space_12_false :
    evaluate exactEnv "1 2" = .ok (12 : ℚ) ∧
      evaluate exactEnv "1 2" ≠ .error .MalformedExpression := by
  constructor <;> decide!

/-- C12 (amended). Evaluating `1 2` does not fail with `MalformedExpression`:
`evaluate` removes the space before parsing, so the input is read as the single
literal `12` and the result is its value.  Two literals that remain separate
tokens with no operator between them, as in `(1)2`, fail with
`MalformedExpression`. -/
theorem evaluate_space_12 (A : FloatEnv) (v v1 v2 : A.F) (h12 : A.Reads "12" v)
    (h1 : A.Reads "1" v1) (h2 : A.Reads "2" v2) :
    String.mk ("1 2".data.filter (fun c => !isspace c)) = "12" ∧
    shuntingYard "12" = .ok ["12"] ∧
    evaluate A "1 2" = .ok v ∧
    evaluate A "1 2" ≠ .error .MalformedExpression ∧
    evaluate A "(1)2" = .error .MalformedExpression ∧
    evaluate exactEnv "1 2" = .ok (12 : ℚ) := by
  have hv : evaluate A "1 2" = .ok v := by
    rw [evaluate_cleaned A "1 2" "12" (by decide)]
    simp [show shuntingYard "12" = .ok ["12"] by decide, evaluateRPN, evalTokens,
      evalToken_reads A _ "12" v h12]
  refine ⟨by decide, by decide, hv, by rw [hv]; simp, ?_, by decide!⟩
  rw [evaluate_cleaned A "(1)2" "(1)2" (by decide)]
  simp [show shuntingYard "(1)2" = .ok ["1", "2"] by decide, evaluateRPN, evalTokens,
    evalToken_reads A _ "1" v1 h1, evalToken_reads A _ "2" v2 h2]

theorem evaluate_space_12_witness :
    exactEnv.Reads "12" (decimalValue "12") ∧ exactEnv.Reads "1" (decimalValue "1") ∧
      exactEnv.Reads "2" (decimalValue "2") ∧
      evaluate exactEnv "1 2" = .ok (decimalValue "12") :=
  ⟨exactEnv_reads "12" (by decide), exactEnv_reads "1" (by decide),
    exactEnv_reads "2" (by decide),
    (evaluate_space_12 exactEnv (decimalValue "12") (decimalValue "1") (decimalValue "2")
      (exactEnv_reads "12" (by decide)) (exactEnv_reads "1" (by decide))
      (exactEnv_reads "2" (by decide))).2.2.1⟩

/-! ## The empty expression -/

theorem drain_error (stack : List String) :
    ∀ (out : List String) (e : EvalError), drain out stack = .error e →
      e = .MismatchedParentheses := by
  induction stack with
  | nil => intro out e h; simp [drain] at h
  | cons t stack ih =>
    intro out e h
    by_cases ht : isParenthesis t = true
    · simp only [drain, ht, if_true, Except.error.injEq] at h
      exact h.symm
    · simp only [drain, ht, Bool.false_eq_true, if_false] at h
      exact ih _ e h

/-- The scanning loop fails only with `MismatchedParentheses` or
`UnknownIdentifier`. -/
theorem scan_error (cs : List Char) :
    ∀ (skip : Nat) (out stack : List String) (expect : Bool) (e : EvalError),
      scan cs skip out stack expect = .error e →
      e = .MismatchedParentheses ∨ ∃ name, e = .UnknownIdentifier name := by
  induction cs with
  | nil =>
    intro skip out stack expect e h
    simp only [scan] at h
    exact Or.inl (drain_error stack out e h)
  | cons c cs ih =>
    intro skip out stack expect e h
    cases skip with
    | succ k =>
      simp only [scan] at h
      exact ih _ _ _ _ e h
    | zero =>
      rw [scan] at h
      by_cases h1 : (isdigit c || c == '.') = true
      · simp only [h1, if_true] at h
        exact ih _ _ _ _ e h
      simp only [h1, Bool.false_eq_true, if_false] at h
      by_cases h2 : (c == '(') = true
      · simp only [h2, if_true] at h
        exact ih _ _ _ _ e h
      simp only [h2, Bool.false_eq_true, if_false] at h
      by_cases h3 : (c == ')') = true
      · simp only [h3, if_true] at h
        rcases hp : popUntilParen out stack with ⟨o1, s⟩
        rw [hp] at h
        cases s with
        | nil =>
          simp only [Except.error.injEq] at h
          exact Or.inl h.symm
        | cons t s1 =>
          cases s1 with
          | nil => exact ih _ _ _ _ e h
          | cons f s2 =>
            simp only at h
            by_cases hf : isFunction f = true
            · simp only [hf, if_true] at h
              exact ih _ _ _ _ e h
            · simp only [hf, Bool.false_eq_true, if_false] at h
              exact ih _ _ _ _ e h
      simp only [h3, Bool.false_eq_true, if_false] at h
      by_cases h4 : (c == '-' && expect) = true
      · simp only [h4, if_true] at h
        exact ih _ _ _ _ e h
      simp only [h4, Bool.false_eq_true, if_false] at h
      by_cases h5 : isOperator (String.singleton c) = true
      · simp only [h5, if_true] at h
        exact ih _ _ _ _ e h
      simp only [h5, Bool.false_eq_true, if_false] at h
      by_cases h6 : isalpha c = true
      · simp only [h6, if_true] at h
        by_cases h7 : isFunction (String.mk (c :: cs.takeWhile isalpha)) = true
        · simp only [h7, if_true] at h
          exact ih _ _ _ _ e h
        · simp only [h7, Bool.false_eq_true, if_false, Except.error.injEq] at h
          exact Or.inr ⟨_, h.symm⟩
      simp only [h6, Bool.false_eq_true, if_false] at h
      exact ih _ _ _ _ e h

theorem evaluateRPN_not_empty (A : FloatEnv) (ts : List String) :
    evaluateRPN A ts ≠ .error .EmptyExpression := by
  intro h
  unfold evaluateRPN at h
  cases hev : evalTokens A [] ts with
  | error e =>
    rw [hev] at h
    simp only [Except.error.injEq] at h
    subst h
    rcases evalTokens_error A ts [] _ hev with h | h | h <;> cases h
  | ok st =>
    rw [hev] at h
    match st, h with
    | [], h => cases h
    | [_], h => cases h
    | _ :: _ :: _, h => cases h

theorem shuntingYard_not_empty (s : String) : shuntingYard s ≠ .error .EmptyExpression := by
  intro h
  rcases scan_error s.data 0 [] [] true _ h with h | ⟨n, h⟩ <;> cases h

/-- C13. Empty expression: `evaluate` fails with `EmptyExpression` if and only
if its input consists solely of whitespace characters (the empty string
included); no parsing or evaluation error is reported for such input, and
`EmptyExpression` is never raised for an input with a non-whitespace
character. -/
theorem empty_expression (A : FloatEnv) (s : String) :
    (evaluate A s = .error .EmptyExpression ↔ ∀ c ∈ s.data, isspace c = true) ∧
    ((∃ c ∈ s.data, isspace c = false) → evaluate A s ≠ .error .EmptyExpression) ∧
    evaluate A "" = .error .EmptyExpression := by
  have hiff : evaluate A s = .error .EmptyExpression ↔ ∀ c ∈ s.data, isspace c = true := by
    rw [evaluate_cleaned A s _ rfl]
    cases hf : s.data.filter (fun c => !isspace c) with
    | nil =>
      simp only [List.isEmpty_nil, if_true, true_iff]
      intro c hc
      by_contra hsp
      have : c ∈ s.data.filter (fun c => !isspace c) := by
        simp [List.mem_filter, hc, hsp]
      rw [hf] at this
      cases this
    | cons d ds =>
      have hd : d ∈ s.data.filter (fun c => !isspace c) := by rw [hf]; simp
      simp only [List.mem_filter, Bool.not_eq_true'] at hd
      simp only [List.isEmpty_cons, Bool.false_eq_true, if_false]
      constructor
      · intro h
        exfalso
        cases hsy : shuntingYard (String.mk (d :: ds)) with
        | error e =>
          rw [hsy] at h
          simp only [Except.error.injEq] at h
          subst h
          exact shuntingYard_not_empty _ hsy
        | ok rpn =>
          rw [hsy] at h
          exact evaluateRPN_not_empty A rpn h
      · intro h
        have := h d hd.1
        rw [hd.2] at this
        cases this
  refine ⟨hiff, ?_, rfl⟩
  rintro ⟨c, hc, hsp⟩ h
  have := hiff.1 h c hc
  rw [hsp] at this
  cases this

/-! ## No parenthesis in the output -/

theorem popOperators_out (op1 : String) (stack : List String) :
    ∀ out, (∀ t ∈ out, isParenthesis t = false) →
      ∀ t ∈ (popOperators op1 out stack).1, isParenthesis t = false := by
  induction stack with
  | nil => intro out h; simpa [popOperators] using h
  | cons u stack ih =>
    intro out h
    by_cases hu : shouldPop op1 u = true
    · have hne := shouldPop_not_paren op1 u hu
      simp only [popOperators, hu, if_true]
      apply ih
      intro t ht
      rcases List.mem_append.1 ht with ht | ht
      · exact h t ht
      · simp only [List.mem_singleton] at ht
        subst ht
        simp [isParenthesis, hne.1, hne.2]
    · simpa [popOperators, hu] using h

theorem popUntilParen_out (stack : List String) :
    ∀ out, (∀ t ∈ out, isParenthesis t = false) → ")" ∉ stack →
      ∀ t ∈ (popUntilParen out stack).1, isParenthesis t = false := by
  induction stack with
  | nil => intro out h _; simpa [popUntilParen] using h
  | cons u stack ih =>
    intro out h hst
    by_cases hu : (u != "(") = true
    · have hne1 : u ≠ "(" := by simpa using hu
      have hne2 : u ≠ ")" := fun he => hst (by simp [he])
      simp only [popUntilParen, hu, if_true]
      apply ih _ _ (fun hm => hst (by simp [hm]))
      intro t ht
      rcases List.mem_append.1 ht with ht | ht
      · exact h t ht
      · simp only [List.mem_singleton] at ht
        subst ht
        simp [isParenthesis, hne1, hne2]
    · simpa [popUntilParen, hu] using h

theorem number_token_not_paren (c : Char) (run : List Char)
    (hc : (isdigit c || c == '.') = true) : isParenthesis (String.mk (c :: run)) = false := by
  obtain ⟨e1, e2⟩ := numChar_not_paren c hc
  have h1 : String.mk (c :: run) ≠ "(" := by
    intro h
    have h2 : c :: run = ['('] := congrArg String.data h
    simp only [List.cons.injEq] at h2
    rw [h2.1] at e1
    cases e1
  have h2 : String.mk (c :: run) ≠ ")" := by
    intro h
    have h3 : c :: run = [')'] := congrArg String.data h
    simp only [List.cons.injEq] at h3
    rw [h3.1] at e2
    cases e2
  simp [isParenthesis, h1, h2]

theorem isParenthesis_of_isFunction (f : String) (h : isFunction f = true) :
    isParenthesis f = false ∧ f ≠ ")" := by
  have hf : f = "abs" := by simpa [isFunction] using h
  subst hf
  exact ⟨by decide, by decide⟩

theorem forall_mem_append_singleton (out : List String) (t : String)
    (h : ∀ u ∈ out, isParenthesis u = false) (ht : isParenthesis t = false) :
    ∀ u ∈ out ++ [t], isParenthesis u = false := by
  intro u hu
  rcases List.mem_append.1 hu with hu | hu
  · exact h u hu
  · simp only [List.mem_singleton] at hu
    subst hu
    exact ht

/-- The scanning loop never emits a parenthesis. -/
theorem scan_no_paren (cs : List Char) :
    ∀ (skip : Nat) (out stack : List String) (expect : Bool) (q : List String),
      (∀ t ∈ out, isParenthesis t = false) → ")" ∉ stack →
      scan cs skip out stack expect = .ok q →
      ∀ t ∈ q, isParenthesis t = false := by
  induction cs with
  | nil =>
    intro skip out stack expect q hout _ h
    simp only [scan] at h
    obtain ⟨hq, hst⟩ := drain_ok stack out q h
    subst hq
    intro t ht
    rcases List.mem_append.1 ht with ht | ht
    · exact hout t ht
    · exact hst t ht
  | cons c cs ih =>
    intro skip out stack expect q hout hst h
    cases skip with
    | succ k =>
      simp only [scan] at h
      exact ih _ _ _ _ q hout hst h
    | zero =>
      rw [scan] at h
      by_cases h1 : (isdigit c || c == '.') = true
      · simp only [h1, if_true] at h
        exact ih _ _ _ _ q
          (forall_mem_append_singleton out _ hout (number_token_not_paren c _ h1)) hst h
      simp only [h1, Bool.false_eq_true, if_false] at h
      by_cases h2 : (c == '(') = true
      · simp only [h2, if_true] at h
        exact ih _ _ _ _ q hout
          (by simp only [List.mem_cons, not_or]; exact ⟨by decide, hst⟩) h
      simp only [h2, Bool.false_eq_true, if_false] at h
      by_cases h3 : (c == ')') = true
      · simp only [h3, if_true] at h
        have ho := popUntilParen_out stack out hout hst
        rcases hp : popUntilParen out stack with ⟨o1, s⟩
        have hp2 : (popUntilParen out stack).2 = s := by rw [hp]
        rw [hp] at h ho
        cases s with
        | nil => cases h
        | cons t s1 =>
          obtain ⟨_, _, hmem⟩ := popUntilParen_cons stack out t s1 hp2
          have hs1 := hmem hst
          cases s1 with
          | nil => exact ih _ _ _ _ q ho (by simp) h
          | cons f s2 =>
            simp only at h
            by_cases hf : isFunction f = true
            · simp only [hf, if_true] at h
              exact ih _ _ _ _ q
                (forall_mem_append_singleton o1 f ho (isParenthesis_of_isFunction f hf).1)
                (fun hm => hs1 (by simp [hm])) h
            · simp only [hf, Bool.false_eq_true, if_false] at h
              exact ih _ _ _ _ q ho hs1 h
      simp only [h3, Bool.false_eq_true, if_false] at h
      by_cases h4 : (c == '-' && expect) = true
      · simp only [h4, if_true] at h
        exact ih _ _ _ _ q (popOperators_out "~" stack out hout)
          (by simp only [List.mem_cons, not_or]
              exact ⟨by decide, (popOperators_parens "~" stack out).2 hst⟩) h
      simp only [h4, Bool.false_eq_true, if_false] at h
      by_cases h5 : isOperator (String.singleton c) = true
      · simp only [h5, if_true] at h
        have hne2 : ")" ≠ String.singleton c := by
          intro he; rw [← he] at h5; exact absurd h5 (by decide)
        exact ih _ _ _ _ q (popOperators_out (String.singleton c) stack out hout)
          (by simp only [List.mem_cons, not_or]
              exact ⟨hne2, (popOperators_parens (String.singleton c) stack out).2 hst⟩) h
      simp only [h5, Bool.false_eq_true, if_false] at h
      by_cases h6 : isalpha c = true
      · simp only [h6, if_true] at h
        by_cases h7 : isFunction (String.mk (c :: cs.takeWhile isalpha)) = true
        · simp only [h7, if_true] at h
          exact ih _ _ _ _ q hout
            (by simp only [List.mem_cons, not_or]
                exact ⟨fun he => (isParenthesis_of_isFunction _ h7).2 he.symm, hst⟩) h
        · simp only [h7, Bool.false_eq_true, if_false] at h
          cases h
      simp only [h6, Bool.false_eq_true, if_false] at h
      exact ih _ _ _ _ q hout hst h

/-- C14. For every input string on which `shuntingYard` succeeds, the returned
postfix token sequence contains neither the token `(` nor the token `)`. -/
theorem no_parenthesis_in_output (s : String) (q : List String)
    (h : shuntingYard s = .ok q) : "(" ∉ q ∧ ")" ∉ q := by
  have hq := scan_no_paren s.data 0 [] [] true q (by simp) (by simp) h
  constructor <;>
  · intro hm
    have := hq _ hm
    revert this
    decide

theorem no_parenthesis_in_output_witness :
    shuntingYard "abs((1+2)*(3-4))" = .ok ["1", "2", "+", "3", "4", "-", "*", "abs"] ∧
      "(" ∉ ["1", "2", "+", "3", "4", "-", "*", "abs"] ∧
      ")" ∉ ["1", "2", "+", "3", "4", "-", "*", "abs"] :=
  ⟨by decide, no_parenthesis_in_output "abs((1+2)*(3-4))" _ (by decide)⟩

/-! ## Malformed number literals -/

theorem isDecimal_false_of_malformed (t : String)
    (hbad : 1 < t.data.count '.' ∨ ∀ c ∈ t.data, isdigit c = false) :
    isDecimal t = false := by
  rcases hbad with h | h
  · have : ¬ t.data.count '.' ≤ 1 := by omega
    simp [isDecimal, this]
  · have : t.data.any isdigit = false := by
      simpa [List.any_eq_false] using h
    simp [isDecimal, this]

theorem run_not_symbol (t : String) (hrun : ∀ c ∈ t.data, isNumChar c = true) :
    (t == "~") = false ∧ isFunction t = false ∧ isOperator t = false := by
  have hne : ∀ u : String, (∃ c ∈ u.data, isNumChar c = false) → (t == u) = false := by
    rintro u ⟨c, hc, hcn⟩
    rw [beq_eq_false_iff_ne]
    rintro rfl
    rw [hrun c hc] at hcn
    cases hcn
  refine ⟨hne _ ⟨'~', by decide, by decide⟩, hne _ ⟨'a', by decide, by decide⟩, ?_⟩
  simp only [isOperator, hne "+" ⟨'+', by decide, by decide⟩,
    hne "-" ⟨'-', by decide, by decide⟩, hne "*" ⟨'*', by decide, by decide⟩,
    hne "/" ⟨'/', by decide, by decide⟩, hne "^" ⟨'^', by decide, by decide⟩,
    hne "~" ⟨'~', by decide, by decide⟩, Bool.or_self]

/-- A run of digits and `.` that `isNumber` rejects leaves the value stack
unchanged. -/
theorem evalToken_malformed (A : FloatEnv) (t : String) (st : List A.F)
    (hrun : ∀ c ∈ t.data, isNumChar c = true) (hnum : isNumber A t = false) :
    evalToken A st t = .ok st := by
  obtain ⟨h1, h2, h3⟩ := run_not_symbol t hrun
  simp [evalToken, hnum, h1, h2, h3]

theorem isNumber_malformed (A : FloatEnv) (hA : A.RejectsMalformed) (t : String)
    (hrun : ∀ c ∈ t.data, isNumChar c = true)
    (hbad : 1 < t.data.count '.' ∨ ∀ c ∈ t.data, isdigit c = false) :
    isNumber A t = false := by
  cases hd : t.data with
  | nil => simp [isNumber, hd]
  | cons c cs =>
    have hne : t.data ≠ [] := by simp [hd]
    simp [isNumber, hd, hA t hne hrun (isDecimal_false_of_malformed t hbad)]

theorem evalTokens_drop (A : FloatEnv) (t : String) (before after : List String)
    (ht : ∀ st : List A.F, evalToken A st t = .ok st) :
    ∀ st : List A.F, evalTokens A st (before ++ [t] ++ after)
      = evalTokens A st (before ++ after) := by
  intro st
  rw [List.append_assoc, evalTokens_append, evalTokens_append]
  cases evalTokens A st before with
  | error e => rfl
  | ok st1 => simp [evalTokens, ht st1]

theorem exactEnv_rejects : exactEnv.RejectsMalformed := by
  intro t _ _ h
  exact h

/-- C19. Malformed number literals are silently dropped by the evaluator: a
token that is a run of digits and `.` but not a valid number (more than one
`.`, or no digit at all) pushes no value and raises no error, so
`evaluateRPN` gives the same result with and without it.  Consequently
`1.2.3` fails with `MalformedExpression` while `(1.2.3)4` succeeds with the
value `4`. -/
theorem malformed_literal_dropped (A : FloatEnv) (t : String) (before after : List String)
    (v4 : A.F) (hA : A.RejectsMalformed)
    (hrun : ∀ c ∈ t.data, isNumChar c = true)
    (hbad : 1 < t.data.count '.' ∨ ∀ c ∈ t.data, isdigit c = false)
    (h4 : A.Reads "4" v4) :
    (∀ st : List A.F, evalToken A st t = .ok st) ∧
    evaluateRPN A (before ++ [t] ++ after) = evaluateRPN A (before ++ after) ∧
    evaluate A "1.2.3" = .error .MalformedExpression ∧
    evaluate A "(1.2.3)4" = .ok v4 ∧
    evaluate exactEnv "1.2.3" = .error .MalformedExpression ∧
    evaluate exactEnv "(1.2.3)4" = .ok (4 : ℚ) := by
  have ht : ∀ st : List A.F, evalToken A st t = .ok st := fun st =>
    evalToken_malformed A t st hrun (isNumber_malformed A hA t hrun hbad)
  have h123 : ∀ st : List A.F, evalToken A st "1.2.3" = .ok st := fun st =>
    evalToken_malformed A "1.2.3" st (by decide)
      (isNumber_malformed A hA "1.2.3" (by decide) (Or.inl (by decide)))
  refine ⟨ht, ?_, ?_, ?_, by decide!, by decide!⟩
  · simp only [evaluateRPN, evalTokens_drop A t before after ht]
  · rw [evaluate_eq A "1.2.3" ["1.2.3"] (by decide) (by decide) (by decide)]
    simp [evaluateRPN, evalTokens, h123]
  · rw [evaluate_eq A "(1.2.3)4" ["1.2.3", "4"] (by decide) (by decide) (by decide)]
    simp [evaluateRPN, evalTokens, h123, evalToken_reads A _ "4" v4 h4]

theorem malformed_literal_dropped_witness :
    exactEnv.RejectsMalformed ∧ (∀ c ∈ "..".data, isNumChar c = true) ∧
      (1 < "..".data.count '.' ∨ ∀ c ∈ "..".data, isdigit c = false) ∧
      exactEnv.Reads "4" (decimalValue "4") ∧
      evaluateRPN exactEnv (["6"] ++ [".."] ++ ["2", "/"]) = evaluateRPN exactEnv (["6"] ++ ["2", "/"]) :=
  ⟨exactEnv_rejects, by decide, Or.inl (by decide), exactEnv_reads "4" (by decide),
    (malformed_literal_dropped exactEnv ".." ["6"] ["2", "/"] (decimalValue "4")
      exactEnv_rejects (by decide) (Or.inl (by decide)) (exactEnv_reads "4" (by decide))).2.1⟩

/-! ## Unrecognised characters -/

theorem takeWhile_insert (p : Char → Bool) (c : Char) (v : List Char) (hc : p c = false)
    (xs : List Char) :
    ∀ x : Char, p x = true →
      (∀ z ∈ (x :: xs).getLast?, p z = true → ∀ y ∈ v.head?, p y = false) →
      (xs ++ c :: v).takeWhile p = (xs ++ v).takeWhile p ∧
        ((xs ++ v).takeWhile p).length ≤ xs.length := by
  induction xs with
  | nil =>
    intro x hx hb
    have hv := hb x (by simp) hx
    cases v with
    | nil => simp [List.takeWhile, hc]
    | cons y ys => simp [List.takeWhile, hc, hv y (by simp)]
  | cons z zs ih =>
    intro x _ hb
    by_cases hz : p z = true
    · have := ih z hz (by simpa [List.getLast?_cons_cons] using hb)
      simp [List.takeWhile, hz, this.1, this.2]
    · simp [List.takeWhile, hz]

/-- A character that none of the branches of the scanning loop recognises is
skipped. -/
theorem scan_ignored (c : Char) (v : List Char) (out stack : List String) (expect : Bool)
    (h1 : (isdigit c || c == '.') = false) (h2 : (c == '(') = false)
    (h3 : (c == ')') = false) (h5 : isOperator (String.singleton c) = false)
    (h6 : isalpha c = false) :
    scan (c :: v) 0 out stack expect = scan v 0 out stack expect := by
  have h4 : (c == '-') = false := by
    rw [beq_eq_false_iff_ne]
    rintro rfl
    exact absurd h5 (by decide)
  rw [scan]
  simp only [h1, h2, h3, h4, h5, h6, Bool.false_eq_true, if_false, Bool.false_and]

/-- Inserting an unrecognised character between two tokens does not change
the scan. -/
theorem scan_insert (c : Char) (v : List Char)
    (h1 : (isdigit c || c == '.') = false) (h2 : (c == '(') = false)
    (h3 : (c == ')') = false) (h5 : isOperator (String.singleton c) = false)
    (h6 : isalpha c = false) (u : List Char) :
    ∀ (skip : Nat) (out stack : List String) (expect : Bool),
      skip ≤ u.length →
      (∀ z ∈ u.getLast?, (isNumChar z = true → ∀ y ∈ v.head?, isNumChar y = false) ∧
        (isalpha z = true → ∀ y ∈ v.head?, isalpha y = false)) →
      scan (u ++ c :: v) skip out stack expect = scan (u ++ v) skip out stack expect := by
  induction u with
  | nil =>
    intro skip out stack expect hskip _
    have hs : skip = 0 := by simpa using hskip
    subst hs
    exact scan_ignored c v out stack expect h1 h2 h3 h5 h6
  | cons x xs ih =>
    intro skip out stack expect hskip hb
    have hb2 : ∀ z ∈ xs.getLast?, (isNumChar z = true → ∀ y ∈ v.head?, isNumChar y = false) ∧
        (isalpha z = true → ∀ y ∈ v.head?, isalpha y = false) := by
      cases xs with
      | nil => simp
      | cons d ds => simpa [List.getLast?_cons_cons] using hb
    cases skip with
    | succ k =>
      simp only [List.cons_append, scan]
      exact ih k out stack expect (by simpa using hskip) hb2
    | zero =>
      simp only [List.cons_append]
      rw [scan, scan]
      by_cases g1 : (isdigit x || x == '.') = true
      · obtain ⟨htw, hlen⟩ := takeWhile_insert isNumChar c v h1 xs x g1
          (fun z hz hp => (hb z hz).1 hp)
        simp only [g1, if_true, htw]
        exact ih _ _ _ _ hlen hb2
      simp only [g1, Bool.false_eq_true, if_false]
      by_cases g2 : (x == '(') = true
      · simp only [g2, if_true]
        exact ih _ _ _ _ (Nat.zero_le _) hb2
      simp only [g2, Bool.false_eq_true, if_false]
      by_cases g3 : (x == ')') = true
      · simp only [g3, if_true]
        rcases popUntilParen out stack with ⟨o1, s⟩
        cases s with
        | nil => rfl
        | cons t s1 =>
          cases s1 with
          | nil => exact ih _ _ _ _ (Nat.zero_le _) hb2
          | cons f s2 =>
            by_cases hf : isFunction f = true
            · simp only [hf, if_true]
              exact ih _ _ _ _ (Nat.zero_le _) hb2
            · simp only [hf, Bool.false_eq_true, if_false]
              exact ih _ _ _ _ (Nat.zero_le _) hb2
      simp only [g3, Bool.false_eq_true, if_false]
      by_cases g4 : (x == '-' && expect) = true
      · simp only [g4, if_true]
        exact ih _ _ _ _ (Nat.zero_le _) hb2
      simp only [g4, Bool.false_eq_true, if_false]
      by_cases g5 : isOperator (String.singleton x) = true
      · simp only [g5, if_true]
        exact ih _ _ _ _ (Nat.zero_le _) hb2
      simp only [g5, Bool.false_eq_true, if_false]
      by_cases g6 : isalpha x = true
      · obtain ⟨htw, hlen⟩ := takeWhile_insert isalpha c v h6 xs x g6
          (fun z hz hp => (hb z hz).2 hp)
        simp only [g6, if_true, htw]
        by_cases g7 : isFunction (String.mk (x :: (xs ++ v).takeWhile isalpha)) = true
        · simp only [g7, if_true]
          exact ih _ _ _ _ hlen hb2
        · simp only [g7, Bool.false_eq_true, if_false]
      simp only [g6, Bool.false_eq_true, if_false]
      exact ih _ _ _ _ (Nat.zero_le _) hb2

theorem tilde_not_ignored :
    (isdigit '~' = false ∧ '~' ∉ ['.', '(', ')', '+', '-', '*', '/', '^'] ∧
        isalpha '~' = false) ∧
      "2".data.getLast? = some '2' ∧ "+3".data.head? = some '+' ∧
      isNumChar '+' = false ∧ isalpha '2' = false ∧
      shuntingYard ("2" ++ String.singleton '~' ++ "+3") = .ok ["2", "~", "3", "+"] ∧
      shuntingYard ("2" ++ "+3") = .ok ["2", "3", "+"] ∧
      shuntingYard ("2" ++ String.singleton '~' ++ "+3") ≠ shuntingYard ("2" ++ "+3") := by
  decide

/-- C20 (amended). Unrecognised characters are silently ignored by the parser:
for every character `c` that is not a digit, `.`, `(`, `)`, `+`, `-`, `*`,
`/`, `^`, `~` or a letter, and all strings `u`, `v` such that it is not the
case that `u` ends and `v` begins with a digit or `.`, nor that `u` ends and
`v` begins with a letter, `shuntingYard` gives the same output or the same
failure on `u c v` as on `u v`; for example on `2#+3` as on `2+3`. -/
theorem unrecognised_ignored (c : Char) (u v : String)
    (hdigit : isdigit c = false)
    (hsym : c ∉ ['.', '(', ')', '+', '-', '*', '/', '^', '~'])
    (hletter : isalpha c = false)
    (hnum : ¬ ∃ x y, u.data.getLast? = some x ∧ v.data.head? = some y ∧
      isNumChar x = true ∧ isNumChar y = true)
    (halpha : ¬ ∃ x y, u.data.getLast? = some x ∧ v.data.head? = some y ∧
      isalpha x = true ∧ isalpha y = true) :
    shuntingYard (u ++ String.singleton c ++ v) = shuntingYard (u ++ v) ∧
    shuntingYard "2#+3" = shuntingYard "2+3" := by
  refine ⟨?_, by decide⟩
  simp only [List.mem_cons, List.mem_singleton, List.not_mem_nil, or_false, not_or] at hsym
  obtain ⟨s1, s2, s3, s4, s5, s6, s7, s8, s9⟩ := hsym
  have h1 : (isdigit c || c == '.') = false := by simp [hdigit, s1]
  have h2 : (c == '(') = false := by simp [s2]
  have h3 : (c == ')') = false := by simp [s3]
  have h5 : isOperator (String.singleton c) = false := by
    by_contra hop
    have hop2 : isOperator (String.singleton c) = true := by simpa using hop
    rcases isOperator_singleton c hop2 with h | h | h | h | h | h
    · exact s4 h
    · exact s5 h
    · exact s6 h
    · exact s7 h
    · exact s8 h
    · exact s9 h
  have hdata : (u ++ String.singleton c ++ v).data = u.data ++ c :: v.data := by
    simp [data_append]
  unfold shuntingYard
  rw [hdata, data_append]
  refine scan_insert c v.data h1 h2 h3 h5 hletter u.data 0 [] [] true (Nat.zero_le _) ?_
  intro z hz
  constructor
  · intro hp y hy
    by_contra hy2
    exact hnum ⟨z, y, hz, hy, hp, by simpa using hy2⟩
  · intro hp y hy
    by_contra hy2
    exact halpha ⟨z, y, hz, hy, hp, by simpa using hy2⟩

theorem unrecognised_ignored_witness :
    isdigit '$' = false ∧ '$' ∉ ['.', '(', ')', '+', '-', '*', '/', '^', '~'] ∧
      isalpha '$' = false ∧
      (¬ ∃ x y, "abs(1".data.getLast? = some x ∧ ")+x".data.head? = some y ∧
        isNumChar x = true ∧ isNumChar y = true) ∧
      (¬ ∃ x y, "abs(1".data.getLast? = some x ∧ ")+x".data.head? = some y ∧
        isalpha x = true ∧ isalpha y = true) ∧
      shuntingYard ("abs(1" ++ String.singleton '$' ++ ")+x") = shuntingYard ("abs(1" ++ ")+x") :=
  have hn : ¬ ∃ x y, "abs(1".data.getLast? = some x ∧ ")+x".data.head? = some y ∧
      isNumChar x = true ∧ isNumChar y = true := by
    rintro ⟨x, y, _, hy, _, hp⟩
    have : y = ')' := by simpa using hy.symm
    subst this
    exact absurd hp (by decide)
  have ha : ¬ ∃ x y, "abs(1".data.getLast? = some x ∧ ")+x".data.head? = some y ∧
      isalpha x = true ∧ isalpha y = true := by
    rintro ⟨x, y, _, hy, _, hp⟩
    have : y = ')' := by simpa using hy.symm
    subst this
    exact absurd hp (by decide)
  ⟨by decide, by decide, by decide, hn, ha,
    (unrecognised_ignored '$' "abs(1" ")+x" (by decide) (by decide) (by decide) hn ha).1⟩

/-! ## Unary and binary minus -/

theorem popOperators_count (w op1 : String) (stack : List String) :
    ∀ out, (popOperators op1 out stack).1.count w + (popOperators op1 out stack).2.count w
      = out.count w + stack.count w := by
  induction stack with
  | nil => intro out; simp [popOperators]
  | cons u stack ih =>
    intro out
    by_cases hu : shouldPop op1 u = true
    · simp only [popOperators, hu, if_true, ih, List.count_append, List.count_cons,
        List.count_nil]
      omega
    · simp [popOperators, hu]

theorem popUntilParen_count (w : String) (stack : List String) :
    ∀ out, (popUntilParen out stack).1.count w + (popUntilParen out stack).2.count w
      = out.count w + stack.count w := by
  induction stack with
  | nil => intro out; simp [popUntilParen]
  | cons u stack ih =>
    intro out
    by_cases hu : (u != "(") = true
    · simp only [popUntilParen, hu, if_true, ih, List.count_append, List.count_cons,
        List.count_nil]
      omega
    · simp [popUntilParen, hu]

theorem number_token_count (w : String) (c : Char) (run : List Char) (out : List String)
    (hw : ∃ d ∈ w.data.head?, isNumChar d = false)
    (hc : (isdigit c || c == '.') = true) :
    (out ++ [String.mk (c :: run)]).count w = out.count w := by
  have hne : String.mk (c :: run) ≠ w := by
    rintro rfl
    obtain ⟨d, hd, hdn⟩ := hw
    simp only [List.head?_cons, Option.mem_def, Option.some.injEq] at hd
    subst hd
    rw [isNumChar, hc] at hdn
    cases hdn
  simp [List.count_append, List.count_cons, hne]

theorem context_of_numChar (c : Char) (h : isNumChar c = true) :
    unaryContext (some c) = false ∧ binaryContext (some c) = true := by
  have hne : ∀ d : Char, isNumChar d = false → (c == d) = false := by
    intro d hd
    rw [beq_eq_false_iff_ne]
    rintro rfl
    rw [h] at hd
    cases hd
  constructor
  · simp only [unaryContext, hne '(' (by decide), hne '+' (by decide), hne '-' (by decide),
      hne '*' (by decide), hne '/' (by decide), hne '^' (by decide), Bool.or_self]
  · simp only [isNumChar, Bool.or_eq_true] at h
    simp only [binaryContext, Bool.or_eq_true]
    exact Or.inl h

theorem context_complement (prev : Option Char) (h : ∀ p ∈ prev, isExprChar p = true) :
    binaryContext prev = !unaryContext prev := by
  cases prev with
  | none => rfl
  | some p =>
    have hp := h p rfl
    by_cases hn : isNumChar p = true
    · obtain ⟨h1, h2⟩ := context_of_numChar p hn
      rw [h1, h2]
      rfl
    · have hn1 : isdigit p = false := by
        simp only [isNumChar, Bool.or_eq_true, not_or] at hn
        simpa using hn.1
      have hn2 : (p == '.') = false := by
        simp only [isNumChar, Bool.or_eq_true, not_or] at hn
        simpa using hn.2
      simp only [isExprChar, hn1, hn2, Bool.false_or, Bool.or_eq_true, beq_iff_eq] at hp
      rcases hp with (((((rfl | rfl) | rfl) | rfl) | rfl) | rfl) | rfl <;> decide

theorem minusCount_cons_other (ctx : Option Char → Bool) (prev : Option Char) (c : Char)
    (cs : List Char) (hc : (c == '-') = false) :
    minusCount ctx prev (c :: cs) = minusCount ctx (some c) cs := by
  simp [minusCount, hc]

theorem numChar_not_minus (c : Char) (h : isNumChar c = true) : (c == '-') = false := by
  rw [beq_eq_false_iff_ne]
  rintro rfl
  exact absurd h (by decide)

/-- On success every `-` read while a value is expected ends up as one `~` in
the output, and every other `-` as one `-`. -/
theorem scan_minus (cs : List Char) :
    ∀ (prev : Option Char) (skip : Nat) (out stack : List String) (expect : Bool)
      (q : List String),
      (∀ c ∈ cs, isExprChar c = true) → (∀ p ∈ prev, isExprChar p = true) →
      (skip = 0 → expect = unaryContext prev) →
      (0 < skip → expect = false ∧ skip ≤ (cs.takeWhile isNumChar).length) →
      scan cs skip out stack expect = .ok q →
      q.count "~" = out.count "~" + stack.count "~" + minusCount unaryContext prev cs ∧
        q.count "-" = out.count "-" + stack.count "-" + minusCount binaryContext prev cs := by
  induction cs with
  | nil =>
    intro prev skip out stack expect q _ _ _ _ h
    simp only [scan] at h
    obtain ⟨hq, _⟩ := drain_ok stack out q h
    subst hq
    simp [minusCount, List.count_append]
  | cons c cs ih =>
    intro prev skip out stack expect q hall hprev hA hB h
    have hcs : ∀ x ∈ cs, isExprChar x = true := fun x hx => hall x (by simp [hx])
    have hc : isExprChar c = true := hall c (by simp)
    have hprev2 : ∀ p ∈ some c, isExprChar p = true := by
      intro p hp
      simp only [Option.mem_def, Option.some.injEq] at hp
      subst hp
      exact hc
    cases skip with
    | succ k =>
      obtain ⟨hfalse, hlen⟩ := hB (Nat.succ_pos k)
      obtain ⟨hnum, hk⟩ := takeWhile_length_pos c cs k hlen
      have hm := numChar_not_minus c hnum
      simp only [scan] at h
      rw [minusCount_cons_other _ _ _ _ hm, minusCount_cons_other _ _ _ _ hm]
      exact ih (some c) k out stack expect q hcs hprev2
        (fun _ => by rw [hfalse, (context_of_numChar c hnum).1])
        (fun _ => ⟨hfalse, hk⟩) h
    | zero =>
      have hev : expect = unaryContext prev := hA rfl
      rw [scan] at h
      by_cases h1 : (isdigit c || c == '.') = true
      · have hm := numChar_not_minus c h1
        simp only [h1, if_true] at h
        rw [minusCount_cons_other _ _ _ _ hm, minusCount_cons_other _ _ _ _ hm]
        have := ih (some c) _ _ stack false q hcs hprev2
          (fun _ => by rw [(context_of_numChar c h1).1])
          (fun _ => ⟨rfl, le_refl _⟩) h
        rw [number_token_count "~" c _ out ⟨'~', by decide, by decide⟩ h1,
          number_token_count "-" c _ out ⟨'-', by decide, by decide⟩ h1] at this
        exact this
      simp only [h1, Bool.false_eq_true, if_false] at h
      by_cases h2 : (c == '(') = true
      · have hceq : c = '(' := by simpa using h2
        subst hceq
        simp only [h2, if_true] at h
        rw [minusCount_cons_other _ _ _ _ (by decide), minusCount_cons_other _ _ _ _ (by decide)]
        have := ih (some '(') 0 out ("(" :: stack) true q hcs hprev2 (fun _ => by decide)
          (fun hk => absurd hk (by decide)) h
        simpa [List.count_cons] using this
      simp only [h2, Bool.false_eq_true, if_false] at h
      by_cases h3 : (c == ')') = true
      · have hceq : c = ')' := by simpa using h3
        subst hceq
        simp only [h3, if_true] at h
        rw [minusCount_cons_other _ _ _ _ (by decide), minusCount_cons_other _ _ _ _ (by decide)]
        have c1 := popUntilParen_count "~" stack out
        have c2 := popUntilParen_count "-" stack out
        rcases hp : popUntilParen out stack with ⟨o1, s⟩
        have hp2 : (popUntilParen out stack).2 = s := by rw [hp]
        rw [hp] at h c1 c2
        cases s with
        | nil => cases h
        | cons t s1 =>
          obtain ⟨ht, _, _⟩ := popUntilParen_cons stack out t s1 hp2
          subst ht
          simp only [List.count_cons, show ("(" == "~") = false by decide,
            show ("(" == "-") = false by decide, Bool.false_eq_true, if_false,
            Nat.add_zero] at c1 c2
          cases s1 with
          | nil =>
            have := ih (some ')') 0 o1 [] false q hcs hprev2 (fun _ => by decide)
              (fun hk => absurd hk (by decide)) h
            simp only [List.count_nil, Nat.add_zero] at this c1 c2
            exact ⟨by rw [this.1, c1], by rw [this.2, c2]⟩
          | cons f s2 =>
            simp only at h
            by_cases hf : isFunction f = true
            · simp only [hf, if_true] at h
              have := ih (some ')') 0 (o1 ++ [f]) s2 false q hcs hprev2 (fun _ => by decide)
                (fun hk => absurd hk (by decide)) h
              simp only [List.count_append, List.count_cons, List.count_nil] at this c1 c2
              exact ⟨by rw [this.1]; omega, by rw [this.2]; omega⟩
            · simp only [hf, Bool.false_eq_true, if_false] at h
              have := ih (some ')') 0 o1 (f :: s2) false q hcs hprev2 (fun _ => by decide)
                (fun hk => absurd hk (by decide)) h
              exact ⟨by rw [this.1, c1], by rw [this.2, c2]⟩
      simp only [h3, Bool.false_eq_true, if_false] at h
      by_cases h4 : (c == '-' && expect) = true
      · simp only [Bool.and_eq_true, beq_iff_eq] at h4
        obtain ⟨hceq, hexp⟩ := h4
        subst hceq
        have hu : unaryContext prev = true := by rw [← hev, hexp]
        have hb : binaryContext prev = false := by
          rw [context_complement prev hprev, hu]; rfl
        simp only [hexp, beq_self_eq_true, Bool.and_self, if_true] at h
        have c1 := popOperators_count "~" "~" stack out
        have c2 := popOperators_count "-" "~" stack out
        have := ih (some '-') 0 _ _ true q hcs hprev2 (fun _ => by decide)
          (fun hk => absurd hk (by decide)) h
        simp only [List.count_cons, beq_self_eq_true, if_true,
          show ("~" == "-") = false by decide, Bool.false_eq_true, if_false,
          Nat.add_zero] at this
        simp only [minusCount, beq_self_eq_true, hu, hb, Bool.and_self, if_true,
          Bool.and_false, Bool.false_eq_true, if_false]
        exact ⟨by rw [this.1]; omega, by rw [this.2]; omega⟩
      simp only [h4, Bool.false_eq_true, if_false] at h
      by_cases h5 : isOperator (String.singleton c) = true
      · simp only [h5, if_true] at h
        have c1 := popOperators_count "~" (String.singleton c) stack out
        have c2 := popOperators_count "-" (String.singleton c) stack out
        have hih := fun (hctx : true = unaryContext (some c)) =>
          ih (some c) 0 _ _ true q hcs hprev2 (fun _ => hctx)
            (fun hk => absurd hk (by decide)) h
        rcases isOperator_singleton c h5 with rfl | rfl | rfl | rfl | rfl | rfl
        · have := hih (by decide)
          rw [minusCount_cons_other _ _ _ _ (by decide),
            minusCount_cons_other _ _ _ _ (by decide)]
          simp only [List.count_cons, show (String.singleton '+' == "~") = false by decide,
            show (String.singleton '+' == "-") = false by decide, Bool.false_eq_true, if_false,
            Nat.add_zero] at this
          exact ⟨by rw [this.1]; omega, by rw [this.2]; omega⟩
        · have hexp : expect = false := by
            cases expect with
            | false => rfl
            | true => exact absurd rfl h4
          have hu : unaryContext prev = false := by rw [← hev, hexp]
          have hb : binaryContext prev = true := by
            rw [context_complement prev hprev, hu]; rfl
          have := hih (by decide)
          simp only [List.count_cons, show (String.singleton '-' == "~") = false by decide,
            show (String.singleton '-' == "-") = true by decide, Bool.false_eq_true, if_false,
            if_true, Nat.add_zero] at this
          simp only [minusCount, beq_self_eq_true, hu, hb, Bool.and_self, if_true,
            Bool.and_false, Bool.false_eq_true, if_false]
          exact ⟨by rw [this.1]; omega, by rw [this.2]; omega⟩
        · have := hih (by decide)
          rw [minusCount_cons_other _ _ _ _ (by decide),
            minusCount_cons_other _ _ _ _ (by decide)]
          simp only [List.count_cons, show (String.singleton '*' == "~") = false by decide,
            show (String.singleton '*' == "-") = false by decide, Bool.false_eq_true, if_false,
            Nat.add_zero] at this
          exact ⟨by rw [this.1]; omega, by rw [this.2]; omega⟩
        · have := hih (by decide)
          rw [minusCount_cons_other _ _ _ _ (by decide),
            minusCount_cons_other _ _ _ _ (by decide)]
          simp only [List.count_cons, show (String.singleton '/' == "~") = false by decide,
            show (String.singleton '/' == "-") = false by decide, Bool.false_eq_true, if_false,
            Nat.add_zero] at this
          exact ⟨by rw [this.1]; omega, by rw [this.2]; omega⟩
        · have := hih (by decide)
          rw [minusCount_cons_other _ _ _ _ (by decide),
            minusCount_cons_other _ _ _ _ (by decide)]
          simp only [List.count_cons, show (String.singleton '^' == "~") = false by decide,
            show (String.singleton '^' == "-") = false by decide, Bool.false_eq_true, if_false,
            Nat.add_zero] at this
          exact ⟨by rw [this.1]; omega, by rw [this.2]; omega⟩
        · exact absurd hc (by decide)
      · exfalso
        have g1 : isdigit c = false := by
          simp only [Bool.or_eq_true, not_or] at h1
          simpa using h1.1
        have g2 : (c == '.') = false := by
          simp only [Bool.or_eq_true, not_or] at h1
          simpa using h1.2
        have g3 : (c == '(') = false := by simpa using h2
        have g4 : (c == ')') = false := by simpa using h3
        simp only [isExprChar, g1, g2, g3, g4, Bool.false_or, Bool.or_eq_true,
          beq_iff_eq] at hc
        rcases hc with (((rfl | rfl) | rfl) | rfl) | rfl <;> exact h5 (by decide)

theorem minusCount_total (cs : List Char) :
    ∀ prev : Option Char, (∀ c ∈ cs, isExprChar c = true) → (∀ p ∈ prev, isExprChar p = true) →
      minusCount unaryContext prev cs + minusCount binaryContext prev cs = cs.count '-' := by
  induction cs with
  | nil => intro prev _ _; rfl
  | cons c cs ih =>
    intro prev hall hprev
    have := ih (some c) (fun x hx => hall x (by simp [hx]))
      (by
        intro p hp
        simp only [Option.mem_def, Option.some.injEq] at hp
        subst hp
        exact hall c (by simp))
    have hcompl := context_complement prev hprev
    simp only [minusCount, List.count_cons, hcompl]
    by_cases hm : (c == '-') = true <;> cases hu : unaryContext prev <;> simp [hm] <;> omega

/-- C18. Unary/binary minus disambiguation: for every expression over the
characters `0-9 . ( ) + - * / ^` on which `shuntingYard` succeeds, the number
of `~` tokens in the output equals the number of `-` characters that are the
first character of the input or immediately preceded by `(` or by one of
`+ - * / ^`, and the number of binary `-` tokens equals the number of the
remaining `-` characters, those immediately preceded by a digit, `.` or `)`. -/
theorem minus_disambiguation (s : String) (q : List String)
    (hchars : ∀ c ∈ s.data, isExprChar c = true) (h : shuntingYard s = .ok q) :
    q.count "~" = minusCount unaryContext none s.data ∧
    q.count "-" = minusCount binaryContext none s.data ∧
    minusCount unaryContext none s.data + minusCount binaryContext none s.data
      = s.data.count '-' := by
  have hm := scan_minus s.data none 0 [] [] true q hchars (by simp) (fun _ => rfl)
    (fun hk => absurd hk (by decide)) h
  refine ⟨by simpa using hm.1, by simpa using hm.2, minusCount_total s.data none hchars (by simp)⟩

theorem minus_disambiguation_witness :
    (∀ c ∈ "-(3-(-2)*-4)-1".data, isExprChar c = true) ∧
      shuntingYard "-(3-(-2)*-4)-1" = .ok ["3", "2", "~", "4", "~", "*", "-", "~", "1", "-"] ∧
      ["3", "2", "~", "4", "~", "*", "-", "~", "1", "-"].count "~" = 3 ∧
      minusCount unaryContext none "-(3-(-2)*-4)-1".data = 3 ∧
      ["3", "2", "~", "4", "~", "*", "-", "~", "1", "-"].count "~"
        = minusCount unaryContext none "-(3-(-2)*-4)-1".data :=
  ⟨by decide, by decide, by decide, by decide,
    (minus_disambiguation "-(3-(-2)*-4)-1" _ (by decide) (by decide)).1⟩

/-! ## Formatting -/

/-- The `erase` of `format_double` removes exactly the trailing zeros. -/
theorem erase_trailing_zeros (s : List Char) :
    s.take (match find_last_not_of s '0' with
      | none => 0
      | some pos => pos + 1) = stripTrailingZeros s := by
  have hsplit := List.takeWhile_append_dropWhile (fun c => c == '0') s.reverse
  unfold find_last_not_of stripTrailingZeros
  generalize s.reverse.takeWhile (fun c => c == '0') = tw at hsplit ⊢
  generalize s.reverse.dropWhile (fun c => c == '0') = dw at hsplit ⊢
  have hs : s = dw.reverse ++ tw.reverse := by
    rw [← List.reverse_append, hsplit, List.reverse_reverse]
  subst hs
  by_cases h : tw.length = (dw.reverse ++ tw.reverse).length
  · have hd : dw = [] := by
      simp only [List.length_append, List.length_reverse] at h
      have : dw.length = 0 := by omega
      exact List.length_eq_zero.1 this
    subst hd
    simp
  · simp only [h, if_false]
    have hk : (dw.reverse ++ tw.reverse).length - tw.length - 1 + 1 = dw.reverse.length := by
      simp only [List.length_append, List.length_reverse] at h ⊢
      omega
    rw [hk]
    exact List.take_left' rfl

theorem format_double_eq {α : Type} (fixed : α → String) (value : α) :
    format_double fixed value
      = if (stripTrailingZeros (fixed value).data).getLast? = some '.'
        then String.mk (stripTrailingZeros (fixed value).data).dropLast
        else String.mk (stripTrailingZeros (fixed value).data) := by
  unfold format_double
  simp only [erase_trailing_zeros]

theorem stripTrailingZeros_shape (ip fp : List Char) :
    stripTrailingZeros (ip ++ '.' :: fp)
      = if stripTrailingZeros fp = [] then ip ++ ['.']
        else ip ++ '.' :: stripTrailingZeros fp := by
  unfold stripTrailingZeros
  have hrev : (ip ++ '.' :: fp).reverse = fp.reverse ++ ('.' :: ip.reverse) := by simp
  rw [hrev, List.dropWhile_append]
  by_cases h : fp.reverse.dropWhile (fun c => c == '0') = []
  · simp [h, List.dropWhile]
  · have h2 : (fp.reverse.dropWhile (fun c => c == '0')).isEmpty = false := by
      cases hd : fp.reverse.dropWhile (fun c => c == '0') with
      | nil => exact absurd hd h
      | cons a l => rfl
    simp [h, h2]

theorem stripTrailingZeros_last (fp : List Char) :
    ∀ c ∈ (stripTrailingZeros fp).getLast?, c ∈ fp ∧ c ≠ '0' := by
  intro c hc
  unfold stripTrailingZeros at hc
  rw [List.getLast?_reverse] at hc
  cases hd : fp.reverse.dropWhile (fun c => c == '0') with
  | nil => rw [hd] at hc; simp at hc
  | cons a l =>
    rw [hd] at hc
    simp only [List.head?_cons, Option.mem_def, Option.some.injEq] at hc
    subst hc
    have hmem : a ∈ fp.reverse.dropWhile (fun c => c == '0') := by rw [hd]; simp
    have h1 : a ∈ fp := by
      have := (List.dropWhile_sublist _).subset hmem
      simpa using this
    have h2 := List.head_dropWhile_not (fun c => c == '0') fp.reverse (by rw [hd]; simp)
    simp only [hd, List.head_cons] at h2
    exact ⟨h1, by simpa using h2⟩

theorem format_double_shape {α : Type} (fixed : α → String) (value : α) (ip fp : List Char)
    (h : IsFixedRendering (fixed value) ip fp) :
    (format_double fixed value).data
        = (if stripTrailingZeros fp = [] then ip else ip ++ '.' :: stripTrailingZeros fp) ∧
      (format_double fixed value).data.getLast? ≠ some '.' ∧
      ('.' ∈ (format_double fixed value).data →
        (format_double fixed value).data.getLast? ≠ some '0') := by
  obtain ⟨hdata, hip, _, hfp⟩ := h
  have hip2 : ip.getLast? ≠ some '.' := by
    intro hl
    exact hip (mem_of_mem_getLast? ip '.' hl)
  by_cases hz : stripTrailingZeros fp = []
  · have hres : format_double fixed value = String.mk ip := by
      rw [format_double_eq, hdata, stripTrailingZeros_shape]
      simp only [hz, if_true, List.getLast?_concat, List.dropLast_concat]
    rw [hres]
    simp only [hz, if_true]
    exact ⟨trivial, hip2, fun hmem => absurd hmem hip⟩
  · obtain ⟨c, hc⟩ : ∃ c, (stripTrailingZeros fp).getLast? = some c := by
      cases hl : (stripTrailingZeros fp).getLast? with
      | none => exact absurd (List.getLast?_eq_none_iff.1 hl) hz
      | some c => exact ⟨c, rfl⟩
    obtain ⟨hcfp, hc0⟩ := stripTrailingZeros_last fp c hc
    have hcdot : c ≠ '.' := by
      rintro rfl
      exact absurd (hfp '.' hcfp) (by decide)
    have hlast : (ip ++ '.' :: stripTrailingZeros fp).getLast? = some c := by
      cases hs : stripTrailingZeros fp with
      | nil => exact absurd hs hz
      | cons a l =>
        rw [hs] at hc
        rw [show ip ++ '.' :: a :: l = (ip ++ ['.']) ++ a :: l by simp,
          List.getLast?_append_cons]
        exact hc
    have hne : ¬ (ip ++ '.' :: stripTrailingZeros fp).getLast? = some '.' := by
      rw [hlast]
      intro he
      exact hcdot (Option.some.inj he)
    have hres : format_double fixed value = String.mk (ip ++ '.' :: stripTrailingZeros fp) := by
      rw [format_double_eq, hdata, stripTrailingZeros_shape]
      simp only [hz, if_false, hne]
    rw [hres]
    simp only [hz, if_false, hlast]
    refine ⟨trivial, ?_, fun _ => ?_⟩
    · intro he
      exact hcdot (Option.some.inj he)
    · intro he
      exact hc0 (Option.some.inj he)

/-- C15. Result formatting: `format_double` returns the fixed 6-decimal
rendering of the value with all trailing `0` characters of the fractional part
removed and, if the fractional part was all zeros, the decimal point removed
too; the integer part is kept whole, the result never ends in `.`, and when it
contains a `.` it does not end in `0`.  In particular `format(10.0) = "10"`,
`format(10.5) = "10.5"` and `format(1.0/3.0) = "0.333333"`. -/
theorem format_double_spec {α : Type} (fixed : α → String) (value x10 x105 x13 : α)
    (ip fp : List Char) (h : IsFixedRendering (fixed value) ip fp)
    (h10 : fixed x10 = "10.000000") (h105 : fixed x105 = "10.500000")
    (h13 : fixed x13 = "0.333333") :
    (format_double fixed value).data
        = (if stripTrailingZeros fp = [] then ip else ip ++ '.' :: stripTrailingZeros fp) ∧
    (∃ tail, (format_double fixed value).data = ip ++ tail) ∧
    (format_double fixed value).data.getLast? ≠ some '.' ∧
    ('.' ∈ (format_double fixed value).data →
      (format_double fixed value).data.getLast? ≠ some '0') ∧
    format_double fixed x10 = "10" ∧
    format_double fixed x105 = "10.5" ∧
    format_double fixed x13 = "0.333333" ∧
    (∀ v, fixed v ∈ ["inf", "-inf", "nan", "-nan"] → format_double fixed v = fixed v) ∧
    format_double fixed6 (10 : ℚ) = "10" ∧
    format_double fixed6 (21 / 2 : ℚ) = "10.5" ∧
    format_double fixed6 (1 / 3 : ℚ) = "0.333333" := by
  obtain ⟨hd, hl, hz⟩ := format_double_shape fixed value ip fp h
  refine ⟨hd, ?_, hl, hz, ?_, ?_, ?_, ?_, by decide!, by decide!, by decide!⟩
  · rw [hd]
    by_cases hs : stripTrailingZeros fp = []
    · exact ⟨[], by simp [hs]⟩
    · exact ⟨'.' :: stripTrailingZeros fp, by simp [hs]⟩
  · rw [format_double_eq, h10]; decide
  · rw [format_double_eq, h105]; decide
  · rw [format_double_eq, h13]; decide
  · intro v hv
    simp only [List.mem_cons, List.mem_singleton, List.not_mem_nil, or_false] at hv
    rcases hv with hv | hv | hv | hv <;> rw [format_double_eq, hv] <;> decide

theorem format_double_spec_witness :
    IsFixedRendering (fixed6 (-7 / 4)) ['-', '1'] ['7', '5', '0', '0', '0', '0'] ∧
      fixed6 (10 : ℚ) = "10.000000" ∧ fixed6 (21 / 2 : ℚ) = "10.500000" ∧
      fixed6 (1 / 3 : ℚ) = "0.333333" ∧
      (format_double fixed6 (-7 / 4 : ℚ)).data
        = (if stripTrailingZeros ['7', '5', '0', '0', '0', '0'] = [] then ['-', '1']
           else ['-', '1'] ++ '.' :: stripTrailingZeros ['7', '5', '0', '0', '0', '0']) :=
  ⟨⟨by decide!, by decide, by decide, by decide⟩, by decide!, by decide!, by decide!,
    (format_double_spec fixed6 (-7 / 4 : ℚ) 10 (21 / 2) (1 / 3) ['-', '1']
      ['7', '5', '0', '0', '0', '0'] ⟨by decide!, by decide, by decide, by decide⟩
      (by decide!) (by decide!) (by decide!)).1⟩

/-! ## Unit families -/

theorem toBaseUnit_spec (A : FloatEnv) (K : ConversionConstants A) (value : A.F)
    (unit_from uf : String) :
    (∀ f, unitFamily uf = some f → ∃ b, toBaseUnit A K value unit_from uf
        = .ok (b, decide (f = .speed), decide (f = .temperature), decide (f = .mass))) ∧
      (unitFamily uf = none → toBaseUnit A K value unit_from uf
        = .error ("Error: Unsupported source unit: " ++ unit_from)) := by
  unfold toBaseUnit unitFamily
  by_cases h1 : (uf == "km/h" || uf == "m/s") = true
  · have h1b : (uf == "m/s" || uf == "km/h") = true := by rw [Bool.or_comm]; exact h1
    simp only [h1, h1b, if_true]
    exact ⟨fun f hf => (by cases hf; simp), fun hf => (by cases hf)⟩
  have h1b : (uf == "m/s" || uf == "km/h") = false := by
    rw [Bool.or_comm]; simpa using h1
  simp only [h1, h1b, Bool.false_eq_true, if_false]
  by_cases h2 : (uf == "c" || uf == "f" || uf == "k") = true
  · simp only [h2, if_true]
    exact ⟨fun f hf => (by cases hf; simp), fun hf => (by cases hf)⟩
  simp only [h2, Bool.false_eq_true, if_false]
  by_cases h3 : (uf == "kg" || uf == "lb") = true
  · simp only [h3, if_true]
    exact ⟨fun f hf => (by cases hf; simp), fun hf => (by cases hf)⟩
  simp only [h3, Bool.false_eq_true, if_false]
  exact ⟨fun f hf => (by cases hf), fun _ => trivial⟩

theorem fromBaseUnit_spec (A : FloatEnv) (K : ConversionConstants A) (b : A.F)
    (f : UnitFamily) (unit_from unit_to ut : String) :
    (unitFamily ut = some f → ∃ r, fromBaseUnit A K b (decide (f = .speed))
        (decide (f = .temperature)) (decide (f = .mass)) unit_from unit_to ut = .ok r) ∧
      (unitFamily ut ≠ some f →
        fromBaseUnit A K b (decide (f = .speed)) (decide (f = .temperature))
            (decide (f = .mass)) unit_from unit_to ut
          = .error ("Error: Cannot convert " ++ unit_from ++ " to " ++ unit_to ++ ".") ∨
        fromBaseUnit A K b (decide (f = .speed)) (decide (f = .temperature))
            (decide (f = .mass)) unit_from unit_to ut
          = .error ("Error: Unsupported target unit: " ++ unit_to)) := by
  unfold fromBaseUnit unitFamily
  by_cases h1 : (ut == "m/s") = true
  · simp only [h1, Bool.true_or, if_true]
    cases f <;> simp
  by_cases h2 : (ut == "km/h") = true
  · simp only [h1, h2, Bool.or_true, Bool.false_eq_true, if_false, if_true]
    cases f <;> simp
  simp only [h1, h2, Bool.or_self, Bool.false_eq_true, if_false]
  by_cases h3 : (ut == "c" || ut == "f" || ut == "k") = true
  · simp only [h3, if_true]
    by_cases h4 : (ut == "c") = true
    · cases f <;> simp [h4]
    · by_cases h5 : (ut == "f") = true
      · cases f <;> simp [h4, h5]
      · cases f <;> simp [h4, h5]
  simp only [h3, Bool.false_eq_true, if_false]
  by_cases h6 : (ut == "kg") = true
  · simp only [h6, Bool.true_or, if_true]
    cases f <;> simp
  by_cases h7 : (ut == "lb") = true
  · simp only [h6, h7, Bool.or_true, Bool.false_eq_true, if_false, if_true]
    cases f <;> simp
  simp only [h6, h7, Bool.or_self, Bool.false_eq_true, if_false]
  simp

theorem convert_words (A : FloatEnv) (K : ConversionConstants A) (expression : String)
    (cmd num unit_from kw unit_to : String) (rest : List String) (value : A.F)
    (hw : wordsFrom expression.data [] = cmd :: num :: unit_from :: kw :: unit_to :: rest)
    (hkw : to_lower kw = "to") (hnum : A.stod num = some value) :
    convert A K expression
      = match toBaseUnit A K value unit_from (to_lower unit_from) with
        | .error msg => .error msg
        | .ok (value_in_base_unit, is_speed, is_temp, is_mass) =>
          match fromBaseUnit A K value_in_base_unit is_speed is_temp is_mass unit_from unit_to
              (to_lower unit_to) with
          | .error msg => .error msg
          | .ok final_result => .ok (final_result, unit_to) := by
  unfold convert
  rw [hw]
  simp only [hkw, hnum, bne_self_eq_false, Bool.false_eq_true, if_false]

/-- C17. Unit families: for a conversion command `cmd number from to to`
whose number parses, `evaluateConversion` returns a numeric result rather than
an error message if and only if, compared case-insensitively, `from` and `to`
belong to the same one of the three families `{m/s, km/h}`, `{c, f, k}`,
`{kg, lb}`; between two families or with any other unit name the result is an
error message. -/
theorem unit_families (A : FloatEnv) (K : ConversionConstants A) (expression : String)
    (cmd num unit_from kw unit_to : String) (rest : List String) (value : A.F)
    (hw : wordsFrom expression.data [] = cmd :: num :: unit_from :: kw :: unit_to :: rest)
    (hkw : to_lower kw = "to") (hnum : A.stod num = some value) :
    ((∃ r, convert A K expression = .ok (r, unit_to)) ↔
      ∃ f, unitFamily (to_lower unit_from) = some f ∧ unitFamily (to_lower unit_to) = some f) ∧
    ((¬ ∃ f, unitFamily (to_lower unit_from) = some f ∧
        unitFamily (to_lower unit_to) = some f) →
      convert A K expression = .error ("Error: Unsupported source unit: " ++ unit_from) ∨
      convert A K expression
        = .error ("Error: Cannot convert " ++ unit_from ++ " to " ++ unit_to ++ ".") ∨
      convert A K expression = .error ("Error: Unsupported target unit: " ++ unit_to)) ∧
    (∀ (fixed : A.F → String) (r : A.F), convert A K expression = .ok (r, unit_to) →
      evaluateConversion K fixed expression = format_double fixed r ++ " " ++ unit_to) ∧
    (∀ (fixed : A.F → String) (msg : String), convert A K expression = .error msg →
      evaluateConversion K fixed expression = msg) := by
  have hconv := convert_words A K expression cmd num unit_from kw unit_to rest value hw hkw hnum
  have hbase := toBaseUnit_spec A K value unit_from (to_lower unit_from)
  have hcases : ((∃ r, convert A K expression = .ok (r, unit_to)) ∧
        ∃ f, unitFamily (to_lower unit_from) = some f ∧
          unitFamily (to_lower unit_to) = some f) ∨
      ((¬ ∃ f, unitFamily (to_lower unit_from) = some f ∧
          unitFamily (to_lower unit_to) = some f) ∧
        (convert A K expression = .error ("Error: Unsupported source unit: " ++ unit_from) ∨
        convert A K expression
          = .error ("Error: Cannot convert " ++ unit_from ++ " to " ++ unit_to ++ ".") ∨
        convert A K expression = .error ("Error: Unsupported target unit: " ++ unit_to))) := by
    cases hfam : unitFamily (to_lower unit_from) with
    | none =>
      right
      refine ⟨(by rintro ⟨f, hf, _⟩; cases hf), Or.inl ?_⟩
      rw [hconv, hbase.2 hfam]
    | some f =>
      obtain ⟨b, hb⟩ := hbase.1 f hfam
      have hfrom := fromBaseUnit_spec A K b f unit_from unit_to (to_lower unit_to)
      by_cases hto : unitFamily (to_lower unit_to) = some f
      · left
        obtain ⟨r, hr⟩ := hfrom.1 hto
        exact ⟨⟨r, by rw [hconv, hb]; simp only [hr]⟩, f, rfl, hto⟩
      · right
        refine ⟨?_, Or.inr ?_⟩
        · rintro ⟨g, hg, hg2⟩
          cases hg
          exact hto hg2
        · rcases hfrom.2 hto with hr | hr
          · exact Or.inl (by rw [hconv, hb]; simp only [hr])
          · exact Or.inr (by rw [hconv, hb]; simp only [hr])
  refine ⟨?_, ?_, ?_, ?_⟩
  · rcases hcases with ⟨hok, hf⟩ | ⟨hnf, herr⟩
    · exact ⟨fun _ => hf, fun _ => hok⟩
    · constructor
      · rintro ⟨r, hr⟩
        rcases herr with h | h | h <;> rw [h] at hr <;> cases hr
      · intro hf
        exact absurd hf hnf
  · intro hnf
    rcases hcases with ⟨_, hf⟩ | ⟨_, herr⟩
    · exact absurd hf hnf
    · exact herr
  · intro fixed r hr
    simp only [evaluateConversion, hr]
  · intro fixed msg hm
    simp only [evaluateConversion, hm]

theorem unit_families_witness :
    wordsFrom "CONVERT 100 Kg TO lb".data [] = "CONVERT" :: "100" :: "Kg" :: "TO" :: "lb" :: [] ∧
      to_lower "TO" = "to" ∧ exactEnv.stod "100" = some (decimalValue "100") ∧
      ((∃ r, convert exactEnv exactConstants "CONVERT 100 Kg TO lb" = .ok (r, "lb")) ↔
        ∃ f, unitFamily (to_lower "Kg") = some f ∧ unitFamily (to_lower "lb") = some f) :=
  ⟨by decide, by decide, rfl,
    (unit_families exactEnv exactConstants "CONVERT 100 Kg TO lb" "CONVERT" "100" "Kg" "TO" "lb"
      [] (decimalValue "100") (by decide) (by decide) rfl).1⟩

end SMAI
